import Mathlib

/-!
# simple-scheme-parser: the evaluator of `evaluation.c`

A shallow embedding of `src/src/evaluation.c`, and of `recurse_express` and
`S_Expression` of `src/src/parser.c`, and theorems about them.

## Modelling decisions

* `Cell` is the type of `Cell*` values.  Cells are never written after the
  function that allocates them returns, so a pointer is modelled by the tree
  it points to.  `Cell.null` is the `NULL` pointer; `Cell.TRUE` and
  `Cell.FALSE` are the two global sentinel cells (all of whose fields are
  `NULL`), which the code compares by address; `Cell.mk` is any other cell.
* `SList` is `List` (`struct stringOfCells`) of `parser.h`; the name `List`
  is Lean's list type.  A `List*` that may be `NULL` is an `Option SList`.
  Every `List` the evaluator returns is freshly allocated or owned by the
  caller alone, so the in-place updates of `car`, `cdr` and of
  `recurse_eval` are modelled by returning the updated wrapper.
* `Env` is a `List*` used as an environment.  The address of the wrapper is
  observed by `environment == mAssocVars`; `Env.store` is `some k` for the
  k-th wrapper that `mAssocVars` has pointed to and `none` for any other
  wrapper (a call's local environment).
* Dereferencing `NULL` (also `strcmp`, `atoi`, `strlen` of `NULL`) is a
  `Fault.nullDeref`.  The evaluator recurses without bound (a user function
  may call itself), so `recurse_eval` takes fuel and reports
  `Fault.outOfFuel` when it runs out.
* `int` is a 32-bit two's complement integer: `wrapInt`.  `atoi` is
  `(int) strtol(s, NULL, 10)` with a 64-bit `long`: a number outside `long`
  is limited to `LONG_MAX` or `LONG_MIN` before the conversion to `int`.
* Where C leaves the order of evaluation of two arguments open the model
  evaluates left to right.
-/

namespace SchemeEval

/-! ## Data model -/

/-- Ways an evaluation can fail to return. -/
inductive Fault where
  | nullDeref
  | outOfFuel
  deriving DecidableEq, Repr

/-- Values of type `Cell*`. -/
inductive Cell where
  | null : Cell
  | TRUE : Cell
  | FALSE : Cell
  | mk (mSymbol : Option String) (mNext : Cell) (mSub : Cell) : Cell
  deriving DecidableEq, Repr

/-- The wrapper `List` of `parser.h`. -/
structure SList where
  mStructure : Cell
  deriving DecidableEq, Repr

/-- An environment: a `List*` together with what identifies its wrapper. -/
structure Env where
  mStructure : Cell
  store : Option Nat
  deriving DecidableEq, Repr

/-- The static variables `mAssocVars` and `mAssocFns`. `varsGen` counts the
assignments to `mAssocVars`, and so names the wrapper it points to. -/
structure Globals where
  mAssocVars : Cell
  varsGen : Nat
  mAssocFns : Cell
  deriving DecidableEq, Repr

/-- Test `p == NULL`. -/
def Cell.isNull : Cell → Bool
  | .null => true
  | _ => false

/-- Read `p->mSymbol`. -/
def Cell.mSymbol : Cell → Except Fault (Option String)
  | .null => .error .nullDeref
  | .TRUE => .ok none
  | .FALSE => .ok none
  | .mk s _ _ => .ok s

/-- Read `p->mNext`. -/
def Cell.mNext : Cell → Except Fault Cell
  | .null => .error .nullDeref
  | .TRUE => .ok .null
  | .FALSE => .ok .null
  | .mk _ n _ => .ok n

/-- Read `p->mSub`. -/
def Cell.mSub : Cell → Except Fault Cell
  | .null => .error .nullDeref
  | .TRUE => .ok .null
  | .FALSE => .ok .null
  | .mk _ _ s => .ok s

/-- Read `list->mStructure` of a `List*` that may be `NULL`. -/
def deref : Option SList → Except Fault Cell
  | none => .error .nullDeref
  | some l => .ok l.mStructure

/-- The function `iniCell`: a new cell with all members `NULL`. -/
def iniCell : Cell := .mk none .null .null

/-- A new cell carrying only a symbol: `iniCell` followed by a `strcpy`
into `mSymbol`. -/
def symCell (s : String) : Cell := .mk (some s) .null .null

/-- The function `wrapStructure`. -/
def wrapStructure (cell : Cell) : SList := ⟨cell⟩

/-- The function `iniAssocList`. -/
def iniAssocList : SList := wrapStructure (symCell "#f")

/-- The comparison `strcmp(a, b) == 0`; either pointer may be `NULL`. -/
def strEq (a b : Option String) : Except Fault Bool :=
  match a, b with
  | some x, some y => .ok (x == y)
  | _, _ => .error .nullDeref

/-- The guard `p != NULL && strcmp(p, lit) == 0`. -/
def symIs (s : Option String) (lit : String) : Bool :=
  match s with
  | some x => x == lit
  | none => false

/-- The guard `p != NULL && p->mSymbol != NULL && strcmp(p->mSymbol, lit) == 0`. -/
def cellSymIs (p : Cell) (lit : String) : Bool :=
  match p with
  | .mk (some x) _ _ => x == lit
  | _ => false

/-! ## Machine integers, `atoi` and `sprintf("%i")` -/

/-- Reduction of an integer to the range of a 32-bit `int`. -/
def wrapInt (x : Int) : Int := (x + 2147483648) % 4294967296 - 2147483648

/-- The predicate `isspace` of the C locale. -/
def isspaceC (c : Char) : Bool :=
  c = ' ' || c.toNat = 9 || c.toNat = 10 || c.toNat = 11 || c.toNat = 12 || c.toNat = 13

/-- Value of the longest prefix of decimal digits, continuing from `acc`. -/
def digitsValue : List Char → Nat → Nat
  | [], acc => acc
  | c :: cs, acc =>
    if 48 ≤ c.toNat ∧ c.toNat ≤ 57 then digitsValue cs (acc * 10 + (c.toNat - 48)) else acc

/-- The signed number that starts a character sequence. -/
def signedValue : List Char → Int
  | '-' :: ds => -((digitsValue ds 0 : Nat) : Int)
  | '+' :: ds => ((digitsValue ds 0 : Nat) : Int)
  | ds => ((digitsValue ds 0 : Nat) : Int)

/-- The limits of `strtol`: a value outside the 64-bit `long` is replaced by
`LONG_MAX` or by `LONG_MIN`. -/
def clampLong (x : Int) : Int :=
  if x > 9223372036854775807 then 9223372036854775807
  else if x < -9223372036854775808 then -9223372036854775808
  else x

/-- The library function `atoi`, which is `(int) strtol(s, NULL, 10)`: skip
white space, read an optional sign and the digits that follow; the text
after them is ignored and a text without digits gives 0.  A value outside
`long` is limited by `clampLong`, and the conversion of the `long` to `int`
reduces it by `wrapInt`. -/
def atoiText (s : String) : Int :=
  wrapInt (clampLong (signedValue (s.data.dropWhile isspaceC)))

/-- The call `atoi(p)`, `p` possibly `NULL`. -/
def atoi (p : Option String) : Except Fault Int :=
  match p with
  | none => .error .nullDeref
  | some s => .ok (atoiText s)

/-- Decimal digits of a natural number, most significant first; `fuel`
bounds the number of digits. -/
def decDigits : Nat → Nat → List Char → List Char
  | 0, _, acc => acc
  | fuel + 1, n, acc =>
    if n < 10 then Char.ofNat (48 + n) :: acc
    else decDigits fuel (n / 10) (Char.ofNat (48 + n % 10) :: acc)

/-- The text that `sprintf(buf, "%i", n)` writes. -/
def sprintf_i (n : Int) : String :=
  if n < 0 then String.mk ('-' :: decDigits (n.natAbs + 1) n.natAbs [])
  else String.mk (decDigits (n.natAbs + 1) n.natAbs [])

/-- A new cell labelled with the decimal text of `n`. -/
def numCell (n : Int) : Cell := symCell (sprintf_i n)

/-! ## Primitives that receive evaluated arguments -/

/-- The function `quote`. -/
def quote (list : SList) : SList := list

/-- The function `car`: `list->mStructure = list->mStructure->mSub`. -/
def car (list : SList) : Except Fault SList := do
  let sub ← list.mStructure.mSub
  pure ⟨sub⟩

/-- The function `cdr`: advance to `mNext`, or to a new empty cell when
there is none. -/
def cdr (list : SList) : Except Fault SList := do
  let next ← list.mStructure.mNext
  if !next.isNull then pure ⟨next⟩ else pure ⟨iniCell⟩

/-- The function `isSymbol`. -/
def isSymbol (list : SList) : Except Fault SList := do
  let sym ← list.mStructure.mSymbol
  if sym.isSome then pure (wrapStructure .TRUE) else pure (wrapStructure .FALSE)

/-- The function `cons`. -/
def cons (la lb : SList) : Except Fault SList := do
  let shell := lb.mStructure
  let shellSub ← shell.mSub
  if cellSymIs shellSub "#f" then
    pure (wrapStructure (.mk none .null (.mk none .null la.mStructure)))
  else
    pure (wrapStructure (.mk none shell la.mStructure))

/-- The function `isEmptyStructure`; the result is the C `int` 1 or 0. -/
def isEmptyStructure : Cell → Except Fault Int
  | .null => .error .nullDeref
  | .TRUE => .ok 1
  | .FALSE => .ok 1
  | .mk sym next sub =>
    if sym.isSome && !symIs sym "quote" && !symIs sym "()" && !symIs sym "#f"
        && !symIs sym "#t" then .ok 0
    else do
      let emptyBranch ← if !sub.isNull then isEmptyStructure sub else pure 1
      if emptyBranch == 1 && !next.isNull then isEmptyStructure next else pure emptyBranch

/-- The function `isNull`. -/
def isNull (list : SList) : Except Fault SList := do
  let cell := list.mStructure
  let sym ← cell.mSymbol
  if cell = .TRUE || symIs sym "#t" then pure (wrapStructure .FALSE)
  else if cell = .FALSE || symIs sym "#f" then pure (wrapStructure .TRUE)
  else if (← isEmptyStructure cell) == 1 then pure (wrapStructure .TRUE)
  else pure (wrapStructure .FALSE)

/-- The loop `while (focus->mSub != NULL) focus = focus->mSub` of
`findAssoc`, started at a cell that is not `NULL`. -/
def lowest : Cell → Cell
  | .mk sym next sub => if sub.isNull then .mk sym next sub else lowest sub
  | c => c

/-- The function `findAssoc`. The test `focus != pair` holds whenever it is
reached, because `pair->mSub` is not `NULL` there. -/
def findAssoc (symbol : Cell) : Cell → Except Fault Cell
  | .null => .error .nullDeref
  | .TRUE => .ok .null
  | .FALSE => .ok .null
  | .mk _ next sub =>
    if sub.isNull then .ok .null
    else do
      let focus := lowest sub
      if ← strEq (← symbol.mSymbol) (← focus.mSymbol) then pure sub
      else if !next.isNull then findAssoc symbol next
      else pure .null

/-- The function `assoc`. -/
def assoc (symbolParent : Cell) (assocList : SList) : Except Fault SList := do
  if assocList.mStructure.isNull then pure (wrapStructure symbolParent)
  else
    let found ←
      if (← symbolParent.mSub).isNull then findAssoc symbolParent assocList.mStructure
      else findAssoc (← symbolParent.mSub) assocList.mStructure
    if !found.isNull then pure (wrapStructure found)
    else pure (wrapStructure (symCell "#f"))

/-- The function `compareEqual`, on two cells that are not `NULL`. -/
def compareEqual : Cell → Cell → Except Fault Cell
  | .null, _ => .error .nullDeref
  | _, .null => .error .nullDeref
  | .TRUE, c2 => do
    if (← c2.mSymbol).isSome then pure .FALSE
    else if !(← c2.mSub).isNull then pure .FALSE
    else if !(← c2.mNext).isNull then pure .FALSE
    else pure .TRUE
  | .FALSE, c2 => do
    if (← c2.mSymbol).isSome then pure .FALSE
    else if !(← c2.mSub).isNull then pure .FALSE
    else if !(← c2.mNext).isNull then pure .FALSE
    else pure .TRUE
  | .mk sym1 next1 sub1, c2 => do
    let sym2 ← c2.mSymbol
    let sub2 ← c2.mSub
    let next2 ← c2.mNext
    if sym1.isSome && sym2.isSome && sym1 != sym2 then pure .FALSE
    else if sym1.isSome != sym2.isSome then pure .FALSE
    else if sub1.isNull != sub2.isNull then pure .FALSE
    else
      let equals ← if !sub1.isNull && !sub2.isNull then compareEqual sub1 sub2 else pure .TRUE
      if equals = .FALSE then pure .FALSE
      else if !next1.isNull && !next2.isNull then compareEqual next1 next2
      else if next1.isNull != next2.isNull then pure .FALSE
      else pure equals

/-- The function `isEqual`. -/
def isEqual (la lb : SList) : Except Fault SList :=
  if !la.mStructure.isNull && !lb.mStructure.isNull then do
    pure (wrapStructure (← compareEqual la.mStructure lb.mStructure))
  else if la.mStructure.isNull && lb.mStructure.isNull then pure (wrapStructure .TRUE)
  else pure (wrapStructure .FALSE)

/-- The function `appendSubstitute`. -/
def appendSubstitute : Cell → SList → Except Fault Cell
  | .null, _ => .error .nullDeref
  | .TRUE, secondList => .ok (.mk none secondList.mStructure .null)
  | .FALSE, secondList => .ok (.mk none secondList.mStructure .null)
  | .mk _ next sub, secondList =>
    if !next.isNull then do
      pure (.mk none (← appendSubstitute next secondList) sub)
    else .ok (.mk none secondList.mStructure sub)

/-- The function `append`. -/
def append (la lb : SList) : Except Fault SList := do
  let head ← appendSubstitute la.mStructure lb
  pure (wrapStructure head)

/-- The function `define`. -/
def define (symbol value environment : SList) : Except Fault SList := do
  let emptyList := symCell "#f"
  let droppedLevel ← cons value (wrapStructure emptyList)
  let pair ← cons symbol droppedLevel
  cons pair environment

/-- The function `cadr`. -/
def cadr (list : SList) : Except Fault SList := do car (← cdr list)

/-- The function `caddr`. -/
def caddr (list : SList) : Except Fault SList := do car (← cdr (← cdr list))

/-- The function `cadddr`. -/
def cadddr (list : SList) : Except Fault SList := do car (← cdr (← cdr (← cdr list)))

/-- The function `caddddr`. -/
def caddddr (list : SList) : Except Fault SList := do
  car (← cdr (← cdr (← cdr (← cdr list))))

/-- The function `cdar`. -/
def cdar (list : SList) : Except Fault SList := do cdr (← car list)

/-- The loop of `last`: the final cell of a chain that is not `NULL`. -/
def lastCell : Cell → Cell
  | .mk sym next sub => if next.isNull then .mk sym next sub else lastCell next
  | c => c

/-- The function `last`. -/
def last (list : SList) : Except Fault SList := do
  let focus := lastCell list.mStructure
  pure (wrapStructure (← focus.mSub))

/-- The counting loop of `length`. -/
def countCells : Cell → Int → Int
  | .mk _ next _, count => countCells next (wrapInt (count + 1))
  | .null, count => count
  | _, count => wrapInt (count + 1)

/-- The function `length`. -/
def length (list : SList) : Except Fault SList := do
  let count ←
    if (← isEmptyStructure list.mStructure) != 1 then pure (countCells list.mStructure 0)
    else pure 0
  pure ⟨numCell count⟩

/-- The function `logicNot`. -/
def logicNot (list : SList) : SList :=
  if list.mStructure = .TRUE then wrapStructure .FALSE else wrapStructure .TRUE

/-- The function `lessThan`. -/
def lessThan (la lb : SList) : Except Fault SList := do
  let num1 ← atoi (← la.mStructure.mSymbol)
  let num2 ← atoi (← lb.mStructure.mSymbol)
  if num1 < num2 then pure (wrapStructure .TRUE) else pure (wrapStructure .FALSE)

/-- The function `greaterThan`. -/
def greaterThan (la lb : SList) : Except Fault SList := do
  let num1 ← atoi (← la.mStructure.mSymbol)
  let num2 ← atoi (← lb.mStructure.mSymbol)
  if num1 > num2 then pure (wrapStructure .TRUE) else pure (wrapStructure .FALSE)

/-- The function `lessThanOrEqualTo`. -/
def lessThanOrEqualTo (la lb : SList) : Except Fault SList := do
  let num1 ← atoi (← la.mStructure.mSymbol)
  let num2 ← atoi (← lb.mStructure.mSymbol)
  if num1 ≤ num2 then pure (wrapStructure .TRUE) else pure (wrapStructure .FALSE)

/-- The function `greaterThanOrEqualTo`. -/
def greaterThanOrEqualTo (la lb : SList) : Except Fault SList := do
  let num1 ← atoi (← la.mStructure.mSymbol)
  let num2 ← atoi (← lb.mStructure.mSymbol)
  if num1 ≥ num2 then pure (wrapStructure .TRUE) else pure (wrapStructure .FALSE)

/-- The function `isList`. -/
def isList (list : SList) : SList :=
  match list.mStructure with
  | .null => wrapStructure .FALSE
  | .TRUE => wrapStructure .FALSE
  | .FALSE => wrapStructure .FALSE
  | .mk _ _ sub => if sub.isNull then wrapStructure .FALSE else wrapStructure .TRUE

/-- The character test in the loop of `isNumber`: `ch` at index `i` ends
the scan with `FALSE`. -/
def notNumberChar (ch : Char) (i : Nat) : Bool :=
  !(48 ≤ ch.toNat && ch.toNat ≤ 57) && (i != 0 || ch != '-')

/-- The loop of `isNumber` from index `i` on. -/
def scanNumber : List Char → Nat → Cell
  | [], _ => .TRUE
  | ch :: rest, i => if notNumberChar ch i then .FALSE else scanNumber rest (i + 1)

/-- The function `isNumber`. -/
def isNumber (list : SList) : Except Fault SList := do
  let cell0 := list.mStructure
  let sub ← cell0.mSub
  let cell := if !sub.isNull then sub else cell0
  match ← cell.mSymbol with
  | none => .error .nullDeref
  | some symbol => pure (wrapStructure (scanNumber symbol.data 0))

/-! ## Handlers that evaluate their own operands

Each takes the evaluator `ev` it calls back into; `recurse_eval` passes
itself with one unit of fuel less. -/

/-- Type of the evaluator: `recurse_eval` with the globals made explicit. -/
abbrev Evaluator := Cell → Env → Globals → Except Fault (Option SList × Globals)

/-- The environment as the `List*` argument of `assoc`, `cons`, `define`. -/
def Env.list (environment : Env) : SList := ⟨environment.mStructure⟩

/-- The function `assocForVar`. -/
def assocForVar (cell : Cell) (environment : SList) : Except Fault SList := do
  let associated ← assoc cell environment
  if symIs (← associated.mStructure.mSymbol) "#f" then pure (wrapStructure cell)
  else cadr associated

/-- The function `assocForFn`. The flag tells that the result wraps the
argument `cell` itself (the early return), which is what the caller tests
with `list->mStructure != cell`: every other result is a cell allocated by
`cons` or by `assoc`, at another address than the cell being evaluated. -/
def assocForFn (cell : Cell) (g : Globals) : Except Fault (SList × Bool) := do
  let associated ← assoc cell ⟨g.mAssocFns⟩
  if symIs (← associated.mStructure.mSymbol) "#f" then pure (wrapStructure cell, true)
  else
    let r ← assoc (← cell.mSub) ⟨g.mAssocFns⟩
    pure (r, false)

/-- The function `defineFunction`; it returns `NULL`. -/
def defineFunction (nameParams expression : SList) (g : Globals) :
    Except Fault (Option SList × Globals) := do
  let emptyList := symCell "#f"
  let droppedLevel ← cons expression (wrapStructure emptyList)
  let pair ← cons nameParams droppedLevel
  let fns ← cons pair ⟨g.mAssocFns⟩
  pure (none, { g with mAssocFns := fns.mStructure })

/-- The loop of `bindLocals` over the formal parameters `focus`. -/
def bindLoop (ev : Evaluator) (oldEnviro : Env) :
    Cell → Cell → SList → Globals → Except Fault (SList × Globals)
  | .null, _, newEnviro, g => .ok (newEnviro, g)
  | .mk _ next sub, param, newEnviro, g => do
    let (actual, g1) ← ev (← param.mSub) oldEnviro g
    let value ← deref actual
    let newEnviro1 ← define (wrapStructure sub) ⟨value⟩ newEnviro
    bindLoop ev oldEnviro next (← param.mNext) newEnviro1 g1
  | _, param, newEnviro, g => do
    let (actual, g1) ← ev (← param.mSub) oldEnviro g
    let value ← deref actual
    let newEnviro1 ← define (wrapStructure .null) ⟨value⟩ newEnviro
    pure (newEnviro1, g1)

/-- The function `bindLocals`. -/
def bindLocals (ev : Evaluator) (formalParams actualParams newEnviro : SList)
    (oldEnviro : Env) (g : Globals) : Except Fault (SList × Globals) :=
  bindLoop ev oldEnviro formalParams.mStructure actualParams.mStructure newEnviro g

/-- The loop of `makeList` from the operand cell `parent`, which is not
`NULL`: the chain of the evaluated operands. -/
def makeListLoop (ev : Evaluator) (environment : Env) :
    Cell → Globals → Except Fault (Cell × Globals)
  | .mk _ next sub, g => do
    let (toJoin, g1) ← ev sub environment g
    let joined ← deref toJoin
    if !next.isNull then
      let (rest, g2) ← makeListLoop ev environment next g1
      pure (.mk none rest joined, g2)
    else pure (.mk none .null joined, g1)
  | parent, g => do
    let (toJoin, g1) ← ev (← parent.mSub) environment g
    let joined ← deref toJoin
    pure (.mk none .null joined, g1)

/-- The function `makeList`. -/
def makeList (ev : Evaluator) (cell : Cell) (environment : Env) (g : Globals) :
    Except Fault (Option SList × Globals) := do
  let parent ← cell.mNext
  if parent.isNull then pure (some ⟨iniCell⟩, g)
  else
    let (chain, g1) ← makeListLoop ev environment parent g
    pure (some ⟨chain⟩, g1)

/-- The loop shared by `add`, `subtract` and `multiply`: fold `op` over the
`atoi` of the evaluated operands from `parent` on. -/
def arithLoop (op : Int → Int → Int) (ev : Evaluator) (environment : Env) :
    Cell → Int → Globals → Except Fault (Int × Globals)
  | .null, acc, g => .ok (acc, g)
  | .mk _ next sub, acc, g => do
    let (member, g1) ← ev sub environment g
    let n ← atoi (← (← deref member).mSymbol)
    arithLoop op ev environment next (wrapInt (op acc n)) g1
  | parent, acc, g => do
    let (member, g1) ← ev (← parent.mSub) environment g
    let n ← atoi (← (← deref member).mSymbol)
    pure (wrapInt (op acc n), g1)

/-- The function `add`. -/
def add (ev : Evaluator) (cell : Cell) (environment : Env) (g : Globals) :
    Except Fault (Option SList × Globals) := do
  let parent ← cell.mNext
  let (sum, g1) ← arithLoop (fun a b => a + b) ev environment parent 0 g
  pure (some (wrapStructure (numCell sum)), g1)

/-- The function `subtract`. -/
def subtract (ev : Evaluator) (cell : Cell) (environment : Env) (g : Globals) :
    Except Fault (Option SList × Globals) := do
  let parent ← cell.mNext
  let (firstNum, g1) ← ev (← parent.mSub) environment g
  let difference ← atoi (← (← deref firstNum).mSymbol)
  let parent1 ← parent.mNext
  let (difference1, g2) ← arithLoop (fun a b => a - b) ev environment parent1 difference g1
  pure (some (wrapStructure (numCell difference1)), g2)

/-- The function `multiply`. -/
def multiply (ev : Evaluator) (cell : Cell) (environment : Env) (g : Globals) :
    Except Fault (Option SList × Globals) := do
  let parent ← cell.mNext
  let (product, g1) ← arithLoop (fun a b => a * b) ev environment parent 1 g
  pure (some (wrapStructure (numCell product)), g1)

/-- The loop of `logicAnd` from `parent` on. -/
def logicAndLoop (ev : Evaluator) (environment : Env) :
    Cell → Globals → Except Fault (Option SList × Globals)
  | .null, g => .ok (some (wrapStructure .TRUE), g)
  | .mk _ next sub, g => do
    let (resolution, g1) ← ev sub environment g
    if (← deref resolution) = .FALSE then pure (some (wrapStructure .FALSE), g1)
    else logicAndLoop ev environment next g1
  | parent, g => do
    let (resolution, g1) ← ev (← parent.mSub) environment g
    if (← deref resolution) = .FALSE then pure (some (wrapStructure .FALSE), g1)
    else pure (some (wrapStructure .TRUE), g1)

/-- The function `logicAnd`. -/
def logicAnd (ev : Evaluator) (cell : Cell) (environment : Env) (g : Globals) :
    Except Fault (Option SList × Globals) := do
  logicAndLoop ev environment (← cell.mNext) g

/-- The loop of `logicOr` from `parent` on. -/
def logicOrLoop (ev : Evaluator) (environment : Env) :
    Cell → Globals → Except Fault (Option SList × Globals)
  | .null, g => .ok (some (wrapStructure .FALSE), g)
  | .mk _ next sub, g => do
    let (resolution, g1) ← ev sub environment g
    if (← deref resolution) = .TRUE then pure (some (wrapStructure .TRUE), g1)
    else logicOrLoop ev environment next g1
  | parent, g => do
    let (resolution, g1) ← ev (← parent.mSub) environment g
    if (← deref resolution) = .TRUE then pure (some (wrapStructure .TRUE), g1)
    else pure (some (wrapStructure .FALSE), g1)

/-- The function `logicOr`. -/
def logicOr (ev : Evaluator) (cell : Cell) (environment : Env) (g : Globals) :
    Except Fault (Option SList × Globals) := do
  logicOrLoop ev environment (← cell.mNext) g

/-- The guard of `cond` for a clause whose predicate is textually `else`
or `#t`, `pairSub` being `pairParent->mSub`. -/
def isElseClause (pairSub : Cell) : Bool :=
  match pairSub with
  | .mk _ _ (.mk (some s) _ _) => s == "else" || s == "#t"
  | _ => false

/-- The body of the loop of `cond` for the clause `pairSub`: the result when
the clause is taken, `none` when the loop goes on. -/
def condClause (ev : Evaluator) (environment : Env) (pairSub : Cell) (g : Globals) :
    Except Fault (Option (Option SList × Globals) × Globals) := do
  if isElseClause pairSub then
    let r ← ev (← (← pairSub.mNext).mSub) environment g
    pure (some r, r.2)
  else
    let (resolution, g1) ← ev (← pairSub.mSub) environment g
    if (← deref resolution) = .TRUE then
      let r ← ev (← (← pairSub.mNext).mSub) environment g1
      pure (some r, r.2)
    else pure (none, g1)

/-- The loop of `cond` from `pairParent` on. -/
def condLoop (ev : Evaluator) (environment : Env) :
    Cell → Globals → Except Fault (Option SList × Globals)
  | .null, g => .ok (some (wrapStructure .FALSE), g)
  | .mk _ next sub, g => do
    match ← condClause ev environment sub g with
    | (some r, _) => pure r
    | (none, g1) => condLoop ev environment next g1
  | _, g => do
    match ← condClause ev environment .null g with
    | (some r, _) => pure r
    | (none, g1) => pure (some (wrapStructure .FALSE), g1)

/-- The function `cond`. -/
def cond (ev : Evaluator) (cell : Cell) (environment : Env) (g : Globals) :
    Except Fault (Option SList × Globals) := do
  condLoop ev environment (← cell.mNext) g

/-- The function `alternateIf`. -/
def alternateIf (ev : Evaluator) (cell : Cell) (environment : Env) (g : Globals) :
    Except Fault (Option SList × Globals) := do
  let condition ← (← cell.mNext).mSub
  let (resolution, g1) ← ev condition environment g
  if (← deref resolution) = .TRUE then
    ev (← (← (← cell.mNext).mNext).mSub) environment g1
  else
    ev (← (← (← (← cell.mNext).mNext).mNext).mSub) environment g1

/-! ## The dispatcher -/

/-- The operand `cell->mNext->mSub`. -/
def operand1 (cell : Cell) : Except Fault Cell := do (← cell.mNext).mSub

/-- The operand `cell->mNext->mNext->mSub`. -/
def operand2 (cell : Cell) : Except Fault Cell := do (← (← cell.mNext).mNext).mSub

/-- A dispatch of the form `return f(recurse_eval(cell->mNext->mSub, environment))`. -/
def applyUnary (ev : Evaluator) (f : SList → Except Fault SList) (cell : Cell)
    (environment : Env) (g : Globals) : Except Fault (Option SList × Globals) := do
  let (a, g1) ← ev (← operand1 cell) environment g
  let la ← deref a
  pure (some (← f ⟨la⟩), g1)

/-- A dispatch of the form `return f(recurse_eval(cell->mNext->mSub, environment),
recurse_eval(cell->mNext->mNext->mSub, environment))`. -/
def applyBinary (ev : Evaluator) (f : SList → SList → Except Fault SList) (cell : Cell)
    (environment : Env) (g : Globals) : Except Fault (Option SList × Globals) := do
  let (a, g1) ← ev (← operand1 cell) environment g
  let (b, g2) ← ev (← operand2 cell) environment g1
  let la ← deref a
  let lb ← deref b
  pure (some (← f ⟨la⟩ ⟨lb⟩), g2)

/-- The branch `define` of `recurse_eval`. -/
def evalDefine (ev : Evaluator) (cell : Cell) (environment : Env) (g : Globals) :
    Except Fault (Option SList × Globals) := do
  let (key, g1) ← ev (← operand1 cell) environment g
  let (value, g2) ← ev (← operand2 cell) environment g1
  let keyCell ← deref key
  if (isList ⟨keyCell⟩).mStructure = .FALSE then
    let valueCell ← deref value
    let enviro ← define ⟨keyCell⟩ ⟨valueCell⟩ environment.list
    if environment.store = some g2.varsGen then
      pure (none, { g2 with mAssocVars := enviro.mStructure, varsGen := g2.varsGen + 1 })
    else pure (none, g2)
  else defineFunction ⟨keyCell⟩ (wrapStructure (← operand2 cell)) g2

/-- The branch of `recurse_eval` for a cell that carries a symbol and has no
`mSub`. -/
def evalSymbol (cell : Cell) (environment : Env) : Except Fault SList := do
  let associated ← assoc cell environment.list
  if symIs (← associated.mStructure.mSymbol) "#f" then pure (wrapStructure cell)
  else car (← cdr associated)

/-- The end of `recurse_eval`, from "Recurse right" on. -/
def evalRest (ev : Evaluator) (cell : Cell) (environment : Env) (atomBelow : Bool)
    (g : Globals) : Except Fault (Option SList × Globals) := do
  let next ← cell.mNext
  let g1 ←
    if !next.isNull then do
      let (list, g1) ← ev next environment g
      let _ ← deref list
      pure g1
    else pure g
  if atomBelow then
    let (list, same) ← assocForFn cell g1
    if !same then
      let formalParams ← cdr (wrapStructure (← list.mStructure.mSub))
      let actualParams ← cdr (wrapStructure cell)
      let localEnv := iniAssocList
      let (localEnv1, g2) ← bindLocals ev formalParams actualParams localEnv environment g1
      let body ← car (← cdr list)
      ev body.mStructure ⟨localEnv1.mStructure, none⟩ g2
    else
      pure (some (← assocForVar cell environment.list), g1)
  else pure (some (wrapStructure cell), g1)

/-- The function `recurse_eval`, with `fuel` bounding the depth of the
recursion. -/
def recurse_eval : Nat → Evaluator
  | 0, _, _, _ => .error .outOfFuel
  | fuel + 1, cell, environment, g => do
    let ev := recurse_eval fuel
    let sub ← cell.mSub
    if !sub.isNull then
      match ← sub.mSymbol with
      | none =>
        let (_, g1) ← ev sub environment g
        evalRest ev cell environment false g1
      | some sym =>
        if sym == "quote" then
          let operand ← operand1 cell
          let _ ← operand.mSub
          pure (some (quote ⟨operand⟩), g)
        else if sym == "cons" then applyBinary ev cons cell environment g
        else if sym == "list" then makeList ev cell environment g
        else if sym == "last" then applyUnary ev last cell environment g
        else if sym == "length" then applyUnary ev length cell environment g
        else if sym == "+" then add ev cell environment g
        else if sym == "-" then subtract ev cell environment g
        else if sym == "*" then multiply ev cell environment g
        else if sym == "AND" || sym == "and" then logicAnd ev cell environment g
        else if sym == "OR" || sym == "or" then logicOr ev cell environment g
        else if sym == "NOT" || sym == "not" then
          applyUnary ev (fun l => pure (logicNot l)) cell environment g
        else if sym == "<" then applyBinary ev lessThan cell environment g
        else if sym == ">" then applyBinary ev greaterThan cell environment g
        else if sym == "<=" then applyBinary ev lessThanOrEqualTo cell environment g
        else if sym == ">=" then applyBinary ev greaterThanOrEqualTo cell environment g
        else if sym == "car" then applyUnary ev car cell environment g
        else if sym == "cdr" then applyUnary ev cdr cell environment g
        else if sym == "cadr" then applyUnary ev cadr cell environment g
        else if sym == "caddr" then applyUnary ev caddr cell environment g
        else if sym == "cadddr" then applyUnary ev cadddr cell environment g
        else if sym == "caddddr" then applyUnary ev caddddr cell environment g
        else if sym == "cdar" then applyUnary ev cdar cell environment g
        else if sym == "symbol?" then applyUnary ev isSymbol cell environment g
        else if sym == "append" then applyBinary ev append cell environment g
        else if sym == "null?" then applyUnary ev isNull cell environment g
        else if sym == "equal?" then applyBinary ev isEqual cell environment g
        else if sym == "define" then evalDefine ev cell environment g
        else if sym == "assoc" then
          let key ← (← operand1 cell).mNext
          let (l, g1) ← ev (← operand2 cell) environment g
          let assocList ← deref l
          pure (some (← assoc key ⟨assocList⟩), g1)
        else if sym == "cond" then cond ev cell environment g
        else if sym == "if" then alternateIf ev cell environment g
        else if sym == "number?" then
          applyUnary ev isNumber cell environment g
        else if sym == "list?" then
          applyUnary ev (fun l => pure (isList l)) cell environment g
        else evalRest ev cell environment true g
    else if (← cell.mSymbol).isSome then
      pure (some (← evalSymbol cell environment), g)
    else evalRest ev cell environment false g

/-- The globals after `setupGlobals` in a new process. -/
def freshGlobals : Globals :=
  { mAssocVars := iniAssocList.mStructure, varsGen := 0, mAssocFns := iniAssocList.mStructure }

/-- The environment `mAssocVars` as `eval` passes it on. -/
def globalEnv (g : Globals) : Env := ⟨g.mAssocVars, some g.varsGen⟩

/-- The function `eval`. -/
def eval (fuel : Nat) (list : SList) (g : Globals) : Except Fault (Option SList × Globals) :=
  recurse_eval fuel list.mStructure (globalEnv g) g

/-! ## The parser of `parser.c`

The text in `mToken` and the tokens still to be delivered are passed along
as a `PState`; a parse that does not return gives `none`. -/

/-- The state of the parser: the text in the static buffer `mToken`, and the
tokens of the input that `getToken` has not delivered yet. -/
structure PState where
  mToken : String
  input : List String
  deriving DecidableEq, Repr

/-- Modelled from the spec: the statement `strcpy(mToken, getToken())`, with
`getToken` of `lexer.h` delivering the tokens of the input (`(`, `)`, the
single quote, symbols and numbers) one by one. There is no result when the
input has ended. Tokens are taken to fit the 20 bytes of the buffer. -/
def nextToken (st : PState) : Option PState :=
  match st.input with
  | [] => none
  | t :: rest => some ⟨t, rest⟩

/-- The loop `while (strcmp(mToken, ")") != 0)` of `recurse_express`, with `rx`
the recursive call and `fuel` bounding the iterations: the chain that ends
up in `temp->mNext`, and the state at the closing parenthesis. -/
def expressLoop (rx : PState → Option (Cell × PState)) : Nat → PState → Option (Cell × PState)
  | 0, _ => none
  | fuel + 1, st =>
    if st.mToken != ")" then
      match rx st with
      | none => none
      | some (sub, st1) =>
        match nextToken st1 with
        | none => none
        | some st2 =>
          match expressLoop rx fuel st2 with
          | none => none
          | some (next, st3) => some (.mk none next sub, st3)
    else some (.null, st)

/-- The branch of `recurse_express` for an open parenthesis in `mToken`: the
cell `local` when the closing parenthesis is reached. -/
def expressList (rx : PState → Option (Cell × PState)) (fuel : Nat) (st : PState) :
    Option (Cell × PState) :=
  match nextToken st with
  | none => none
  | some st1 =>
    match rx st1 with
    | none => none
    | some (sub, st2) =>
      match nextToken st2 with
      | none => none
      | some st3 =>
        match expressLoop rx fuel st3 with
        | none => none
        | some (next, st4) => some (.mk none next sub, st4)

/-- The function `recurse_express` of `parser.c`, with `fuel` bounding the depth
of the recursion and the iterations of its loop. There is no result when
the input ends before the expression, or the fuel runs out. -/
def recurse_express : Nat → PState → Option (Cell × PState)
  | 0, _ => none
  | fuel + 1, st =>
    if st.mToken == "'" then
      match nextToken st with
      | none => none
      | some st1 =>
        if st1.mToken != "(" then
          some (.mk none (.mk none .null (.mk (some st1.mToken) .null .null))
            (.mk (some "quote") .null .null), st1)
        else
          match expressList (recurse_express fuel) fuel st1 with
          | none => none
          | some (loc, st2) =>
            some (.mk none (.mk none .null loc) (.mk (some "quote") .null .null), st2)
    else if st.mToken == "(" then expressList (recurse_express fuel) fuel st
    else some (.mk (some st.mToken) .null .null, st)

/-- The function `S_Expression` of `parser.c` on the tokens `input`. -/
def S_Expression (fuel : Nat) (input : List String) : Option (SList × PState) :=
  match nextToken ⟨"", input⟩ with
  | none => none
  | some st =>
    match recurse_express fuel st with
    | none => none
    | some (cell, st1) => some (⟨cell⟩, st1)

/-! ## Parse trees

The shapes `recurse_express` of `parser.c` builds, used to write down
inputs. -/

/-- The cell of a symbol token. -/
def atom (s : String) : Cell := .mk (some s) .null .null

/-- The chain of the cells that hold the members of a parenthesised
expression. -/
def chain : List Cell → Cell
  | [] => .null
  | e :: es => .mk none (chain es) e

/-- The tree of `( e1 ... en )`. -/
def sexp (es : List Cell) : Cell := chain es

/-- The tree of the shorthand `'e` for an atom or a parenthesised `e`. -/
def quoted (e : Cell) : Cell := chain [atom "quote", e]

/-! ## Vocabulary of the statements -/

/-- The cell `cons` can prepend to: it is not `NULL` and its first member is
not an atom `#f`, so `cons` takes its normal branch.  `iniAssocList` and
every result of `define` are such cells. -/
def acceptsBinding : Cell → Bool
  | .null => false
  | .TRUE => true
  | .FALSE => true
  | .mk _ _ sub => !cellSymIs sub "#f"

/-- The pair `define` stores for a key and a value that is not an atom
`#f`: the key, followed by the value, followed by the atom `#f`. -/
def bindingPair (key value : Cell) : Cell :=
  .mk none (.mk none (symCell "#f") value) key

/-- The pair `define` stores for a key and any value: when the value is an
atom `#f`, `cons` takes its other branch and the value is dropped. -/
def storedPair (key value : Cell) : Cell :=
  if cellSymIs value "#f" then .mk none .null (.mk none .null key) else bindingPair key value

/-- The predicate position of a `cond` clause holds the text `else` or
`#t`. -/
def isElseAtom (p : Cell) : Bool := cellSymIs p "else" || cellSymIs p "#t"

/-- The tree of a `cond` clause `(p b)`. -/
def clause (pb : Cell × Cell) : Cell := sexp [pb.1, pb.2]

/-- Every clause of the list is passed over by `cond`: its predicate is not
the text `else` or `#t`, and evaluates to a handle that is not the `TRUE`
singleton; the evaluations take the globals from `g` to `g'`. -/
def ClausesFail (ev : Evaluator) (environment : Env) :
    List (Cell × Cell) → Globals → Globals → Prop
  | [], g, g' => g' = g
  | pb :: rest, g, g' =>
    isElseAtom pb.1 = false ∧
    ∃ (r : SList) (g1 : Globals), ev pb.1 environment g = .ok (some r, g1) ∧
      r.mStructure ≠ .TRUE ∧ ClausesFail ev environment rest g1 g'

/-- The operands `es`, evaluated in order from the globals `g`, return
handles on cells labelled `ls`, and leave the globals `g'`. -/
def OperandsEvalTo (ev : Evaluator) (environment : Env) :
    List Cell → Globals → List String → Globals → Prop
  | [], g, [], g' => g' = g
  | e :: es, g, l :: ls, g' =>
    ∃ (r : SList) (g1 : Globals), ev e environment g = .ok (some r, g1) ∧
      r.mStructure.mSymbol = .ok (some l) ∧ OperandsEvalTo ev environment es g1 ls g'
  | _, _, _, _ => False

/-- The keywords of the dispatch of `recurse_eval`. -/
def keywords : List String :=
  ["quote", "cons", "list", "last", "length", "+", "-", "*", "AND", "and", "OR", "or", "NOT",
   "not", "<", ">", "<=", ">=", "car", "cdr", "cadr", "caddr", "cadddr", "caddddr", "cdar",
   "symbol?", "append", "null?", "equal?", "define", "assoc", "cond", "if", "number?", "list?"]

/-- A character sequence starts like the text of an integer: a digit, or
`-` followed by something. -/
def numeralStart : List Char → Bool
  | [] => false
  | c :: rest => (c == '-' && !rest.isEmpty) || (48 ≤ c.toNat && c.toNat ≤ 57)

/-- The tree of `(define (double x) (* x 2))`. -/
def defineDouble : Cell :=
  sexp [atom "define", sexp [atom "double", atom "x"], sexp [atom "*", atom "x", atom "2"]]

/-- The globals of a session whose only input so far was `defineDouble`. -/
def doubleGlobals : Globals :=
  { freshGlobals with
    mAssocFns := .mk none (symCell "#f")
      (bindingPair (sexp [atom "double", atom "x"]) (sexp [atom "*", atom "x", atom "2"])) }

/-- The operands `es`, evaluated in order from the globals `g`, return handles
on the cells `rs`, and leave the globals `g'`. -/
def OperandsEval (ev : Evaluator) (environment : Env) :
    List Cell → Globals → List Cell → Globals → Prop
  | [], g, [], g' => g' = g
  | e :: es, g, r :: rs, g' =>
    ∃ g1 : Globals, ev e environment g = .ok (some ⟨r⟩, g1) ∧
      OperandsEval ev environment es g1 rs g'
  | _, _, _, _ => False

/-- The structure `makeList` returns for operands with the values `rs`: the
chain of the values, and a single empty cell when there is no operand. -/
def builtList : List Cell → Cell
  | [] => iniCell
  | r :: rs => chain (r :: rs)

/-- The label of a cell; `none` for a cell without symbol. -/
def labelOf : Cell → Option String
  | .mk s _ _ => s
  | _ => none

/-- Reference definition of the lookup, in the words of the specification: the
content of the first chain node of `L`, scanning along `mNext` and stopping
at the first node without content, whose leftmost leaf (reached by descending
`mSub`, as `lowest` does) is labelled `k`; `NULL` when there is no such node. -/
def firstMatch (k : String) : Cell → Cell
  | .mk _ next sub =>
    if sub.isNull then .null
    else if labelOf (lowest sub) = some k then sub
    else firstMatch k next
  | _ => .null

/-- Every chain node the scan for `k` visits, up to the first match or the
stop, has a leftmost leaf that carries a label. -/
def scanLabelled (k : String) : Cell → Bool
  | .mk _ next sub =>
    sub.isNull ||
      (match labelOf (lowest sub) with
        | none => false
        | some l => l == k || scanLabelled k next)
  | _ => true

/-- The labels `isEmptyStructure` passes over. -/
def reservedLabels : List String := ["quote", "()", "#f", "#t"]

/-- Reachability in the words of the specification: `Reach c d` says that `d`
is `c` itself or a node reached from `c` through content (`mSub`) and
continuation (`mNext`) links. -/
inductive Reach : Cell → Cell → Prop where
  | here (c : Cell) : Reach c c
  | sub (s : Option String) (n b d : Cell) : Reach b d → Reach (.mk s n b) d
  | next (s : Option String) (n b d : Cell) : Reach n d → Reach (.mk s n b) d

/-- A missing label, or a reserved one. -/
def labelReserved : Option String → Bool
  | none => true
  | some l => decide (l ∈ reservedLabels)

/-- Every label in the structure is a reserved one; a recursive form of the
reference definition, used to compare it with `isEmptyStructure`. -/
def allReserved : Cell → Bool
  | .mk s n b => labelReserved s && allReserved b && allReserved n
  | _ => true

/-- The calls of `define` for the bindings `bs`, the first of the list first,
each on the environment the one before returned. -/
def defineAll : List (Cell × Cell) → SList → Except Fault SList
  | [], environment => .ok environment
  | kv :: bs, environment => define ⟨kv.1⟩ ⟨kv.2⟩ environment >>= defineAll bs

/-- The chain of one node for each binding, each holding the pair of the
binding as content, the most recent binding first, followed by a bare atom
`#f`. -/
def envShape : List (Cell × Cell) → Cell
  | [] => symCell "#f"
  | kv :: older => .mk none (envShape older) (bindingPair kv.1 kv.2)

/-- The cell reached after `n` continuation links. -/
def dropNodes : Nat → Cell → Cell
  | 0, c => c
  | n + 1, .mk _ next _ => dropNodes n next
  | _ + 1, c => c

/-- The first atom of a node: the node itself if it has no content, else its
content. -/
def firstAtom : Cell → Cell
  | .mk s n sub => if sub.isNull then .mk s n sub else sub
  | c => c

mutual
/-- Expressions of the input: an atom token, the single quote before an
expression, or a parenthesised sequence of at least one expression. -/
inductive SExpr where
  | tok (t : String) : SExpr
  | short (e : SExpr) : SExpr
  | paren (first : SExpr) (rest : SItems) : SExpr
/-- The members of a parenthesised expression after the first. -/
inductive SItems where
  | nil : SItems
  | cons (e : SExpr) (rest : SItems) : SItems
end

mutual
/-- The tokens of an expression. -/
def SExpr.tokens : SExpr → List String
  | .tok t => [t]
  | .short e => "'" :: e.tokens
  | .paren first rest => "(" :: (first.tokens ++ (rest.tokens ++ [")"]))
/-- The tokens of the members after the first. -/
def SItems.tokens : SItems → List String
  | .nil => []
  | .cons e rest => e.tokens ++ rest.tokens
end

mutual
/-- The tree of an expression: an atom for a token, the chain of the atom
`quote` and the tree of `e` for the shorthand, the chain of the trees of the
members for a parenthesised expression. -/
def SExpr.tree : SExpr → Cell
  | .tok t => atom t
  | .short e => quoted e.tree
  | .paren first rest => .mk none rest.tree first.tree
/-- The chain of the trees of the members after the first. -/
def SItems.tree : SItems → Cell
  | .nil => .null
  | .cons e rest => .mk none rest.tree e.tree
end

/-- The last token of an expression. -/
def SExpr.lastToken : SExpr → String
  | .tok t => t
  | .short e => e.lastToken
  | .paren _ _ => ")"

/-- The expression is a single quote before an expression. -/
def SExpr.isShort : SExpr → Bool
  | .short _ => true
  | _ => false

mutual
/-- No atom token is a parenthesis or the single quote, and no single quote
stands before another single quote. -/
def SExpr.wellFormed : SExpr → Bool
  | .tok t => t != "(" && t != ")" && t != "'"
  | .short e => e.wellFormed && !e.isShort
  | .paren first rest => first.wellFormed && rest.wellFormed
/-- Every member is well formed. -/
def SItems.wellFormed : SItems → Bool
  | .nil => true
  | .cons e rest => e.wellFormed && rest.wellFormed
end

mutual
/-- Fuel that is enough for `recurse_express` to read the expression. -/
def SExpr.need : SExpr → Nat
  | .tok _ => 1
  | .short e => e.need
  | .paren first rest => max first.need rest.need + 1
/-- Fuel that is enough for the loop of `recurse_express` to read the members
after the first. -/
def SItems.need : SItems → Nat
  | .nil => 1
  | .cons e rest => max e.need (rest.need + 1)
end

/-! ## Auxiliary lemmas -/

@[simp] theorem ok_bind {α β : Type} (a : α) (f : α → Except Fault β) :
    (Except.ok a >>= f) = f a := rfl

@[simp] theorem error_bind {α β : Type} (e : Fault) (f : α → Except Fault β) :
    (Except.error e >>= f) = Except.error e := rfl

@[simp] theorem pure_eq_ok {α : Type} (a : α) : (pure a : Except Fault α) = Except.ok a := rfl

@[simp] theorem isNull_null : Cell.null.isNull = true := rfl

@[simp] theorem isNull_TRUE : Cell.TRUE.isNull = false := rfl

@[simp] theorem isNull_FALSE : Cell.FALSE.isNull = false := rfl

@[simp] theorem isNull_mk (s : Option String) (n b : Cell) : (Cell.mk s n b).isNull = false :=
  rfl

@[simp] theorem mSymbol_mk (s : Option String) (n b : Cell) :
    (Cell.mk s n b).mSymbol = .ok s := rfl

@[simp] theorem mNext_mk (s : Option String) (n b : Cell) : (Cell.mk s n b).mNext = .ok n := rfl

@[simp] theorem mSub_mk (s : Option String) (n b : Cell) : (Cell.mk s n b).mSub = .ok b := rfl

theorem cons_accepting (la lb : SList) (h : acceptsBinding lb.mStructure = true) :
    cons la lb = .ok ⟨.mk none lb.mStructure la.mStructure⟩ := by
  obtain ⟨c⟩ := lb
  cases c with
  | null => simp [acceptsBinding] at h
  | TRUE => rfl
  | FALSE => rfl
  | mk s n b =>
    simp only [acceptsBinding, Bool.not_eq_true'] at h
    simp [cons, h, wrapStructure]

theorem define_accepting (key value environment : SList)
    (hv : cellSymIs value.mStructure "#f" = false)
    (he : acceptsBinding environment.mStructure = true) :
    define key value environment
      = .ok ⟨.mk none environment.mStructure (bindingPair key.mStructure value.mStructure)⟩ := by
  have h1 : cons value (wrapStructure (symCell "#f"))
      = .ok ⟨.mk none (symCell "#f") value.mStructure⟩ := cons_accepting _ _ rfl
  have h2 : cons key ⟨.mk none (symCell "#f") value.mStructure⟩
      = .ok ⟨.mk none (.mk none (symCell "#f") value.mStructure) key.mStructure⟩ :=
    cons_accepting _ _ (by simp [acceptsBinding, hv])
  simp [define, h1, h2, cons_accepting _ _ he, bindingPair]

theorem cellSymIs_atom (v lit : String) (h : v ≠ lit) : cellSymIs (atom v) lit = false := by
  simp [cellSymIs, atom, h]

theorem isNull_of_accepts (c : Cell) (h : acceptsBinding c = true) : c.isNull = false := by
  cases c <;> simp_all [acceptsBinding]

/-- A bare atom with no match in the environment evaluates to itself. -/
theorem evalSymbol_unbound (s : String) (environment : Env)
    (he : acceptsBinding environment.mStructure = true)
    (hs : findAssoc (atom s) environment.mStructure = .ok .null) :
    evalSymbol (atom s) environment = .ok ⟨atom s⟩ := by
  simp only [atom] at hs
  simp [evalSymbol, assoc, Env.list, isNull_of_accepts _ he, atom, hs, wrapStructure, symCell,
    symIs]

/-- A bare atom bound by the first pair of the environment evaluates to the
value of that pair. -/
theorem evalSymbol_head (s : String) (value rest : Cell) (st : Option Nat) :
    evalSymbol (atom s) ⟨.mk none rest (bindingPair (atom s) value), st⟩ = .ok ⟨value⟩ := by
  simp [evalSymbol, assoc, Env.list, atom, findAssoc, bindingPair, lowest, strEq,
    wrapStructure, symIs, cdr, car]

/-- A bare atom skips a first pair whose lowest cell carries another symbol. -/
theorem evalSymbol_skip (s k : String) (pair rest : Cell) (st : Option Nat)
    (hp : pair.isNull = false) (hl : (lowest pair).mSymbol = .ok (some k)) (hk : s ≠ k)
    (hr : rest.isNull = false) :
    evalSymbol (atom s) ⟨.mk none rest pair, st⟩ = evalSymbol (atom s) ⟨rest, st⟩ := by
  simp [evalSymbol, assoc, Env.list, atom, findAssoc, strEq, hk, hr, hp, hl]

/-- The result of `define` on an environment `cons` can prepend to. -/
theorem define_result (key value environment : SList)
    (he : acceptsBinding environment.mStructure = true) :
    define key value environment
      = .ok ⟨.mk none environment.mStructure (storedPair key.mStructure value.mStructure)⟩ := by
  by_cases hv : cellSymIs value.mStructure "#f" = true
  · have h1 : cons value (wrapStructure (symCell "#f"))
        = .ok ⟨.mk none (symCell "#f") value.mStructure⟩ := cons_accepting _ _ rfl
    have h2 : cons key ⟨.mk none (symCell "#f") value.mStructure⟩
        = .ok ⟨.mk none .null (.mk none .null key.mStructure)⟩ := by
      simp [cons, hv, wrapStructure]
    simp [define, h1, h2, cons_accepting _ _ he, hv, storedPair]
  · simp only [Bool.not_eq_true] at hv
    simp [define_accepting key value environment hv he, hv, storedPair]

theorem storedPair_isNull (key value : Cell) : (storedPair key value).isNull = false := by
  unfold storedPair; split <;> simp [bindingPair]

theorem storedPair_lowest (k : String) (value : Cell) :
    (lowest (storedPair (atom k) value)).mSymbol = .ok (some k) := by
  unfold storedPair; split <;> simp [bindingPair, lowest, atom]

theorem storedPair_atom (key : Cell) (v : String) (hv : v ≠ "#f") :
    storedPair key (atom v) = bindingPair key (atom v) := by
  simp [storedPair, cellSymIs_atom v "#f" hv]

theorem recurse_eval_atom (fuel : Nat) (s : String) (environment : Env) (g : Globals) :
    recurse_eval (fuel + 1) (atom s) environment g
      = (evalSymbol (atom s) environment >>= fun r => .ok (some r, g)) := rfl

theorem recurse_eval_define (fuel : Nat) (sym : Option String) (next a b : Cell)
    (environment : Env) (g : Globals) :
    recurse_eval (fuel + 1) (.mk sym next (.mk (some "define") a b)) environment g
      = evalDefine (recurse_eval fuel) (.mk sym next (.mk (some "define") a b)) environment g :=
  rfl

/-- The variable form of `define`: key and value evaluate to handles, the key
to a cell without `mSub`. -/
theorem recurse_eval_define_var (fuel : Nat) (k v kc vc : Cell) (environment : Env)
    (g g1 g2 : Globals)
    (hk : recurse_eval fuel k environment g = .ok (some ⟨kc⟩, g1))
    (hv : recurse_eval fuel v environment g1 = .ok (some ⟨vc⟩, g2))
    (hlist : (isList ⟨kc⟩).mStructure = .FALSE)
    (he : acceptsBinding environment.mStructure = true) :
    recurse_eval (fuel + 1) (sexp [atom "define", k, v]) environment g
      = .ok (none,
          if environment.store = some g2.varsGen then
            { g2 with mAssocVars := .mk none environment.mStructure (storedPair kc vc),
                      varsGen := g2.varsGen + 1 }
          else g2) := by
  have hd := define_result ⟨kc⟩ ⟨vc⟩ environment.list he
  simp only [sexp, chain]
  rw [show atom "define" = .mk (some "define") .null .null from rfl, recurse_eval_define]
  simp only [evalDefine, operand1, operand2, mNext_mk, mSub_mk, ok_bind, hk, hv, deref, hlist,
    if_true, hd]
  split <;> simp [Env.list]

theorem isList_atom (s : String) : (isList ⟨atom s⟩).mStructure = .FALSE := rfl

/-- A bare atom without a match evaluates to itself, leaving the globals. -/
theorem recurse_eval_unbound (fuel : Nat) (s : String) (environment : Env) (g : Globals)
    (he : acceptsBinding environment.mStructure = true)
    (hs : findAssoc (atom s) environment.mStructure = .ok .null) :
    recurse_eval (fuel + 1) (atom s) environment g = .ok (some ⟨atom s⟩, g) := by
  rw [recurse_eval_atom, evalSymbol_unbound s environment he hs]; rfl

/-- A bare atom bound by the first pair evaluates to the value of the pair. -/
theorem recurse_eval_head (fuel : Nat) (s : String) (value rest : Cell) (st : Option Nat)
    (g : Globals) :
    recurse_eval (fuel + 1) (atom s) ⟨.mk none rest (bindingPair (atom s) value), st⟩ g
      = .ok (some ⟨value⟩, g) := by
  rw [recurse_eval_atom, evalSymbol_head]; rfl

theorem recurse_eval_if (fuel : Nat) (sym : Option String) (next a b : Cell)
    (environment : Env) (g : Globals) :
    recurse_eval (fuel + 1) (.mk sym next (.mk (some "if") a b)) environment g
      = alternateIf (recurse_eval fuel) (.mk sym next (.mk (some "if") a b)) environment g :=
  rfl

theorem recurse_eval_cond (fuel : Nat) (sym : Option String) (next a b : Cell)
    (environment : Env) (g : Globals) :
    recurse_eval (fuel + 1) (.mk sym next (.mk (some "cond") a b)) environment g
      = cond (recurse_eval fuel) (.mk sym next (.mk (some "cond") a b)) environment g :=
  rfl

theorem isElseClause_clause (p b : Cell) : isElseClause (clause (p, b)) = isElseAtom p := by
  cases p with
  | mk s n c => cases s <;> simp [isElseClause, clause, sexp, chain, isElseAtom, cellSymIs]
  | _ => rfl

/-- The loop of `cond` passes over clauses that fail. -/
theorem condLoop_fail (ev : Evaluator) (environment : Env) (pre : List (Cell × Cell))
    (rest : List Cell) (g g' : Globals) (h : ClausesFail ev environment pre g g') :
    condLoop ev environment (chain (pre.map clause ++ rest)) g
      = condLoop ev environment (chain rest) g' := by
  induction pre generalizing g with
  | nil => simp only [ClausesFail] at h; subst h; rfl
  | cons pb pre ih =>
    obtain ⟨helse, r, g1, hev, hne, hrest⟩ := h
    obtain ⟨p, b⟩ := pb
    simp only [List.map_cons, List.cons_append, chain, condLoop, condClause,
      isElseClause_clause, helse]
    simp only [clause, sexp, chain, mSub_mk, ok_bind] at hev ⊢
    simp [hev, deref, hne, ih g1 hrest]

theorem recurse_eval_add (fuel : Nat) (sym : Option String) (next a b : Cell)
    (environment : Env) (g : Globals) :
    recurse_eval (fuel + 1) (.mk sym next (.mk (some "+") a b)) environment g
      = add (recurse_eval fuel) (.mk sym next (.mk (some "+") a b)) environment g :=
  rfl

theorem recurse_eval_subtract (fuel : Nat) (sym : Option String) (next a b : Cell)
    (environment : Env) (g : Globals) :
    recurse_eval (fuel + 1) (.mk sym next (.mk (some "-") a b)) environment g
      = subtract (recurse_eval fuel) (.mk sym next (.mk (some "-") a b)) environment g :=
  rfl

/-- The arithmetic loop folds the operation over the labels of the evaluated
operands. -/
theorem arithLoop_labels (op : Int → Int → Int) (ev : Evaluator) (environment : Env)
    (es : List Cell) (ls : List String) (g g' : Globals) (acc : Int)
    (h : OperandsEvalTo ev environment es g ls g') :
    arithLoop op ev environment (chain es) acc g
      = .ok (ls.foldl (fun a l => wrapInt (op a (atoiText l))) acc, g') := by
  induction es generalizing ls g acc with
  | nil =>
    cases ls with
    | nil => simp only [OperandsEvalTo] at h; subst h; rfl
    | cons l ls => simp [OperandsEvalTo] at h
  | cons e es ih =>
    cases ls with
    | nil => simp [OperandsEvalTo] at h
    | cons l ls =>
      obtain ⟨r, g1, hev, hl, hrest⟩ := h
      simp only [chain, arithLoop, hev, ok_bind, deref, hl, atoi, List.foldl_cons]
      exact ih ls g1 _ hrest

theorem wrapInt_idem (x : Int) : wrapInt (wrapInt x) = wrapInt x := by
  unfold wrapInt; omega

theorem wrapInt_of_range (x : Int) (h1 : -2147483648 ≤ x) (h2 : x ≤ 2147483647) :
    wrapInt x = x := by
  unfold wrapInt; omega

theorem atoiText_wrapped (s : String) : wrapInt (atoiText s) = atoiText s := by
  unfold atoiText; exact wrapInt_idem _

/-- Reducing after every addition gives the reduced sum. -/
theorem foldl_add_wrap (ls : List String) (a b : Int) (hab : wrapInt a = wrapInt b) :
    wrapInt (ls.foldl (fun a l => wrapInt (a + atoiText l)) a)
      = wrapInt (b + (ls.map atoiText).sum) := by
  induction ls generalizing a b with
  | nil => simpa using hab
  | cons l ls ih =>
    simp only [List.foldl_cons, List.map_cons, List.sum_cons]
    rw [ih (wrapInt (a + atoiText l)) (b + atoiText l) (by unfold wrapInt at *; omega)]
    congr 1; ring

/-- Reducing after every subtraction gives the reduced difference. -/
theorem foldl_sub_wrap (ls : List String) (a b : Int) (hab : wrapInt a = wrapInt b) :
    wrapInt (ls.foldl (fun a l => wrapInt (a - atoiText l)) a)
      = wrapInt (ls.foldl (fun a l => a - atoiText l) b) := by
  induction ls generalizing a b with
  | nil => simpa using hab
  | cons l ls ih =>
    simp only [List.foldl_cons]
    exact ih _ _ (by unfold wrapInt at *; omega)

/-- A fold that reduces at every step stays reduced. -/
theorem foldl_wrapped (op : Int → Int → Int) (ls : List String) (a : Int)
    (ha : wrapInt a = a) :
    wrapInt (ls.foldl (fun a l => wrapInt (op a (atoiText l))) a)
      = ls.foldl (fun a l => wrapInt (op a (atoiText l))) a := by
  induction ls generalizing a with
  | nil => simpa using ha
  | cons l ls ih => exact ih _ (wrapInt_idem _)


theorem digitChar_toNat (k : Nat) (hk : k < 10) : (Char.ofNat (48 + k)).toNat = 48 + k := by
  interval_cases k <;> rfl

theorem digitsValue_digit (k : Nat) (hk : k < 10) (cs : List Char) (acc : Nat) :
    digitsValue (Char.ofNat (48 + k) :: cs) acc = digitsValue cs (acc * 10 + k) := by
  have hr : 48 ≤ 48 + k ∧ 48 + k ≤ 57 := by omega
  simp only [digitsValue, digitChar_toNat k hk, hr, and_self, if_true, Nat.add_sub_cancel_left]

/-- Reading back the digits that `decDigits` writes. -/
theorem digitsValue_decDigits (fuel n : Nat) (acc : List Char) (h : n < fuel) :
    digitsValue (decDigits fuel n acc) 0 = digitsValue acc n := by
  induction fuel generalizing n acc with
  | zero => omega
  | succ fuel ih =>
    unfold decDigits
    by_cases h10 : n < 10
    · simp only [h10, if_true]
      rw [digitsValue_digit n h10]
      simp
    · simp only [h10, if_false]
      rw [ih (n / 10) _ (by omega), digitsValue_digit _ (Nat.mod_lt _ (by norm_num))]
      congr 1
      omega

/-- The text of a natural number starts with a digit. -/
theorem decDigits_head (fuel n : Nat) (acc : List Char) (h : n < fuel) :
    ∃ c rest, decDigits fuel n acc = c :: rest ∧ 48 ≤ c.toNat ∧ c.toNat ≤ 57 := by
  induction fuel generalizing n acc with
  | zero => omega
  | succ fuel ih =>
    unfold decDigits
    by_cases h10 : n < 10
    · simp only [h10, if_true]
      exact ⟨_, _, rfl, by rw [digitChar_toNat n h10]; omega, by rw [digitChar_toNat n h10]; omega⟩
    · simp only [h10, if_false]
      exact ih (n / 10) _ (by omega)

theorem signedValue_digit (c : Char) (rest : List Char) (h1 : 48 ≤ c.toNat) :
    signedValue (c :: rest) = ((digitsValue (c :: rest) 0 : Nat) : Int) := by
  unfold signedValue
  split
  · rename_i heq; simp at heq; rw [heq.1] at h1; simp at h1
  · rename_i heq; simp at heq; rw [heq.1] at h1; simp at h1
  · rfl

theorem isspaceC_digit (c : Char) (h1 : 48 ≤ c.toNat) : isspaceC c = false := by
  unfold isspaceC
  have : c ≠ ' ' := by rintro rfl; simp at h1
  simp [this]; omega

/-- A value that fits a `long` passes `clampLong` unchanged. -/
theorem clampLong_of_range (x : Int) (h1 : -9223372036854775808 ≤ x)
    (h2 : x ≤ 9223372036854775807) : clampLong x = x := by
  unfold clampLong
  rw [if_neg (by omega), if_neg (by omega)]

theorem atoiText_sprintf_i (n : Int) (h1 : -2147483648 ≤ n) (h2 : n ≤ 2147483647) :
    atoiText (sprintf_i n) = n := by
  unfold atoiText sprintf_i
  obtain ⟨c, rest, hd, hc1, hc2⟩ := decDigits_head (n.natAbs + 1) n.natAbs [] (by omega)
  have hv := digitsValue_decDigits (n.natAbs + 1) n.natAbs [] (by omega)
  by_cases hneg : n < 0
  · simp only [hneg, if_true]
    have : List.dropWhile isspaceC ('-' :: decDigits (n.natAbs + 1) n.natAbs [])
        = '-' :: decDigits (n.natAbs + 1) n.natAbs [] := by
      rw [List.dropWhile_cons_of_neg]; decide
    rw [this]
    simp only [signedValue, hv, digitsValue]
    rw [clampLong_of_range _ (by omega) (by omega), wrapInt_of_range _ (by omega) (by omega)]
    omega
  · simp only [hneg, if_false]
    rw [hd, List.dropWhile_cons_of_neg (by simp [isspaceC_digit c hc1]),
      signedValue_digit c rest hc1, ← hd, hv]
    simp only [digitsValue]
    rw [clampLong_of_range _ (by omega) (by omega), wrapInt_of_range _ (by omega) (by omega)]
    omega

/-- Outside the range of `long` the value of `atoi` is that of `LONG_MAX` or of
`LONG_MIN` converted to `int`, and outside the range of `int` it is the low
32 bits of the number; so `(+ 9223372036854775808 0)` evaluates to the atom
`-1`, and `lessThan` holds of `9223372036854775808` and `0`. -/
theorem atoiText_out_of_range :
    atoiText "9223372036854775808" = -1 ∧
    atoiText "-9223372036854775809" = 0 ∧
    atoiText "4294967298" = 2 ∧
    recurse_eval 2 (sexp [atom "+", atom "9223372036854775808", atom "0"])
        (globalEnv freshGlobals) freshGlobals
      = .ok (some ⟨atom "-1"⟩, freshGlobals) ∧
    lessThan ⟨atom "9223372036854775808"⟩ ⟨atom "0"⟩ = .ok ⟨.TRUE⟩ := by
  refine ⟨by decide, by decide, by decide, ?_, ?_⟩
  · rfl
  · rfl

theorem decDigits_ne_nil (fuel n : Nat) (acc : List Char) (h : n < fuel) :
    decDigits fuel n acc ≠ [] := by
  obtain ⟨c, rest, hd, -, -⟩ := decDigits_head fuel n acc h
  simp [hd]

theorem sprintf_i_numeralStart (n : Int) : numeralStart (sprintf_i n).data = true := by
  unfold sprintf_i
  obtain ⟨c, rest, hd, hc1, hc2⟩ := decDigits_head (n.natAbs + 1) n.natAbs [] (by omega)
  by_cases hneg : n < 0
  · simp only [hneg, if_true, numeralStart]
    simp [hd]
  · simp only [hneg, if_false, hd, numeralStart]
    simp [hc1, hc2]

theorem keywords_not_numeral : ∀ kw ∈ keywords, numeralStart kw.data = false := by decide

theorem sprintf_i_not_keyword (n : Int) : sprintf_i n ∉ keywords := fun h => by
  have := keywords_not_numeral _ h
  rw [sprintf_i_numeralStart] at this
  exact absurd this (by decide)

theorem sprintf_i_ne (n : Int) (lit : String) (h : numeralStart lit.data = false) :
    sprintf_i n ≠ lit := fun e => by
  rw [← e, sprintf_i_numeralStart] at h
  exact absurd h (by decide)

/-- A cell whose first member is an atom that is no keyword is resolved at
the end of `recurse_eval`. -/
theorem recurse_eval_nonkeyword (fuel : Nat) (s : String) (hs : s ∉ keywords)
    (sym : Option String) (next a b : Cell) (environment : Env) (g : Globals) :
    recurse_eval (fuel + 1) (.mk sym next (.mk (some s) a b)) environment g
      = evalRest (recurse_eval fuel) (.mk sym next (.mk (some s) a b)) environment true g := by
  simp only [keywords, List.mem_cons, List.mem_singleton, not_or, List.not_mem_nil,
    not_false_eq_true, and_true] at hs
  simp [recurse_eval, hs]

theorem recurse_eval_multiply (fuel : Nat) (sym : Option String) (next a b : Cell)
    (environment : Env) (g : Globals) :
    recurse_eval (fuel + 1) (.mk sym next (.mk (some "*") a b)) environment g
      = multiply (recurse_eval fuel) (.mk sym next (.mk (some "*") a b)) environment g :=
  rfl

theorem assocForFn_double_miss (s : String) (hs : s ≠ "double") :
    assocForFn (.mk none .null (atom s)) doubleGlobals
      = .ok (⟨.mk none .null (atom s)⟩, true) := by
  simp [assocForFn, assoc, doubleGlobals, findAssoc, bindingPair, lowest, sexp, chain, atom,
    strEq, hs, symCell, wrapStructure, symIs]

theorem assocForFn_double_hit (next : Cell) :
    assocForFn (.mk none next (atom "double")) doubleGlobals
      = .ok (⟨bindingPair (sexp [atom "double", atom "x"]) (sexp [atom "*", atom "x", atom "2"])⟩,
          false) := by
  simp [assocForFn, assoc, doubleGlobals, findAssoc, bindingPair, lowest, sexp, chain, atom,
    strEq, symCell, wrapStructure, symIs]

theorem double_operand_cell (fuel : Nat) (s : String) (hk : s ∉ keywords) (hs : s ≠ "double") :
    recurse_eval (fuel + 1) (.mk none .null (atom s)) (globalEnv doubleGlobals) doubleGlobals
      = .ok (some ⟨.mk none .null (atom s)⟩, doubleGlobals) := by
  rw [show atom s = .mk (some s) .null .null from rfl, recurse_eval_nonkeyword fuel s hk]
  simp only [evalRest, mNext_mk, isNull_null, Bool.not_true, Bool.false_eq_true, if_false,
    ok_bind, if_true, pure_eq_ok]
  rw [show Cell.mk (some s) .null .null = atom s from rfl, assocForFn_double_miss s hs]
  simp [assocForVar, assoc, globalEnv, doubleGlobals, freshGlobals, Env.list, iniAssocList,
    wrapStructure, symCell, atom, findAssoc, symIs]

/-- The call `(double s)` for a label `s` that cannot be mistaken for a keyword,
for `double` or for `#f`. -/
theorem double_call (fuel : Nat) (s : String) (hk : s ∉ keywords) (hs : s ≠ "double")
    (hf : s ≠ "#f") :
    eval (fuel + 3) ⟨sexp [atom "double", atom s]⟩ doubleGlobals
      = .ok (some ⟨atom (sprintf_i (wrapInt (wrapInt (1 * atoiText s) * 2)))⟩, doubleGlobals) := by
  have hparam : recurse_eval (fuel + 2) (atom s) (globalEnv doubleGlobals) doubleGlobals
      = .ok (some ⟨atom s⟩, doubleGlobals) := recurse_eval_unbound _ s _ _ rfl rfl
  have hdef := define_accepting ⟨atom "x"⟩ ⟨atom s⟩ iniAssocList (cellSymIs_atom s "#f" hf) rfl
  have hops : OperandsEvalTo (recurse_eval (fuel + 1))
      ⟨.mk none (symCell "#f") (bindingPair (atom "x") (atom s)), none⟩
      [atom "x", atom "2"] doubleGlobals [s, "2"] doubleGlobals := by
    refine ⟨⟨atom s⟩, doubleGlobals, recurse_eval_head _ _ _ _ _ _, rfl, ⟨atom "2"⟩,
      doubleGlobals, ?_, rfl, rfl⟩
    rw [recurse_eval_atom, evalSymbol_skip "2" "x" (bindingPair (atom "x") (atom s))
      (symCell "#f") none rfl rfl (by decide) rfl]
    rfl
  have hbody : recurse_eval (fuel + 2) (sexp [atom "*", atom "x", atom "2"])
      ⟨.mk none (symCell "#f") (bindingPair (atom "x") (atom s)), none⟩ doubleGlobals
      = .ok (some ⟨atom (sprintf_i (wrapInt (wrapInt (1 * atoiText s) * 2)))⟩, doubleGlobals) := by
    simp only [sexp, chain]
    rw [show atom "*" = .mk (some "*") .null .null from rfl, recurse_eval_multiply]
    simp only [multiply, mNext_mk, ok_bind]
    have := arithLoop_labels (fun a b => a * b) _ _ _ _ _ _ 1 hops
    simp only [chain] at this
    rw [this]
    rfl
  simp only [eval, sexp, chain]
  rw [show atom "double" = .mk (some "double") .null .null from rfl,
    recurse_eval_nonkeyword _ "double" (by decide)]
  simp only [evalRest, mNext_mk, isNull_mk, Bool.not_false, if_true, ok_bind, pure_eq_ok]
  rw [double_operand_cell (fuel + 1) s hk hs]
  simp only [ok_bind, deref]
  rw [show Cell.mk (some "double") .null .null = atom "double" from rfl, assocForFn_double_hit]
  simp only [wrapStructure, iniAssocList] at hdef
  simp only [ok_bind, pure_eq_ok, Bool.not_false, if_true, bindingPair, sexp, chain, mSub_mk,
    cdr, car, wrapStructure, mNext_mk, isNull_mk, isNull_null, bindLocals, bindLoop, hparam,
    deref, iniAssocList, hdef]
  exact hbody

theorem bne_swap {α : Type} [BEq α] [LawfulBEq α] (a b : α) : (a != b) = (b != a) := by
  by_cases h : a = b
  · subst h; rfl
  · have h' : ¬ b = a := fun e => h e.symm
    rw [bne_iff_ne.mpr h, bne_iff_ne.mpr h']

theorem compareEqual_mk_mk (s1 s2 : Option String) (n1 n2 b1 b2 : Cell) :
    compareEqual (.mk s1 n1 b1) (.mk s2 n2 b2) =
      if s1.isSome && s2.isSome && s1 != s2 then .ok .FALSE
      else if s1.isSome != s2.isSome then .ok .FALSE
      else if b1.isNull != b2.isNull then .ok .FALSE
      else
        (if !b1.isNull && !b2.isNull then compareEqual b1 b2 else .ok .TRUE) >>= fun equals =>
          if equals = .FALSE then .ok .FALSE
          else if !n1.isNull && !n2.isNull then compareEqual n1 n2
          else if n1.isNull != n2.isNull then .ok .FALSE
          else .ok equals := by
  simp only [compareEqual, mSymbol_mk, mSub_mk, mNext_mk, ok_bind, pure_eq_ok]
  cases b1.isNull <;> cases b2.isNull <;> rfl

theorem compareEqual_TRUE_mk (s : Option String) (n b : Cell) :
    compareEqual .TRUE (.mk s n b)
      = .ok (if s.isSome || !b.isNull || !n.isNull then .FALSE else .TRUE) := by
  cases s <;> cases hb : b.isNull <;> cases hn : n.isNull <;>
    simp [compareEqual, hb, hn]

theorem compareEqual_FALSE_mk (s : Option String) (n b : Cell) :
    compareEqual .FALSE (.mk s n b)
      = .ok (if s.isSome || !b.isNull || !n.isNull then .FALSE else .TRUE) := by
  cases s <;> cases hb : b.isNull <;> cases hn : n.isNull <;>
    simp [compareEqual, hb, hn]

theorem compareEqual_mk_TRUE (s : Option String) (n b : Cell) :
    compareEqual (.mk s n b) .TRUE
      = .ok (if s.isSome || !b.isNull || !n.isNull then .FALSE else .TRUE) := by
  cases s <;> cases hb : b.isNull <;> cases hn : n.isNull <;>
    simp [compareEqual, hb, hn, Cell.mSymbol, Cell.mSub, Cell.mNext]

theorem compareEqual_mk_FALSE (s : Option String) (n b : Cell) :
    compareEqual (.mk s n b) .FALSE
      = .ok (if s.isSome || !b.isNull || !n.isNull then .FALSE else .TRUE) := by
  cases s <;> cases hb : b.isNull <;> cases hn : n.isNull <;>
    simp [compareEqual, hb, hn, Cell.mSymbol, Cell.mSub, Cell.mNext]

theorem compareEqual_refl (c : Cell) (h : c.isNull = false) : compareEqual c c = .ok .TRUE := by
  induction c with
  | null => simp at h
  | TRUE => rfl
  | FALSE => rfl
  | mk s n b ihn ihb =>
    rw [compareEqual_mk_mk]
    cases hb : b.isNull <;> cases hn : n.isNull <;> cases s <;>
      simp [hb, hn, ihn, ihb]

theorem compareEqual_comm (c1 c2 : Cell) : compareEqual c1 c2 = compareEqual c2 c1 := by
  induction c1 generalizing c2 with
  | null => cases c2 <;> rfl
  | TRUE =>
    cases c2 with
    | mk s n b => rw [compareEqual_TRUE_mk, compareEqual_mk_TRUE]
    | _ => rfl
  | FALSE =>
    cases c2 with
    | mk s n b => rw [compareEqual_FALSE_mk, compareEqual_mk_FALSE]
    | _ => rfl
  | mk s1 n1 b1 ihn ihb =>
    cases c2 with
    | null => rfl
    | TRUE => rw [compareEqual_TRUE_mk, compareEqual_mk_TRUE]
    | FALSE => rw [compareEqual_FALSE_mk, compareEqual_mk_FALSE]
    | mk s2 n2 b2 =>
      have hs1 : (s1.isSome && s2.isSome && s1 != s2) = (s2.isSome && s1.isSome && s2 != s1) := by
        rw [Bool.and_comm s1.isSome s2.isSome, bne_swap]
      have hs2 : (s1.isSome != s2.isSome) = (s2.isSome != s1.isSome) := bne_swap _ _
      have hb : (b1.isNull != b2.isNull) = (b2.isNull != b1.isNull) := bne_swap _ _
      have hb' : (!b1.isNull && !b2.isNull) = (!b2.isNull && !b1.isNull) := Bool.and_comm _ _
      have hn : (n1.isNull != n2.isNull) = (n2.isNull != n1.isNull) := bne_swap _ _
      have hn' : (!n1.isNull && !n2.isNull) = (!n2.isNull && !n1.isNull) := Bool.and_comm _ _
      rw [compareEqual_mk_mk, compareEqual_mk_mk, ihn n2, ihb b2, hs1, hs2, hb, hb', hn, hn']

/-- On cells that are not `NULL`, `compareEqual` returns one of the two
singletons. -/
theorem compareEqual_total (c1 c2 : Cell) (h1 : c1.isNull = false) (h2 : c2.isNull = false) :
    compareEqual c1 c2 = .ok .TRUE ∨ compareEqual c1 c2 = .ok .FALSE := by
  induction c1 generalizing c2 with
  | null => simp at h1
  | TRUE =>
    cases c2 with
    | null => simp at h2
    | mk s n b => rw [compareEqual_TRUE_mk]; split <;> simp
    | _ => left; rfl
  | FALSE =>
    cases c2 with
    | null => simp at h2
    | mk s n b => rw [compareEqual_FALSE_mk]; split <;> simp
    | _ => left; rfl
  | mk s1 n1 b1 ihn ihb =>
    cases c2 with
    | null => simp at h2
    | TRUE => rw [compareEqual_mk_TRUE]; split <;> simp
    | FALSE => rw [compareEqual_mk_FALSE]; split <;> simp
    | mk s2 n2 b2 =>
      rw [compareEqual_mk_mk]
      split
      · right; rfl
      split
      · right; rfl
      split
      · right; rfl
      have hX : (if (!b1.isNull && !b2.isNull) = true then compareEqual b1 b2 else .ok .TRUE)
            = .ok .TRUE ∨
          (if (!b1.isNull && !b2.isNull) = true then compareEqual b1 b2 else .ok .TRUE)
            = .ok .FALSE := by
        split
        · rename_i hc
          simp only [Bool.and_eq_true, Bool.not_eq_true'] at hc
          exact ihb b2 hc.1 hc.2
        · left; rfl
      have hY : (!n1.isNull && !n2.isNull) = true →
          (compareEqual n1 n2 = .ok .TRUE ∨ compareEqual n1 n2 = .ok .FALSE) := by
        intro hc
        simp only [Bool.and_eq_true, Bool.not_eq_true'] at hc
        exact ihn n2 hc.1 hc.2
      rcases hX with e | e <;> rw [e] <;> simp only [ok_bind]
      · by_cases hc : (!n1.isNull && !n2.isNull) = true
        · simpa [hc] using hY hc
        · simp only [hc]; simp only [reduceCtorEq, if_false]; split <;> simp
      · right; rfl

theorem recurse_eval_list (fuel : Nat) (sym : Option String) (next a b : Cell)
    (environment : Env) (g : Globals) :
    recurse_eval (fuel + 1) (.mk sym next (.mk (some "list") a b)) environment g
      = makeList (recurse_eval fuel) (.mk sym next (.mk (some "list") a b)) environment g :=
  rfl

theorem recurse_eval_length (fuel : Nat) (sym : Option String) (next a b : Cell)
    (environment : Env) (g : Globals) :
    recurse_eval (fuel + 1) (.mk sym next (.mk (some "length") a b)) environment g
      = applyUnary (recurse_eval fuel) length (.mk sym next (.mk (some "length") a b))
          environment g :=
  rfl

theorem makeListLoop_mk (ev : Evaluator) (environment : Env) (s : Option String)
    (next sub : Cell) (g : Globals) :
    makeListLoop ev environment (.mk s next sub) g
      = (ev sub environment g >>= fun p => deref p.1 >>= fun joined =>
          if !next.isNull then
            makeListLoop ev environment next p.2 >>= fun q => .ok (.mk none q.1 joined, q.2)
          else .ok (.mk none .null joined, p.2)) := by
  rw [makeListLoop]; rfl

theorem appendSubstitute_mk (s : Option String) (next sub : Cell) (secondList : SList) :
    appendSubstitute (.mk s next sub) secondList
      = if !next.isNull then
          appendSubstitute next secondList >>= fun r => .ok (.mk none r sub)
        else .ok (.mk none secondList.mStructure sub) := by
  rw [appendSubstitute]; rfl

/-- The loop of `makeList` builds the chain of the values of the operands. -/
theorem makeListLoop_chain (ev : Evaluator) (environment : Env) (e : Cell) (es : List Cell)
    (r : Cell) (rs : List Cell) (g g' : Globals)
    (h : OperandsEval ev environment (e :: es) g (r :: rs) g') :
    makeListLoop ev environment (chain (e :: es)) g = .ok (chain (r :: rs), g') := by
  induction es generalizing e r rs g with
  | nil =>
    obtain ⟨g1, hev, hrest⟩ := h
    cases rs with
    | nil =>
      simp only [OperandsEval] at hrest
      subst hrest
      simp [chain, makeListLoop, hev, deref]
    | cons r2 rs => simp [OperandsEval] at hrest
  | cons e2 es ih =>
    obtain ⟨g1, hev, hrest⟩ := h
    cases rs with
    | nil => simp [OperandsEval] at hrest
    | cons r2 rs =>
      have := ih e2 r2 rs g1 hrest
      rw [show chain (e :: e2 :: es) = .mk none (chain (e2 :: es)) e from rfl, makeListLoop_mk,
        hev]
      simp only [ok_bind, deref, show (chain (e2 :: es)).isNull = false from rfl, this]
      rfl

/-- The node `(list e1 ... en)` evaluates to the structure `builtList` of the
values of its operands. -/
theorem recurse_eval_list_built (fuel : Nat) (environment : Env) (es rs : List Cell)
    (g g' : Globals) (h : OperandsEval (recurse_eval fuel) environment es g rs g') :
    recurse_eval (fuel + 1) (sexp (atom "list" :: es)) environment g
      = .ok (some ⟨builtList rs⟩, g') := by
  simp only [sexp, chain]
  rw [show atom "list" = .mk (some "list") .null .null from rfl, recurse_eval_list]
  cases es with
  | nil =>
    cases rs with
    | nil => simp only [OperandsEval] at h; subst h; rfl
    | cons r rs => simp [OperandsEval] at h
  | cons e es =>
    cases rs with
    | nil => simp [OperandsEval] at h
    | cons r rs =>
      have := makeListLoop_chain _ _ e es r rs g g' h
      simp only [chain] at this
      simp [makeList, chain, this, builtList]

/-- Counting the cells of a chain. -/
theorem countCells_chain (rs : List Cell) (k : Int) (hk : 0 ≤ k)
    (hlen : k + rs.length ≤ 2147483647) : countCells (chain rs) k = k + rs.length := by
  induction rs generalizing k with
  | nil => simp [chain, countCells]
  | cons r rs ih =>
    simp only [List.length_cons, Nat.cast_add, Nat.cast_one] at hlen
    simp only [chain, countCells, List.length_cons, Nat.cast_add, Nat.cast_one]
    rw [wrapInt_of_range (k + 1) (by omega) (by omega), ih (k + 1) (by omega) (by omega)]
    omega

theorem appendSubstitute_chain (x : Cell) (xs ys : List Cell) :
    appendSubstitute (chain (x :: xs)) ⟨chain ys⟩ = .ok (chain (x :: xs ++ ys)) := by
  induction xs generalizing x with
  | nil => simp [chain, appendSubstitute]
  | cons x2 xs ih =>
    have := ih x2
    rw [show chain (x :: x2 :: xs) = .mk none (chain (x2 :: xs)) x from rfl, appendSubstitute_mk,
      show (chain (x2 :: xs)).isNull = false from rfl, this]
    rfl

theorem chain_isNull (x : Cell) (xs : List Cell) : (chain (x :: xs)).isNull = false := rfl

theorem mSymbol_eq_labelOf (c : Cell) (h : c.isNull = false) : c.mSymbol = .ok (labelOf c) := by
  cases c <;> first | rfl | simp at h

theorem lowest_isNull (c : Cell) (h : c.isNull = false) : (lowest c).isNull = false := by
  induction c with
  | null => simp at h
  | TRUE => rfl
  | FALSE => rfl
  | mk s n b _ ihb =>
    unfold lowest
    cases hb : b.isNull
    · simpa [hb] using ihb hb
    · simp [hb]

theorem findAssoc_mk (symbol : Cell) (s : Option String) (next sub : Cell) :
    findAssoc symbol (.mk s next sub)
      = if sub.isNull then .ok .null
        else symbol.mSymbol >>= fun a => (lowest sub).mSymbol >>= fun b =>
          strEq a b >>= fun m =>
            if m then .ok sub else if !next.isNull then findAssoc symbol next else .ok .null := by
  rw [findAssoc]; rfl

/-- On a chain whose scanned nodes have labelled leftmost leaves, `findAssoc`
computes the reference lookup. -/
theorem findAssoc_firstMatch (k : String) (L : Cell) (hL : L.isNull = false)
    (hscan : scanLabelled k L = true) :
    findAssoc (atom k) L = .ok (firstMatch k L) := by
  induction L with
  | null => simp at hL
  | TRUE => rfl
  | FALSE => rfl
  | mk s n b ihn _ =>
    rw [findAssoc_mk]
    unfold firstMatch
    unfold scanLabelled at hscan
    cases hb : b.isNull
    · simp only [hb, Bool.false_or] at hscan
      simp only [Bool.false_eq_true, if_false]
      rw [mSymbol_eq_labelOf _ (lowest_isNull b hb)]
      cases hl : labelOf (lowest b) with
      | none => simp [hl] at hscan
      | some l =>
        simp only [hl, Bool.or_eq_true, beq_iff_eq] at hscan
        simp only [atom, mSymbol_mk, ok_bind, strEq, Option.some.injEq]
        by_cases hk : l = k
        · subst hk; simp
        · have hk' : ¬ k = l := fun e => hk e.symm
          simp only [beq_iff_eq, hk', if_false, hk, Bool.false_eq_true]
          cases hn : n.isNull
          · have := ihn hn (hscan.resolve_left hk)
            simp only [atom] at this
            simp [this]
          · cases n <;> simp at hn
            simp [firstMatch]
    · simp [hb]

/-- Outside the `#f` branch of `cons`, `car` of the result is the first
argument itself, and `isEqual` of the two returns the `TRUE` singleton. -/
theorem car_cons_accepting (x y : Cell) (hy : acceptsBinding y = true) :
    ∃ c d : SList, cons ⟨x⟩ ⟨y⟩ = .ok c ∧ car c = .ok d ∧ d.mStructure = x ∧
      isEqual d ⟨x⟩ = .ok ⟨.TRUE⟩ := by
  refine ⟨⟨.mk none y x⟩, ⟨x⟩, cons_accepting ⟨x⟩ ⟨y⟩ hy, rfl, rfl, ?_⟩
  cases h : x.isNull
  · simp [isEqual, h, compareEqual_refl x h, wrapStructure]
  · simp [isEqual, h, wrapStructure]

theorem isEmptyStructure_mk (s : Option String) (n b : Cell) :
    isEmptyStructure (.mk s n b)
      = if s.isSome && !symIs s "quote" && !symIs s "()" && !symIs s "#f" && !symIs s "#t"
        then .ok 0
        else (if !b.isNull then isEmptyStructure b else .ok 1) >>= fun emptyBranch =>
          if emptyBranch == 1 && !n.isNull then isEmptyStructure n else .ok emptyBranch := by
  rw [isEmptyStructure]
  split
  · rfl
  · cases b.isNull <;> rfl

theorem reserved_guard (s : Option String) :
    (s.isSome && !symIs s "quote" && !symIs s "()" && !symIs s "#f" && !symIs s "#t")
      = !labelReserved s := by
  cases s with
  | none => rfl
  | some l =>
    simp only [Option.isSome_some, symIs, reservedLabels, Bool.true_and, List.mem_cons,
      List.mem_singleton, List.not_mem_nil, or_false, labelReserved]
    by_cases h1 : l = "quote" <;> by_cases h2 : l = "()" <;> by_cases h3 : l = "#f" <;>
      by_cases h4 : l = "#t" <;> simp [h1, h2, h3, h4]

/-- On a cell that is not `NULL`, `isEmptyStructure` returns 1 when every label
is reserved and 0 when not. -/
theorem isEmptyStructure_allReserved (c : Cell) (hc : c.isNull = false) :
    isEmptyStructure c = .ok (if allReserved c then 1 else 0) := by
  induction c with
  | null => simp at hc
  | TRUE => rfl
  | FALSE => rfl
  | mk s n b ihn ihb =>
    rw [isEmptyStructure_mk, reserved_guard]
    unfold allReserved
    cases hg : labelReserved s
    · simp
    · have hb : (if (!b.isNull) = true then isEmptyStructure b else .ok 1)
          = .ok (if allReserved b then 1 else 0) := by
        cases hbn : b.isNull
        · simpa using ihb hbn
        · cases b <;> simp at hbn
          rfl
      simp only [Bool.not_true, Bool.false_eq_true, if_false, hb, ok_bind, Bool.true_and]
      cases hab : allReserved b
      · simp
      · cases hnn : n.isNull
        · simpa using ihn hnn
        · cases n <;> simp at hnn
          rfl

theorem allReserved_iff (c : Cell) :
    allReserved c = true ↔ ∀ d l, Reach c d → labelOf d = some l → l ∈ reservedLabels := by
  induction c with
  | null =>
    refine ⟨fun _ d l hr hl => ?_, fun _ => rfl⟩
    cases hr; simp [labelOf] at hl
  | TRUE =>
    refine ⟨fun _ d l hr hl => ?_, fun _ => rfl⟩
    cases hr; simp [labelOf] at hl
  | FALSE =>
    refine ⟨fun _ d l hr hl => ?_, fun _ => rfl⟩
    cases hr; simp [labelOf] at hl
  | mk s n b ihn ihb =>
    unfold allReserved
    simp only [Bool.and_eq_true]
    constructor
    · rintro ⟨⟨hs, hb⟩, hn⟩ d l hr hl
      cases hr with
      | here =>
        simp only [labelOf] at hl
        subst hl
        simpa [labelReserved] using hs
      | sub _ _ _ _ h => exact ihb.mp hb d l h hl
      | next _ _ _ _ h => exact ihn.mp hn d l h hl
    · intro h
      refine ⟨⟨?_, ihb.mpr fun d l hr hl => h d l (.sub s n b d hr) hl⟩,
        ihn.mpr fun d l hr hl => h d l (.next s n b d hr) hl⟩
      cases s with
      | none => rfl
      | some l => simpa [labelReserved] using h _ l (.here _) rfl

theorem envShape_accepts (bs : List (Cell × Cell)) : acceptsBinding (envShape bs) = true := by
  cases bs with
  | nil => rfl
  | cons kv older => simp [envShape, acceptsBinding, bindingPair, cellSymIs]

/-- The calls of `define` prepend one node for each binding. -/
theorem defineAll_envShape (bs acc : List (Cell × Cell))
    (hv : ∀ kv ∈ bs, cellSymIs kv.2 "#f" = false) :
    defineAll bs ⟨envShape acc⟩ = .ok ⟨envShape (bs.reverse ++ acc)⟩ := by
  induction bs generalizing acc with
  | nil => rfl
  | cons kv bs ih =>
    have h1 := define_accepting ⟨kv.1⟩ ⟨kv.2⟩ ⟨envShape acc⟩
      (hv kv (List.mem_cons_self _ _)) (envShape_accepts acc)
    simp only [defineAll, h1, ok_bind]
    have := ih (kv :: acc) (fun x hx => hv x (List.mem_cons_of_mem _ hx))
    simp only [envShape] at this
    rw [this]
    simp

theorem dropNodes_envShape (bs : List (Cell × Cell)) :
    dropNodes bs.length (envShape bs) = symCell "#f" := by
  induction bs with
  | nil => rfl
  | cons kv bs ih => simpa [envShape, dropNodes] using ih

/-- The lookups of `assocForFn` and `assocForVar` for a cell whose first member
is an atom without match give the cell back. -/
theorem assocFor_unmatched (l : String) (s : Option String) (next : Cell) (environment : Env)
    (g : Globals) (hfns : g.mAssocFns.isNull = false)
    (henv : environment.mStructure.isNull = false)
    (hf : findAssoc (atom l) g.mAssocFns = .ok .null)
    (hv : findAssoc (atom l) environment.mStructure = .ok .null) :
    assocForFn (.mk s next (atom l)) g = .ok (⟨.mk s next (atom l)⟩, true) ∧
    assocForVar (.mk s next (atom l)) environment.list = .ok ⟨.mk s next (atom l)⟩ := by
  constructor
  · simp [assocForFn, assoc, hfns, atom, wrapStructure, symCell, symIs]
    simp only [atom] at hf
    simp [hf, symIs]
  · simp [assocForVar, assoc, henv, Env.list, atom, wrapStructure, symCell, symIs]
    simp only [atom] at hv
    simp [hv, symIs]

/-- A chain of atoms that are no keywords and have no match in the function
store and in the environment evaluates to itself. -/
theorem recurse_eval_unmatched_chain (ls : List String) (l : String) (fuel : Nat)
    (environment : Env) (g : Globals)
    (hfns : g.mAssocFns.isNull = false) (henv : environment.mStructure.isNull = false)
    (h : ∀ x ∈ l :: ls, x ∉ keywords ∧ findAssoc (atom x) g.mAssocFns = .ok .null ∧
      findAssoc (atom x) environment.mStructure = .ok .null) :
    recurse_eval (fuel + (l :: ls).length) (chain ((l :: ls).map atom)) environment g
      = .ok (some ⟨chain ((l :: ls).map atom)⟩, g) := by
  induction ls generalizing l with
  | nil =>
    obtain ⟨hk, hf, hv⟩ := h l (List.mem_cons_self _ _)
    obtain ⟨e1, e2⟩ := assocFor_unmatched l none .null environment g hfns henv hf hv
    simp only [List.map_cons, List.map_nil, chain, List.length_singleton]
    rw [show atom l = .mk (some l) .null .null from rfl, recurse_eval_nonkeyword fuel l hk]
    rw [show Cell.mk (some l) .null .null = atom l from rfl]
    simp only [evalRest, mNext_mk, isNull_null, Bool.not_true, Bool.false_eq_true, if_false,
      pure_eq_ok, ok_bind, if_true, e1, e2]
  | cons l2 ls ih =>
    obtain ⟨hk, hf, hv⟩ := h l (List.mem_cons_self _ _)
    have hrest := ih l2 (fun x hx => h x (List.mem_cons_of_mem _ hx))
    obtain ⟨e1, e2⟩ := assocFor_unmatched l none (chain ((l2 :: ls).map atom)) environment g
      hfns henv hf hv
    rw [show fuel + (l :: l2 :: ls).length = (fuel + (l2 :: ls).length) + 1 from by
      simp only [List.length_cons]; omega]
    rw [show chain ((l :: l2 :: ls).map atom)
        = .mk none (chain ((l2 :: ls).map atom)) (.mk (some l) .null .null) from rfl,
      recurse_eval_nonkeyword _ l hk]
    rw [show Cell.mk (some l) .null .null = atom l from rfl]
    simp only [evalRest, mNext_mk, show (chain ((l2 :: ls).map atom)).isNull = false from rfl,
      Bool.not_false, if_true, hrest, ok_bind, deref, pure_eq_ok, e1, e2, Bool.not_true,
      Bool.false_eq_true, if_false]

/-- One step of the dispatcher at a `define` node. -/
theorem evalDefine_node (fuel : Nat) (k v : Cell) (environment : Env) (g : Globals) :
    recurse_eval (fuel + 1) (sexp [atom "define", k, v]) environment g
      = evalDefine (recurse_eval fuel) (sexp [atom "define", k, v]) environment g := rfl

/-- A decimal digit is a character with a code from 48 to 57. -/
theorem isDigit_toNat (ch : Char) :
    ch.isDigit = (decide (48 ≤ ch.toNat) && decide (ch.toNat ≤ 57)) := by
  simp only [Char.isDigit, Char.toNat, ge_iff_le, UInt32.le_def, Fin.le_def]
  rfl

/-- The characters the loop of `isNumber` passes. -/
theorem notNumberChar_iff (ch : Char) (i : Nat) :
    notNumberChar ch i = false ↔ (ch.isDigit = true ∨ (i = 0 ∧ ch = '-')) := by
  rw [isDigit_toNat]
  simp only [notNumberChar]
  by_cases hd : (decide (48 ≤ ch.toNat) && decide (ch.toNat ≤ 57)) = true
  · simp [hd]
  · simp only [Bool.not_eq_true] at hd
    simp [hd]

/-- The loop of `isNumber` ends with one of the two singletons. -/
theorem scanNumber_cases (cs : List Char) (k : Nat) :
    scanNumber cs k = .TRUE ∨ scanNumber cs k = .FALSE := by
  induction cs generalizing k with
  | nil => left; rfl
  | cons ch rest ih =>
    rw [scanNumber]
    split
    · right; rfl
    · exact ih (k + 1)

/-- The loop of `isNumber` from index `k` ends with `TRUE` exactly on digits,
and a `-` at index 0. -/
theorem scanNumber_true_iff (cs : List Char) (k : Nat) :
    scanNumber cs k = .TRUE ↔
      ∀ (i : Nat) (h : i < cs.length),
        (cs.get ⟨i, h⟩).isDigit = true ∨ (k + i = 0 ∧ cs.get ⟨i, h⟩ = '-') := by
  induction cs generalizing k with
  | nil => simp [scanNumber]
  | cons ch rest ih =>
    rw [scanNumber]
    constructor
    · intro h
      by_cases hn : notNumberChar ch k = true
      · rw [if_pos hn] at h; exact absurd h (by decide)
      · rw [if_neg hn] at h
        simp only [Bool.not_eq_true] at hn
        intro i hi
        cases i with
        | zero => exact (notNumberChar_iff ch k).1 hn
        | succ j =>
          have := (ih (k + 1)).1 h j (by simpa using hi)
          rcases this with h1 | ⟨h1, h2⟩
          · left; exact h1
          · omega
    · intro h
      have h0 := h 0 (by simp)
      have hn : notNumberChar ch k = false := (notNumberChar_iff ch k).2 h0
      rw [hn]
      simp only [Bool.false_eq_true, if_false]
      apply (ih (k + 1)).2
      intro i hi
      have := h (i + 1) (by simpa using hi)
      rcases this with h1 | ⟨h1, h2⟩
      · left; exact h1
      · omega

/-- The function `isNumber` scans the label of the first atom. -/
theorem isNumber_first_atom (c : Cell) (s : String)
    (hs : (firstAtom c).mSymbol = .ok (some s)) :
    isNumber ⟨c⟩ = .ok ⟨scanNumber s.data 0⟩ := by
  cases c with
  | null => exact absurd hs (by simp [firstAtom, Cell.mSymbol])
  | TRUE => exact absurd hs (by simp [firstAtom, Cell.mSymbol])
  | FALSE => exact absurd hs (by simp [firstAtom, Cell.mSymbol])
  | mk sym n sub =>
    simp only [firstAtom] at hs
    cases hsub : sub.isNull
    · rw [hsub] at hs
      simp only [Bool.false_eq_true, if_false] at hs
      simp [isNumber, hsub, hs, wrapStructure]
    · rw [hsub] at hs
      simp only [if_true] at hs
      simp [isNumber, hsub, hs, wrapStructure]

/-- A well-formed expression starts with a token other than the closing
parenthesis. -/
theorem SExpr.tokens_head (e : SExpr) (hw : e.wellFormed = true) :
    ∃ t tl, e.tokens = t :: tl ∧ t ≠ ")" := by
  cases e with
  | tok t =>
    simp only [SExpr.wellFormed, Bool.and_eq_true, bne_iff_ne, ne_eq] at hw
    exact ⟨t, [], rfl, hw.1.2⟩
  | short e => exact ⟨"'", e.tokens, rfl, by decide⟩
  | paren first rest => exact ⟨"(", _, rfl, by decide⟩

/-- One step of `recurse_express` at an open parenthesis. -/
theorem recurse_express_paren (fuel : Nat) (input : List String) :
    recurse_express (fuel + 1) ⟨"(", input⟩
      = expressList (recurse_express fuel) fuel ⟨"(", input⟩ := rfl

/-- One step of `recurse_express` at a token that is no open parenthesis and
no single quote. -/
theorem recurse_express_atom (fuel : Nat) (t : String) (input : List String)
    (h1 : t ≠ "'") (h2 : t ≠ "(") :
    recurse_express (fuel + 1) ⟨t, input⟩ = some (atom t, ⟨t, input⟩) := by
  simp [recurse_express, h1, h2, atom]

/-- One step of `recurse_express` at a single quote before an atom token. -/
theorem recurse_express_short_atom (fuel : Nat) (t : String) (input : List String)
    (h : t ≠ "(") :
    recurse_express (fuel + 1) ⟨"'", t :: input⟩ = some (quoted (atom t), ⟨t, input⟩) := by
  rw [recurse_express]
  simp [nextToken, h, quoted, chain, atom]

/-- One step of `recurse_express` at a single quote before an open
parenthesis. -/
theorem recurse_express_short_list (fuel : Nat) (input : List String) :
    recurse_express (fuel + 1) ⟨"'", "(" :: input⟩
      = match expressList (recurse_express fuel) fuel ⟨"(", input⟩ with
        | none => none
        | some (loc, st2) => some (quoted loc, st2) := rfl

theorem nextToken_cons (prev t : String) (input : List String) :
    nextToken ⟨prev, t :: input⟩ = some ⟨t, input⟩ := rfl

mutual
/-- With enough fuel `recurse_express` reads a well-formed expression: it
returns the tree of the expression and stops at its last token. -/
theorem parse_expr : ∀ (e : SExpr), e.wellFormed = true → ∀ (fuel : Nat), e.need ≤ fuel →
    ∀ (prev : String) (X : List String),
      (nextToken ⟨prev, e.tokens ++ X⟩).bind (recurse_express fuel)
        = some (e.tree, ⟨e.lastToken, X⟩)
  | .tok t, hw, fuel, hf, prev, X => by
    simp only [SExpr.wellFormed, Bool.and_eq_true, bne_iff_ne, ne_eq] at hw
    obtain ⟨f, rfl⟩ : ∃ f, fuel = f + 1 := ⟨fuel - 1, by simp only [SExpr.need] at hf; omega⟩
    simp only [SExpr.tokens, List.cons_append, List.nil_append, nextToken_cons, Option.some_bind,
      SExpr.tree, SExpr.lastToken]
    exact recurse_express_atom f t X hw.2 hw.1.1
  | .short (.tok t), hw, fuel, hf, prev, X => by
    simp only [SExpr.wellFormed, Bool.and_eq_true, bne_iff_ne, ne_eq] at hw
    obtain ⟨f, rfl⟩ : ∃ f, fuel = f + 1 := ⟨fuel - 1, by simp only [SExpr.need] at hf; omega⟩
    simp only [SExpr.tokens, List.cons_append, List.nil_append, nextToken_cons, Option.some_bind,
      SExpr.tree, SExpr.lastToken]
    exact recurse_express_short_atom f t X hw.1.1.1
  | .short (.short e), hw, _, _, _, _ => by
    simp [SExpr.wellFormed, SExpr.isShort] at hw
  | .short (.paren first rest), hw, fuel, hf, prev, X => by
    have hw2 : (SExpr.paren first rest).wellFormed = true := by
      simp only [SExpr.wellFormed, Bool.and_eq_true] at hw ⊢
      exact hw.1
    obtain ⟨f, rfl⟩ : ∃ f, fuel = f + 1 := ⟨fuel - 1, by simp only [SExpr.need] at hf; omega⟩
    have h := parse_expr (.paren first rest) hw2 (f + 1) (by simpa [SExpr.need] using hf) "'" X
    simp only [SExpr.tokens, List.cons_append, nextToken_cons, Option.some_bind,
      recurse_express_paren] at h
    simp only [SExpr.tokens, List.cons_append, nextToken_cons, Option.some_bind,
      recurse_express_short_list, h, SExpr.tree, SExpr.lastToken]
  | .paren first rest, hw, fuel, hf, prev, X => by
    simp only [SExpr.wellFormed, Bool.and_eq_true] at hw
    simp only [SExpr.need] at hf
    obtain ⟨f, rfl⟩ : ∃ f, fuel = f + 1 := ⟨fuel - 1, by omega⟩
    have h1 := parse_expr first hw.1 f (by omega) "(" (rest.tokens ++ ")" :: X)
    have h2 := parse_items rest hw.2 f f (by omega) (by omega) first.lastToken X
    simp only [SExpr.tokens, List.cons_append, nextToken_cons, Option.some_bind,
      recurse_express_paren, SExpr.tree, SExpr.lastToken, List.append_assoc,
      List.nil_append]
    rw [Option.bind_eq_some] at h1 h2
    obtain ⟨st1, e1, e2⟩ := h1
    obtain ⟨st2, e3, e4⟩ := h2
    simp only [expressList, e1, e2, e3, e4]
/-- With enough fuel the loop of `recurse_express` reads the members after the
first and stops at the closing parenthesis. -/
theorem parse_items : ∀ (r : SItems), r.wellFormed = true → ∀ (fuel k : Nat), r.need ≤ fuel →
    r.need ≤ k → ∀ (prev : String) (X : List String),
      (nextToken ⟨prev, r.tokens ++ ")" :: X⟩).bind (expressLoop (recurse_express fuel) k)
        = some (r.tree, ⟨")", X⟩)
  | .nil, _, fuel, k, _, hk, prev, X => by
    simp only [SItems.need] at hk
    obtain ⟨j, rfl⟩ : ∃ j, k = j + 1 := ⟨k - 1, by omega⟩
    simp [SItems.tokens, nextToken_cons, expressLoop, SItems.tree]
  | .cons e rest, hw, fuel, k, hf, hk, prev, X => by
    simp only [SItems.wellFormed, Bool.and_eq_true] at hw
    simp only [SItems.need] at hf hk
    obtain ⟨j, rfl⟩ : ∃ j, k = j + 1 := ⟨k - 1, by omega⟩
    have h1 := parse_expr e hw.1 fuel (by omega) prev (rest.tokens ++ ")" :: X)
    have h2 := parse_items rest hw.2 fuel j (by omega) (by omega) e.lastToken X
    obtain ⟨t, tl, ht, hne⟩ := e.tokens_head hw.1
    simp only [SItems.tokens, List.append_assoc, SItems.tree]
    rw [ht] at h1 ⊢
    simp only [List.cons_append, nextToken_cons, Option.some_bind] at h1 ⊢
    rw [Option.bind_eq_some] at h2
    obtain ⟨st2, e3, e4⟩ := h2
    rw [expressLoop]
    simp only [bne_iff_ne, ne_eq, hne, not_false_eq_true, if_true, h1, e3, e4]
end


/-- Reading an expression takes fuel. -/
theorem SExpr.need_pos : ∀ e : SExpr, 1 ≤ e.need
  | .tok _ => by simp [SExpr.need]
  | .short e => by simp only [SExpr.need]; exact SExpr.need_pos e
  | .paren _ _ => by simp only [SExpr.need]; omega

/-- A structure never compares equal to itself behind one more empty node. -/
theorem compareEqual_shifted (b : Cell) (hb : b.isNull = false) :
    compareEqual (.mk none b .null) b = .ok .FALSE := by
  induction b with
  | null => simp at hb
  | TRUE => rfl
  | FALSE => rfl
  | mk s n sub ihn _ =>
    rw [compareEqual_mk_mk]
    cases s with
    | some l => rfl
    | none =>
      cases hsub : sub.isNull
      · simp
      · have hnull : sub = .null := by cases sub <;> simp_all
        subst hnull
        cases hn : n.isNull
        · simp [ihn hn]
        · simp

/-- With a pair that has no continuation in front, the lookup of the key of
the pair finds the pair. -/
theorem findAssoc_lost (s : String) (rest : Cell) :
    findAssoc (atom s) (.mk none rest (.mk none .null (.mk none .null (atom s))))
      = .ok (.mk none .null (.mk none .null (atom s))) := by
  simp [findAssoc, lowest, atom, strEq]

/-! ## Claims -/

/-- C1: user-function application. In a new session the input
`(define (double x) (* x 2))` returns no handle and leaves the globals
`doubleGlobals`; in them, for every integer `n` such that `2 * n` fits an
`int`, the input `(double n)`, with `n` written as its decimal text, evaluates
to a bare atom whose label is the decimal text of `2 * n`. -/
theorem double_application (n : Int) (fuel : Nat)
    (hlo : -2147483648 ≤ 2 * n) (hhi : 2 * n ≤ 2147483647) :
    eval (fuel + 3) ⟨defineDouble⟩ freshGlobals = .ok (none, doubleGlobals) ∧
    eval (fuel + 3) ⟨sexp [atom "double", atom (sprintf_i n)]⟩ doubleGlobals
      = .ok (some ⟨atom (sprintf_i (2 * n))⟩, doubleGlobals) := by
  refine ⟨rfl, ?_⟩
  rw [double_call fuel (sprintf_i n) (sprintf_i_not_keyword n) (sprintf_i_ne n "double" rfl)
    (sprintf_i_ne n "#f" rfl), atoiText_sprintf_i n (by omega) (by omega), one_mul,
    wrapInt_of_range n (by omega) (by omega), wrapInt_of_range (n * 2) (by omega) (by omega),
    mul_comm]

/-- The witness of C1: `(double 5)` evaluates to the atom `10`. -/
theorem double_application_witness :
    (-2147483648 : Int) ≤ 2 * 5 ∧ (2 * 5 : Int) ≤ 2147483647 ∧
    eval 3 ⟨defineDouble⟩ freshGlobals = .ok (none, doubleGlobals) ∧
    eval 3 ⟨sexp [atom "double", atom "5"]⟩ doubleGlobals
      = .ok (some ⟨atom "10"⟩, doubleGlobals) :=
  ⟨by decide, by decide, double_application 5 0 (by decide) (by decide)⟩


/-- C2: define-then-lookup round trip. In globals whose variable store `cons`
can prepend to (every store the program builds), for a symbol `s` and an atom
`v` that both have no match in the store, `v` not the text `#f` (so in
particular for every numeral `v`), the top-level input `(define s v)` returns
no handle and leaves globals in which the bare symbol `s` evaluates to the
atom `v`. -/
theorem define_then_lookup (g : Globals) (s v : String) (fuel : Nat)
    (hstore : acceptsBinding g.mAssocVars = true)
    (hs : findAssoc (atom s) g.mAssocVars = .ok .null)
    (hv : findAssoc (atom v) g.mAssocVars = .ok .null)
    (hnum : v ≠ "#f") :
    ∃ g1 : Globals,
      eval (fuel + 2) ⟨sexp [atom "define", atom s, atom v]⟩ g = .ok (none, g1) ∧
      eval (fuel + 1) ⟨atom s⟩ g1 = .ok (some ⟨atom v⟩, g1) := by
  refine ⟨{ g with mAssocVars := .mk none g.mAssocVars (bindingPair (atom s) (atom v)),
                   varsGen := g.varsGen + 1 }, ?_, ?_⟩
  · unfold eval
    rw [recurse_eval_define_var (fuel + 1) (atom s) (atom v) (atom s) (atom v) (globalEnv g) g g g
      (recurse_eval_unbound fuel s _ g hstore hs) (recurse_eval_unbound fuel v _ g hstore hv)
      (isList_atom s) hstore]
    simp [globalEnv, storedPair_atom _ v hnum]
  · exact recurse_eval_head fuel s (atom v) g.mAssocVars _ _

/-- The witness of C2: after `(define x 5)` in a new session, `x` evaluates
to the atom `5`. -/
theorem define_then_lookup_witness :
    acceptsBinding freshGlobals.mAssocVars = true ∧
    findAssoc (atom "x") freshGlobals.mAssocVars = .ok .null ∧
    findAssoc (atom "5") freshGlobals.mAssocVars = .ok .null ∧
    "5" ≠ "#f" ∧
    ∃ g1 : Globals,
      eval 2 ⟨sexp [atom "define", atom "x", atom "5"]⟩ freshGlobals = .ok (none, g1) ∧
      eval 1 ⟨atom "x"⟩ g1 = .ok (some ⟨atom "5"⟩, g1) :=
  ⟨rfl, rfl, rfl, by decide,
    define_then_lookup freshGlobals "x" "5" 0 rfl rfl rfl (by decide)⟩

/-- C3: redefinition is additive and lookup returns the most recent match.
For every environment `env` that `cons` can prepend to, every atom `s` and
all atoms `v1`, `v2` not labelled `#f`: the two calls of `define` return, the
lookup `assocForVar` of `s` in the second result gives `v2`, the second
result continues with the first, and the first still holds the pair that
binds `s` to `v1` (where the lookup gives `v1`) in front of `env`. -/
theorem define_twice_lookup (env : SList) (s v1 v2 : String)
    (henv : acceptsBinding env.mStructure = true) (hv1 : v1 ≠ "#f") (hv2 : v2 ≠ "#f") :
    ∃ e1 e2 : SList,
      define ⟨atom s⟩ ⟨atom v1⟩ env = .ok e1 ∧
      define ⟨atom s⟩ ⟨atom v2⟩ e1 = .ok e2 ∧
      assocForVar (atom s) e2 = .ok ⟨atom v2⟩ ∧
      e2.mStructure.mNext = .ok e1.mStructure ∧
      e1.mStructure.mSub = .ok (bindingPair (atom s) (atom v1)) ∧
      e1.mStructure.mNext = .ok env.mStructure ∧
      assocForVar (atom s) e1 = .ok ⟨atom v1⟩ := by
  have h1 := define_accepting ⟨atom s⟩ ⟨atom v1⟩ env (cellSymIs_atom v1 "#f" hv1) henv
  have h2 := define_accepting ⟨atom s⟩ ⟨atom v2⟩
    ⟨.mk none env.mStructure (bindingPair (atom s) (atom v1))⟩
    (cellSymIs_atom v2 "#f" hv2) (by simp [acceptsBinding, bindingPair, cellSymIs])
  refine ⟨_, _, h1, h2, ?_, rfl, rfl, rfl, ?_⟩ <;>
    simp [assocForVar, assoc, atom, findAssoc, bindingPair, lowest, strEq, wrapStructure,
      symIs, cadr, cdr, car]

/-- The witness of C3: in the initial association list, `x` bound to `1` and
then to `2`. -/
theorem define_twice_lookup_witness :
    acceptsBinding iniAssocList.mStructure = true ∧ "1" ≠ "#f" ∧ "2" ≠ "#f" ∧
    ∃ e1 e2 : SList,
      define ⟨atom "x"⟩ ⟨atom "1"⟩ iniAssocList = .ok e1 ∧
      define ⟨atom "x"⟩ ⟨atom "2"⟩ e1 = .ok e2 ∧
      assocForVar (atom "x") e2 = .ok ⟨atom "2"⟩ ∧
      e2.mStructure.mNext = .ok e1.mStructure ∧
      e1.mStructure.mSub = .ok (bindingPair (atom "x") (atom "1")) ∧
      e1.mStructure.mNext = .ok iniAssocList.mStructure ∧
      assocForVar (atom "x") e1 = .ok ⟨atom "1"⟩ :=
  ⟨rfl, by decide, by decide,
    define_twice_lookup iniAssocList "x" "1" "2" rfl (by decide) (by decide)⟩

/-- C5: `quote` returns its operand unevaluated. For every cell whose first
member is the atom `quote` and whose second member is a node `x`, in every
environment and with any globals, `recurse_eval` returns a handle that wraps
`x` itself and leaves the globals as they were; one unit of fuel is enough,
so nothing inside `x` is evaluated. -/
theorem quote_returns_operand (sym s2 : Option String) (n2 a b x : Cell) (hx : x ≠ .null)
    (environment : Env) (g : Globals) (fuel : Nat) :
    recurse_eval (fuel + 1) (.mk sym (.mk s2 n2 x) (.mk (some "quote") a b)) environment g
      = .ok (some ⟨x⟩, g) := by
  cases x with
  | null => exact absurd rfl hx
  | TRUE => rfl
  | FALSE => rfl
  | mk s n b => rfl

/-- The witness of C5: `'(a b)` evaluates to the chain `(a b)` with fuel 1. -/
theorem quote_returns_operand_witness :
    sexp [atom "a", atom "b"] ≠ .null ∧
    recurse_eval 1 (quoted (sexp [atom "a", atom "b"])) (globalEnv freshGlobals) freshGlobals
      = .ok (some ⟨sexp [atom "a", atom "b"]⟩, freshGlobals) :=
  ⟨by decide, quote_returns_operand none none .null .null .null (sexp [atom "a", atom "b"])
    (by decide) (globalEnv freshGlobals) freshGlobals 0⟩

/-- C4, the code at the failing input: in a new session `(define x x)` binds
`x` to the atom `x`, and a second `(define x 7)` does change the value of
`x`: the bare symbol then evaluates to the atom `7`, not to the atom `x` any
more, where the comment above `define` says that a second binding will not
change the value. -/
theorem define_twice_changes_self_bound :
    ∃ g1 g2 : Globals,
      eval 2 ⟨sexp [atom "define", atom "x", atom "x"]⟩ freshGlobals = .ok (none, g1) ∧
      eval 1 ⟨atom "x"⟩ g1 = .ok (some ⟨atom "x"⟩, g1) ∧
      eval 2 ⟨sexp [atom "define", atom "x", atom "7"]⟩ g1 = .ok (none, g2) ∧
      eval 1 ⟨atom "x"⟩ g2 = .ok (some ⟨atom "7"⟩, g2) ∧
      atom "7" ≠ atom "x" :=
  ⟨_, _, rfl, rfl, rfl, rfl, by decide⟩

/-- Away from the failing input of C4, a name bound to an atom other than
itself is bound once.
In globals whose variable store `cons` can prepend to, for a symbol `s` and
atoms `v1`, `v2` that have no match in the store, `v1` not the text `#f` and
different from `s`: after `(define s v1)` the symbol `s` evaluates to `v1`,
and after a following `(define s v2)` it still evaluates to `v1`. -/
theorem define_binds_once (g : Globals) (s v1 v2 : String) (fuel : Nat)
    (hstore : acceptsBinding g.mAssocVars = true)
    (hs : findAssoc (atom s) g.mAssocVars = .ok .null)
    (hv1 : findAssoc (atom v1) g.mAssocVars = .ok .null)
    (hv2 : findAssoc (atom v2) g.mAssocVars = .ok .null)
    (hf : v1 ≠ "#f") (hne : v1 ≠ s) :
    ∃ g1 g2 : Globals,
      eval (fuel + 2) ⟨sexp [atom "define", atom s, atom v1]⟩ g = .ok (none, g1) ∧
      eval (fuel + 1) ⟨atom s⟩ g1 = .ok (some ⟨atom v1⟩, g1) ∧
      eval (fuel + 2) ⟨sexp [atom "define", atom s, atom v2]⟩ g1 = .ok (none, g2) ∧
      eval (fuel + 1) ⟨atom s⟩ g2 = .ok (some ⟨atom v1⟩, g2) := by
  let env1 : Cell := .mk none g.mAssocVars (bindingPair (atom s) (atom v1))
  let g1 : Globals := { g with mAssocVars := env1, varsGen := g.varsGen + 1 }
  -- the value of the second define
  let w : String := if v2 = s then v1 else v2
  have hw : recurse_eval (fuel + 1) (atom v2) (globalEnv g1) g1 = .ok (some ⟨atom w⟩, g1) := by
    rw [recurse_eval_atom]
    by_cases h : v2 = s
    · subst h
      simp only [globalEnv, g1, env1, w, if_true]
      rw [evalSymbol_head]; rfl
    · simp only [globalEnv, g1, env1, w, if_neg h]
      rw [evalSymbol_skip v2 s _ _ _ (by simp [bindingPair])
        (by simp [bindingPair, lowest, atom]) h (isNull_of_accepts _ hstore),
        evalSymbol_unbound v2 ⟨g.mAssocVars, _⟩ hstore hv2]
      rfl
  let g2 : Globals :=
    { g1 with mAssocVars := .mk none env1 (storedPair (atom v1) (atom w)),
              varsGen := g1.varsGen + 1 }
  refine ⟨g1, g2, ?_, ?_, ?_, ?_⟩
  · unfold eval
    rw [recurse_eval_define_var (fuel + 1) (atom s) (atom v1) (atom s) (atom v1) (globalEnv g)
      g g g (recurse_eval_unbound fuel s _ g hstore hs)
      (recurse_eval_unbound fuel v1 _ g hstore hv1) (isList_atom s) hstore]
    simp [globalEnv, storedPair_atom _ v1 hf, g1, env1]
  · exact recurse_eval_head fuel s (atom v1) g.mAssocVars _ _
  · unfold eval
    rw [recurse_eval_define_var (fuel + 1) (atom s) (atom v2) (atom v1) (atom w) (globalEnv g1)
      g1 g1 g1 (recurse_eval_head fuel s (atom v1) g.mAssocVars _ _) hw (isList_atom v1)
      (by simp [globalEnv, g1, env1, acceptsBinding, bindingPair, cellSymIs])]
    simp [globalEnv, g2]
  · unfold eval
    rw [recurse_eval_atom]
    simp only [globalEnv, g2]
    rw [evalSymbol_skip s v1 _ env1 _ (storedPair_isNull _ _) (storedPair_lowest _ _)
      (Ne.symm hne) (by simp [env1])]
    simp only [env1]
    rw [evalSymbol_head]
    rfl

/-- An instance of binding once: `(define x 5)` followed by `(define x 7)`
in a new session. -/
theorem define_binds_once_witness :
    acceptsBinding freshGlobals.mAssocVars = true ∧
    findAssoc (atom "x") freshGlobals.mAssocVars = .ok .null ∧
    findAssoc (atom "5") freshGlobals.mAssocVars = .ok .null ∧
    findAssoc (atom "7") freshGlobals.mAssocVars = .ok .null ∧
    "5" ≠ "#f" ∧ "5" ≠ "x" ∧
    ∃ g1 g2 : Globals,
      eval 2 ⟨sexp [atom "define", atom "x", atom "5"]⟩ freshGlobals = .ok (none, g1) ∧
      eval 1 ⟨atom "x"⟩ g1 = .ok (some ⟨atom "5"⟩, g1) ∧
      eval 2 ⟨sexp [atom "define", atom "x", atom "7"]⟩ g1 = .ok (none, g2) ∧
      eval 1 ⟨atom "x"⟩ g2 = .ok (some ⟨atom "5"⟩, g2) :=
  ⟨rfl, rfl, rfl, rfl, by decide, by decide,
    define_binds_once freshGlobals "x" "5" "7" 0 rfl rfl rfl rfl (by decide) (by decide)⟩

/-- C6: `if` takes the then-branch exactly when the condition evaluates to the
`TRUE` singleton. For every node `(if c t e)`, environment and globals, when
the condition `c` evaluates to a handle `r`, the node evaluates as `t` does
when `r` wraps the `TRUE` singleton and as `e` does in every other case, both
in the globals the condition left. -/
theorem if_selects_branch (fuel : Nat) (c t e : Cell) (environment : Env) (g g1 : Globals)
    (r : SList) (hc : recurse_eval fuel c environment g = .ok (some r, g1)) :
    recurse_eval (fuel + 1) (sexp [atom "if", c, t, e]) environment g
      = if r.mStructure = .TRUE then recurse_eval fuel t environment g1
        else recurse_eval fuel e environment g1 := by
  simp only [sexp, chain]
  rw [show atom "if" = .mk (some "if") .null .null from rfl, recurse_eval_if]
  simp only [alternateIf, mNext_mk, mSub_mk, ok_bind, hc, deref]

/-- The witness of C6: `(if (> 3 2) 1 0)` evaluates to the atom `1`, and
`(if #f 1 0)`, whose condition is the literal atom `#f`, to the atom `0`. -/
theorem if_selects_branch_witness :
    recurse_eval 2 (sexp [atom ">", atom "3", atom "2"]) (globalEnv freshGlobals) freshGlobals
      = .ok (some ⟨.TRUE⟩, freshGlobals) ∧
    recurse_eval 3 (sexp [atom "if", sexp [atom ">", atom "3", atom "2"], atom "1", atom "0"])
        (globalEnv freshGlobals) freshGlobals
      = .ok (some ⟨atom "1"⟩, freshGlobals) ∧
    recurse_eval 2 (sexp [atom "if", atom "#f", atom "1", atom "0"])
        (globalEnv freshGlobals) freshGlobals
      = .ok (some ⟨atom "0"⟩, freshGlobals) :=
  ⟨rfl,
   (if_selects_branch 2 (sexp [atom ">", atom "3", atom "2"]) (atom "1") (atom "0")
      (globalEnv freshGlobals) freshGlobals freshGlobals ⟨.TRUE⟩ rfl).trans rfl,
   (if_selects_branch 1 (atom "#f") (atom "1") (atom "0")
      (globalEnv freshGlobals) freshGlobals freshGlobals ⟨atom "#f"⟩ rfl).trans rfl⟩

/-- C7: `cond` returns the evaluation of the body of the first clause that
qualifies. For every clause list split as `pre`, `(p b)`, `post`, where every
clause of `pre` is passed over (its predicate is not the text `else` or `#t`
and evaluates to a handle other than the `TRUE` singleton), taking the
globals from `g` to `g'`: if `p` is the text `else` or `#t`, the node
evaluates as the body `b` does in `g'`; if `p` evaluates in `g'` to the
`TRUE` singleton, the node evaluates as `b` does in the globals `p` left; and
if every clause of the list is passed over, the node evaluates to the `FALSE`
singleton. -/
theorem cond_first_qualifying (fuel : Nat) (environment : Env) (pre : List (Cell × Cell))
    (g g' : Globals) (hpre : ClausesFail (recurse_eval fuel) environment pre g g') :
    (∀ (p b : Cell) (post : List (Cell × Cell)), isElseAtom p = true →
      recurse_eval (fuel + 1)
          (sexp (atom "cond" :: (pre ++ (p, b) :: post).map clause)) environment g
        = recurse_eval fuel b environment g') ∧
    (∀ (p b : Cell) (post : List (Cell × Cell)) (g'' : Globals), isElseAtom p = false →
      recurse_eval fuel p environment g' = .ok (some ⟨.TRUE⟩, g'') →
      recurse_eval (fuel + 1)
          (sexp (atom "cond" :: (pre ++ (p, b) :: post).map clause)) environment g
        = recurse_eval fuel b environment g'') ∧
    recurse_eval (fuel + 1) (sexp (atom "cond" :: pre.map clause)) environment g
      = .ok (some ⟨.FALSE⟩, g') := by
  have hloop := fun rest =>
    condLoop_fail (recurse_eval fuel) environment pre rest g g' hpre
  refine ⟨?_, ?_, ?_⟩
  · intro p b post hp
    simp only [sexp, chain]
    rw [show atom "cond" = .mk (some "cond") .null .null from rfl, recurse_eval_cond]
    simp only [cond, mNext_mk, ok_bind, List.map_append, List.map_cons, hloop]
    simp only [chain, condLoop, condClause, isElseClause_clause, hp, if_true]
    simp only [clause, sexp, chain, mNext_mk, mSub_mk, ok_bind]
    cases recurse_eval fuel b environment g' <;> rfl
  · intro p b post g'' hp hev
    simp only [sexp, chain]
    rw [show atom "cond" = .mk (some "cond") .null .null from rfl, recurse_eval_cond]
    simp only [cond, mNext_mk, ok_bind, List.map_append, List.map_cons, hloop]
    simp only [chain, condLoop, condClause, isElseClause_clause, hp]
    simp only [clause, sexp, chain, mNext_mk, mSub_mk, ok_bind, hev, deref]
    cases recurse_eval fuel b environment g'' <;> rfl
  · simp only [sexp, chain]
    rw [show atom "cond" = .mk (some "cond") .null .null from rfl, recurse_eval_cond]
    have := hloop []
    simp only [List.append_nil] at this
    simp only [cond, mNext_mk, ok_bind, this]
    rfl

/-- The witness of C7: `(cond ((> 1 2) 'no) (else 'yes))` evaluates to the atom
`yes`; `(cond ((> 1 2) 'no) ((< 1 2) 'yes))` too; `(cond ((> 1 2) 'no))`
evaluates to the `FALSE` singleton. -/
theorem cond_first_qualifying_witness :
    ClausesFail (recurse_eval 2) (globalEnv freshGlobals)
      [(sexp [atom ">", atom "1", atom "2"], quoted (atom "no"))] freshGlobals freshGlobals ∧
    recurse_eval 3
        (sexp [atom "cond", sexp [sexp [atom ">", atom "1", atom "2"], quoted (atom "no")],
          sexp [atom "else", quoted (atom "yes")]]) (globalEnv freshGlobals) freshGlobals
      = .ok (some ⟨atom "yes"⟩, freshGlobals) ∧
    recurse_eval 3
        (sexp [atom "cond", sexp [sexp [atom ">", atom "1", atom "2"], quoted (atom "no")],
          sexp [sexp [atom "<", atom "1", atom "2"], quoted (atom "yes")]])
        (globalEnv freshGlobals) freshGlobals
      = .ok (some ⟨atom "yes"⟩, freshGlobals) ∧
    recurse_eval 3
        (sexp [atom "cond", sexp [sexp [atom ">", atom "1", atom "2"], quoted (atom "no")]])
        (globalEnv freshGlobals) freshGlobals
      = .ok (some ⟨.FALSE⟩, freshGlobals) :=
  have hpre : ClausesFail (recurse_eval 2) (globalEnv freshGlobals)
      [(sexp [atom ">", atom "1", atom "2"], quoted (atom "no"))] freshGlobals freshGlobals :=
    ⟨rfl, ⟨.FALSE⟩, freshGlobals, rfl, by decide, rfl⟩
  have h := cond_first_qualifying 2 (globalEnv freshGlobals)
    [(sexp [atom ">", atom "1", atom "2"], quoted (atom "no"))] freshGlobals freshGlobals hpre
  ⟨hpre,
   (h.1 (atom "else") (quoted (atom "yes")) [] rfl).trans rfl,
   (h.2.1 (sexp [atom "<", atom "1", atom "2"]) (quoted (atom "yes")) [] freshGlobals rfl
      rfl).trans rfl,
   h.2.2⟩

/-- C8, the code at the failing inputs: in a new session `(and 5)` and
`(and #f)` evaluate to the `TRUE` singleton, although the operands evaluate to
the atoms `5` and `#f` and not to the `TRUE` singleton; the loop of `logicAnd`
stops only at the `FALSE` singleton, where `logicOr` tests for `TRUE`. -/
theorem logicAnd_passes_non_true :
    eval 1 ⟨atom "5"⟩ freshGlobals = .ok (some ⟨atom "5"⟩, freshGlobals) ∧
    eval 2 ⟨sexp [atom "and", atom "5"]⟩ freshGlobals = .ok (some ⟨.TRUE⟩, freshGlobals) ∧
    eval 1 ⟨atom "#f"⟩ freshGlobals = .ok (some ⟨atom "#f"⟩, freshGlobals) ∧
    eval 2 ⟨sexp [atom "and", atom "#f"]⟩ freshGlobals = .ok (some ⟨.TRUE⟩, freshGlobals) ∧
    eval 2 ⟨sexp [atom "or", atom "5"]⟩ freshGlobals = .ok (some ⟨.FALSE⟩, freshGlobals) :=
  ⟨rfl, rfl, rfl, rfl, rfl⟩

/-- C9: addition. For operands `e1 ... en` (any number of them) that evaluate
in order to cells labelled `l1 ... ln`, the node `(+ e1 ... en)` evaluates to
a bare atom whose label is the decimal text of the sum of the `atoi` values of
the labels, reduced to the range of `int`; the globals are those the operands
left. -/
theorem add_sums_operands (fuel : Nat) (environment : Env) (es : List Cell)
    (ls : List String) (g g' : Globals)
    (h : OperandsEvalTo (recurse_eval fuel) environment es g ls g') :
    recurse_eval (fuel + 1) (sexp (atom "+" :: es)) environment g
      = .ok (some ⟨atom (sprintf_i (wrapInt ((ls.map atoiText).sum)))⟩, g') := by
  simp only [sexp, chain]
  rw [show atom "+" = .mk (some "+") .null .null from rfl, recurse_eval_add]
  simp only [add, mNext_mk, ok_bind, arithLoop_labels _ _ _ es ls g g' 0 h]
  rw [← foldl_wrapped (fun a b => a + b) ls 0 rfl, foldl_add_wrap ls 0 0 rfl]
  simp [numCell, symCell, atom, wrapStructure]

/-- The witness of C9: `(+ 1 2 3)` evaluates to the atom `6`. -/
theorem add_sums_operands_witness :
    OperandsEvalTo (recurse_eval 1) (globalEnv freshGlobals) [atom "1", atom "2", atom "3"]
      freshGlobals ["1", "2", "3"] freshGlobals ∧
    recurse_eval 2 (sexp [atom "+", atom "1", atom "2", atom "3"]) (globalEnv freshGlobals)
        freshGlobals
      = .ok (some ⟨atom "6"⟩, freshGlobals) :=
  have h : OperandsEvalTo (recurse_eval 1) (globalEnv freshGlobals)
      [atom "1", atom "2", atom "3"] freshGlobals ["1", "2", "3"] freshGlobals :=
    ⟨_, _, rfl, rfl, _, _, rfl, rfl, _, _, rfl, rfl, rfl⟩
  ⟨h, (add_sums_operands 1 (globalEnv freshGlobals) [atom "1", atom "2", atom "3"]
    ["1", "2", "3"] freshGlobals freshGlobals h).trans rfl⟩

/-- C10: subtraction uses the first operand as the running accumulator. For
operands `e1 ... en`, `n ≥ 1`, that evaluate in order to cells labelled
`l1 ... ln` with `atoi` values `a1 ... an`, the node `(- e1 ... en)`
evaluates to a bare atom whose label is the decimal text of
`a1 - a2 - ... - an`, reduced to the range of `int`; with a single operand
the label is the decimal text of `a1` itself. -/
theorem subtract_from_first (fuel : Nat) (environment : Env) (e1 : Cell) (es : List Cell)
    (l1 : String) (ls : List String) (g g' : Globals)
    (h : OperandsEvalTo (recurse_eval fuel) environment (e1 :: es) g (l1 :: ls) g') :
    recurse_eval (fuel + 1) (sexp (atom "-" :: e1 :: es)) environment g
      = .ok (some ⟨atom (sprintf_i
          (wrapInt (ls.foldl (fun a l => a - atoiText l) (atoiText l1))))⟩, g') ∧
    (ls = [] →
      recurse_eval (fuel + 1) (sexp (atom "-" :: e1 :: es)) environment g
        = .ok (some ⟨atom (sprintf_i (atoiText l1))⟩, g')) := by
  obtain ⟨r, g1, hev, hl, hrest⟩ := h
  have key : recurse_eval (fuel + 1) (sexp (atom "-" :: e1 :: es)) environment g
      = .ok (some ⟨atom (sprintf_i
          (wrapInt (ls.foldl (fun a l => a - atoiText l) (atoiText l1))))⟩, g') := by
    simp only [sexp, chain]
    rw [show atom "-" = .mk (some "-") .null .null from rfl, recurse_eval_subtract]
    simp only [subtract, mNext_mk, mSub_mk, ok_bind, hev, deref, hl, atoi,
      arithLoop_labels _ _ _ es ls g1 g' _ hrest]
    rw [← foldl_wrapped (fun a b => a - b) ls (atoiText l1) (atoiText_wrapped l1),
      foldl_sub_wrap ls (atoiText l1) (atoiText l1) rfl]
    simp [numCell, symCell, atom, wrapStructure]
  refine ⟨key, ?_⟩
  intro hnil
  subst hnil
  rw [key]
  simp [atoiText_wrapped]

/-- The witness of C10: `(- 10 3 4)` evaluates to the atom `3` and `(- 10)` to
the atom `10`. -/
theorem subtract_from_first_witness :
    OperandsEvalTo (recurse_eval 1) (globalEnv freshGlobals) [atom "10", atom "3", atom "4"]
      freshGlobals ["10", "3", "4"] freshGlobals ∧
    recurse_eval 2 (sexp [atom "-", atom "10", atom "3", atom "4"]) (globalEnv freshGlobals)
        freshGlobals
      = .ok (some ⟨atom "3"⟩, freshGlobals) ∧
    recurse_eval 2 (sexp [atom "-", atom "10"]) (globalEnv freshGlobals) freshGlobals
      = .ok (some ⟨atom "10"⟩, freshGlobals) :=
  have h : OperandsEvalTo (recurse_eval 1) (globalEnv freshGlobals)
      [atom "10", atom "3", atom "4"] freshGlobals ["10", "3", "4"] freshGlobals :=
    ⟨_, _, rfl, rfl, _, _, rfl, rfl, _, _, rfl, rfl, rfl⟩
  ⟨h,
   ((subtract_from_first 1 (globalEnv freshGlobals) (atom "10") [atom "3", atom "4"] "10"
      ["3", "4"] freshGlobals freshGlobals h).1).trans rfl,
   ((subtract_from_first 1 (globalEnv freshGlobals) (atom "10") [] "10" [] freshGlobals
      freshGlobals ⟨_, _, rfl, rfl, rfl⟩).2 rfl).trans rfl⟩

/-- C11: numeric comparisons. For all cells `a`, `b` that carry the labels `la`,
`lb` (atoms in particular), with `x = atoi la` and `y = atoi lb`: `lessThan`,
`greaterThan`, `lessThanOrEqualTo` and `greaterThanOrEqualTo` return the
`TRUE` singleton exactly when `x < y`, `x > y`, `x ≤ y`, `x ≥ y`, and the
`FALSE` singleton otherwise; so `<=` returns `TRUE` if and only if `>` returns
`FALSE` on the same arguments. -/
theorem comparisons_follow_atoi (la lb : String) (na sa nb sb : Cell) :
    lessThan ⟨.mk (some la) na sa⟩ ⟨.mk (some lb) nb sb⟩
      = .ok ⟨if atoiText la < atoiText lb then .TRUE else .FALSE⟩ ∧
    greaterThan ⟨.mk (some la) na sa⟩ ⟨.mk (some lb) nb sb⟩
      = .ok ⟨if atoiText la > atoiText lb then .TRUE else .FALSE⟩ ∧
    lessThanOrEqualTo ⟨.mk (some la) na sa⟩ ⟨.mk (some lb) nb sb⟩
      = .ok ⟨if atoiText la ≤ atoiText lb then .TRUE else .FALSE⟩ ∧
    greaterThanOrEqualTo ⟨.mk (some la) na sa⟩ ⟨.mk (some lb) nb sb⟩
      = .ok ⟨if atoiText la ≥ atoiText lb then .TRUE else .FALSE⟩ ∧
    (lessThanOrEqualTo ⟨.mk (some la) na sa⟩ ⟨.mk (some lb) nb sb⟩ = .ok ⟨.TRUE⟩ ↔
      greaterThan ⟨.mk (some la) na sa⟩ ⟨.mk (some lb) nb sb⟩ = .ok ⟨.FALSE⟩) := by
  have h1 : lessThan ⟨.mk (some la) na sa⟩ ⟨.mk (some lb) nb sb⟩
      = .ok ⟨if atoiText la < atoiText lb then .TRUE else .FALSE⟩ := by
    simp only [lessThan, mSymbol_mk, atoi, ok_bind, wrapStructure, pure_eq_ok]; split <;> rfl
  have h2 : greaterThan ⟨.mk (some la) na sa⟩ ⟨.mk (some lb) nb sb⟩
      = .ok ⟨if atoiText la > atoiText lb then .TRUE else .FALSE⟩ := by
    simp only [greaterThan, mSymbol_mk, atoi, ok_bind, wrapStructure, pure_eq_ok]; split <;> rfl
  have h3 : lessThanOrEqualTo ⟨.mk (some la) na sa⟩ ⟨.mk (some lb) nb sb⟩
      = .ok ⟨if atoiText la ≤ atoiText lb then .TRUE else .FALSE⟩ := by
    simp only [lessThanOrEqualTo, mSymbol_mk, atoi, ok_bind, wrapStructure, pure_eq_ok]
    split <;> rfl
  have h4 : greaterThanOrEqualTo ⟨.mk (some la) na sa⟩ ⟨.mk (some lb) nb sb⟩
      = .ok ⟨if atoiText la ≥ atoiText lb then .TRUE else .FALSE⟩ := by
    simp only [greaterThanOrEqualTo, mSymbol_mk, atoi, ok_bind, wrapStructure, pure_eq_ok]
    split <;> rfl
  refine ⟨h1, h2, h3, h4, ?_⟩
  rw [h3, h2]
  by_cases h : atoiText la ≤ atoiText lb
  · have h' : ¬ atoiText la > atoiText lb := not_lt.mpr h
    simp [h, h']
  · have h' : atoiText la > atoiText lb := not_le.mp h
    simp [h, h']

/-- C12: `equal?` is reflexive. For every cell structure `a` (an atom, a chain,
a nested chain, also the `NULL` structure and the two singletons), `isEqual`
applied to `a` and `a` returns the `TRUE` singleton. -/
theorem isEqual_reflexive (a : Cell) : isEqual ⟨a⟩ ⟨a⟩ = .ok ⟨.TRUE⟩ := by
  cases h : a.isNull
  · simp [isEqual, h, compareEqual_refl a h, wrapStructure]
  · simp [isEqual, h, wrapStructure]

/-- C13: `equal?` is symmetric. For all cell structures `a` and `b`, each
possibly `NULL`, `isEqual` returns one of the two singletons, and the same one
for `(a, b)` and for `(b, a)`. -/
theorem isEqual_symmetric (a b : Cell) :
    isEqual ⟨a⟩ ⟨b⟩ = isEqual ⟨b⟩ ⟨a⟩ ∧
    (isEqual ⟨a⟩ ⟨b⟩ = .ok ⟨.TRUE⟩ ∨ isEqual ⟨a⟩ ⟨b⟩ = .ok ⟨.FALSE⟩) := by
  cases ha : a.isNull <;> cases hb : b.isNull
  · rcases compareEqual_total a b ha hb with e | e <;>
      simp [isEqual, ha, hb, ← compareEqual_comm a b, e, wrapStructure]
  · simp [isEqual, ha, hb, wrapStructure]
  · simp [isEqual, ha, hb, wrapStructure]
  · simp [isEqual, ha, hb, wrapStructure]


/-- C14, the claim fails: for `x` the atom `a` and `y` the chain `(#f)`, a node
without a label, `cons` drops `y`, `cdr` of the result is a new empty cell,
and `isEqual` of it and `y` returns the `FALSE` singleton; so does the input
`(equal? (cdr (cons 'a '(#f))) '(#f))` in a new session. -/
theorem cdr_cons_false_head :
    cons ⟨atom "a"⟩ ⟨chain [atom "#f"]⟩ = .ok ⟨.mk none .null (.mk none .null (atom "a"))⟩ ∧
    cdr ⟨.mk none .null (.mk none .null (atom "a"))⟩ = .ok ⟨iniCell⟩ ∧
    isEqual ⟨iniCell⟩ ⟨chain [atom "#f"]⟩ = .ok ⟨.FALSE⟩ ∧
    eval 4 ⟨sexp [atom "equal?",
        sexp [atom "cdr", sexp [atom "cons", quoted (atom "a"), quoted (sexp [atom "#f"])]],
        quoted (sexp [atom "#f"])]⟩ freshGlobals
      = .ok (some ⟨.FALSE⟩, freshGlobals) :=
  ⟨rfl, rfl, rfl, rfl⟩

/-- C14 as amended: `cdr` undoes `cons` when `cons` prepends. For every value
`x` and every node `y` whose content is not an atom labelled `#f` (every
chain that does not start with the atom `#f`, in particular), `cons` returns,
`cdr` of the result is the node `y` itself, and `isEqual` of it and `y`
returns the `TRUE` singleton. -/
theorem cdr_cons (x y : Cell) (hy : acceptsBinding y = true) :
    ∃ c d : SList, cons ⟨x⟩ ⟨y⟩ = .ok c ∧ cdr c = .ok d ∧ d.mStructure = y ∧
      isEqual d ⟨y⟩ = .ok ⟨.TRUE⟩ := by
  have hn := isNull_of_accepts y hy
  refine ⟨⟨.mk none y x⟩, ⟨y⟩, cons_accepting ⟨x⟩ ⟨y⟩ hy, ?_, rfl, ?_⟩
  · simp [cdr, hn]
  · simp [isEqual, hn, compareEqual_refl y hn, wrapStructure]

/-- The witness of C14 as amended: `x` the atom `a`, `y` the chain `(b c)`. -/
theorem cdr_cons_witness :
    acceptsBinding (chain [atom "b", atom "c"]) = true ∧
    ∃ c d : SList, cons ⟨atom "a"⟩ ⟨chain [atom "b", atom "c"]⟩ = .ok c ∧ cdr c = .ok d ∧
      d.mStructure = chain [atom "b", atom "c"] ∧
      isEqual d ⟨chain [atom "b", atom "c"]⟩ = .ok ⟨.TRUE⟩ :=
  ⟨rfl, cdr_cons (atom "a") (chain [atom "b", atom "c"]) rfl⟩

/-- C15, the code at the failing input: for `x` the atom `a` and `y` the chain
`(#f)`, `car` of `cons(x, y)` is not `x` but a new cell that holds `x`, and
`isEqual` of it and `x` returns the `FALSE` singleton; so does the input
`(equal? (car (cons 'a '(#f))) 'a)` in a new session. -/
theorem car_cons_false_head :
    cons ⟨atom "a"⟩ ⟨chain [atom "#f"]⟩ = .ok ⟨.mk none .null (.mk none .null (atom "a"))⟩ ∧
    car ⟨.mk none .null (.mk none .null (atom "a"))⟩ = .ok ⟨.mk none .null (atom "a")⟩ ∧
    isEqual ⟨.mk none .null (atom "a")⟩ ⟨atom "a"⟩ = .ok ⟨.FALSE⟩ ∧
    eval 4 ⟨sexp [atom "equal?",
        sexp [atom "car", sexp [atom "cons", quoted (atom "a"), quoted (sexp [atom "#f"])]],
        quoted (atom "a")]⟩ freshGlobals
      = .ok (some ⟨.FALSE⟩, freshGlobals) :=
  ⟨rfl, rfl, rfl, rfl⟩

/-- C16, the code on the `#f` convention: for every value `a` and every cell
`b` whose content is an atom labelled `#f`, `cons` returns a new cell without
continuation whose content is not the node of `a` but a second new cell, and
that one holds `a`; the input `(cons 'a '(#f))` so evaluates to the chain
`((a))`, not to `(a)`. -/
theorem cons_false_convention_nests (a next nf sf : Cell) (sym : Option String) :
    cons ⟨a⟩ ⟨.mk sym next (.mk (some "#f") nf sf)⟩
      = .ok ⟨.mk none .null (.mk none .null a)⟩ ∧
    Cell.mk none .null a ≠ a ∧
    eval 3 ⟨sexp [atom "cons", quoted (atom "a"), quoted (sexp [atom "#f"])]⟩ freshGlobals
      = .ok (some ⟨chain [chain [atom "a"]]⟩, freshGlobals) := by
  refine ⟨rfl, ?_, rfl⟩
  intro h
  have := congrArg sizeOf h
  simp at this

/-- C19: `cdr` never faults at the end of a chain. For every cell `c` that is
not `NULL` and has no `mNext` (so for the two singletons, for every atom and
for every chain of one member), `cdr` returns a cell whose label, content and
continuation are all absent, and `isNull` of that result returns the `TRUE`
singleton. -/
theorem cdr_at_end (c : Cell) (hc : c.mNext = .ok .null) :
    cdr ⟨c⟩ = .ok ⟨.mk none .null .null⟩ ∧
    isNull ⟨.mk none .null .null⟩ = .ok ⟨.TRUE⟩ := by
  refine ⟨?_, rfl⟩
  simp [cdr, hc, iniCell]

/-- The witness of C19: the atom `()`, and the input `(cdr '())` in a new
session. -/
theorem cdr_at_end_witness :
    (atom "()").mNext = .ok .null ∧
    (cdr ⟨atom "()"⟩ = .ok ⟨.mk none .null .null⟩ ∧
      isNull ⟨.mk none .null .null⟩ = .ok ⟨.TRUE⟩) ∧
    eval 2 ⟨sexp [atom "cdr", quoted (atom "()")]⟩ freshGlobals
      = .ok (some ⟨.mk none .null .null⟩, freshGlobals) ∧
    eval 3 ⟨sexp [atom "null?", sexp [atom "cdr", quoted (atom "()")]]⟩ freshGlobals
      = .ok (some ⟨.TRUE⟩, freshGlobals) :=
  ⟨rfl, cdr_at_end (atom "()") rfl, rfl, rfl⟩

/-- C17, the claim fails: in a new session `(list #f)` builds a chain of one
cell, and `(length (list #f))` evaluates to the atom `0`, not `1`; likewise
`(length (list (< 1 2)))`, whose member is the `TRUE` singleton. -/
theorem length_of_list_of_false :
    eval 2 ⟨sexp [atom "list", atom "#f"]⟩ freshGlobals
      = .ok (some ⟨chain [atom "#f"]⟩, freshGlobals) ∧
    eval 3 ⟨sexp [atom "length", sexp [atom "list", atom "#f"]]⟩ freshGlobals
      = .ok (some ⟨atom "0"⟩, freshGlobals) ∧
    eval 4 ⟨sexp [atom "length", sexp [atom "list", sexp [atom "<", atom "1", atom "2"]]]⟩
        freshGlobals
      = .ok (some ⟨atom "0"⟩, freshGlobals) ∧
    atom "0" ≠ atom "1" :=
  ⟨rfl, rfl, rfl, by decide⟩

/-- C17 as amended: `length` of a list-built chain that is not an empty
structure. For `n` operands, `n` within `int`, that evaluate in order to the
values `rs`, `(length (list e1 ... en))` evaluates to the atom labelled with
the decimal text of `n` when `isEmptyStructure` returns 0 on the chain that
`list` builds (some value carries a label other than `quote`, `()`, `#f`,
`#t`), and to the atom `0` when it returns 1 (no operand, or no such
label). -/
theorem length_of_list (fuel : Nat) (environment : Env) (es rs : List Cell) (g g' : Globals)
    (h : OperandsEval (recurse_eval fuel) environment es g rs g')
    (hlen : (rs.length : Int) ≤ 2147483647) :
    (isEmptyStructure (builtList rs) = .ok 0 →
      recurse_eval (fuel + 2) (sexp [atom "length", sexp (atom "list" :: es)]) environment g
        = .ok (some ⟨atom (sprintf_i rs.length)⟩, g')) ∧
    (isEmptyStructure (builtList rs) = .ok 1 →
      recurse_eval (fuel + 2) (sexp [atom "length", sexp (atom "list" :: es)]) environment g
        = .ok (some ⟨atom "0"⟩, g')) := by
  have hl := recurse_eval_list_built fuel environment es rs g g' h
  have hstep : recurse_eval (fuel + 2) (sexp [atom "length", sexp (atom "list" :: es)])
      environment g = length ⟨builtList rs⟩ >>= fun r => .ok (some r, g') := by
    simp only [sexp, chain]
    rw [show atom "length" = .mk (some "length") .null .null from rfl, recurse_eval_length]
    simp only [sexp, chain] at hl
    simp only [applyUnary, operand1, mNext_mk, mSub_mk, ok_bind, hl, deref, pure_eq_ok]
  constructor
  · intro he
    rw [hstep]
    cases rs with
    | nil =>
      rw [show isEmptyStructure (builtList []) = .ok 1 from rfl] at he
      simp at he
    | cons r rs =>
      simp only [length, he, ok_bind, pure_eq_ok]
      rw [show builtList (r :: rs) = chain (r :: rs) from rfl,
        countCells_chain (r :: rs) 0 (le_refl 0) (by simpa using hlen)]
      simp [numCell, symCell, atom]
  · intro he
    rw [hstep]
    simp only [length, he, ok_bind, pure_eq_ok]
    rfl

/-- The witness of C17 as amended: `(length (list 'a 'b))` evaluates to the
atom `2`, and `(length (list))` to the atom `0`. -/
theorem length_of_list_witness :
    OperandsEval (recurse_eval 1) (globalEnv freshGlobals)
      [quoted (atom "a"), quoted (atom "b")] freshGlobals [atom "a", atom "b"] freshGlobals ∧
    isEmptyStructure (builtList [atom "a", atom "b"]) = .ok 0 ∧
    recurse_eval 3 (sexp [atom "length", sexp [atom "list", quoted (atom "a"), quoted (atom "b")]])
        (globalEnv freshGlobals) freshGlobals
      = .ok (some ⟨atom "2"⟩, freshGlobals) ∧
    recurse_eval 3 (sexp [atom "length", sexp [atom "list"]]) (globalEnv freshGlobals)
        freshGlobals
      = .ok (some ⟨atom "0"⟩, freshGlobals) :=
  have h : OperandsEval (recurse_eval 1) (globalEnv freshGlobals)
      [quoted (atom "a"), quoted (atom "b")] freshGlobals [atom "a", atom "b"] freshGlobals :=
    ⟨_, rfl, _, rfl, rfl⟩
  ⟨h, rfl,
   ((length_of_list 1 (globalEnv freshGlobals) [quoted (atom "a"), quoted (atom "b")]
      [atom "a", atom "b"] freshGlobals freshGlobals h (by decide)).1 rfl).trans rfl,
   (length_of_list 1 (globalEnv freshGlobals) [] [] freshGlobals freshGlobals rfl
      (by decide)).2 rfl⟩

/-- C18: `append` agrees with list concatenation. When the operands `es`
evaluate to the values `xs` and the operands `fs` to the values `ys`, both
lists with at least one member, and the operands `es ++ fs` evaluate to the
values `xs ++ ys`, the three `list` nodes evaluate to handles `la`, `lb`,
`lc` such that `append la lb` returns a handle `ab` with
`isEqual ab lc` the `TRUE` singleton. -/
theorem append_of_lists (fuel : Nat) (environment : Env) (es fs xs ys : List Cell)
    (g g1 g2 g3 g4 : Globals)
    (hes : OperandsEval (recurse_eval fuel) environment es g xs g1)
    (hfs : OperandsEval (recurse_eval fuel) environment fs g1 ys g2)
    (hall : OperandsEval (recurse_eval fuel) environment (es ++ fs) g3 (xs ++ ys) g4)
    (hn : xs ≠ []) (hm : ys ≠ []) :
    ∃ la lb lc ab : SList,
      recurse_eval (fuel + 1) (sexp (atom "list" :: es)) environment g = .ok (some la, g1) ∧
      recurse_eval (fuel + 1) (sexp (atom "list" :: fs)) environment g1 = .ok (some lb, g2) ∧
      recurse_eval (fuel + 1) (sexp (atom "list" :: (es ++ fs))) environment g3
        = .ok (some lc, g4) ∧
      append la lb = .ok ab ∧ isEqual ab lc = .ok ⟨.TRUE⟩ := by
  refine ⟨_, _, _, ⟨chain (xs ++ ys)⟩, recurse_eval_list_built fuel environment es xs g g1 hes,
    recurse_eval_list_built fuel environment fs ys g1 g2 hfs,
    recurse_eval_list_built fuel environment (es ++ fs) (xs ++ ys) g3 g4 hall, ?_, ?_⟩
  · cases xs with
    | nil => exact absurd rfl hn
    | cons x xs =>
      cases ys with
      | nil => exact absurd rfl hm
      | cons y ys =>
        simp only [append, builtList, appendSubstitute_chain x xs (y :: ys), ok_bind,
          pure_eq_ok, wrapStructure, List.cons_append]
  · cases xs with
    | nil => exact absurd rfl hn
    | cons x xs =>
      simp only [List.cons_append, builtList]
      simp [isEqual, chain_isNull, compareEqual_refl _ (chain_isNull x (xs ++ ys)),
        wrapStructure]

/-- The witness of C18: `append(list(a, b), list(c, d))` is `equal?` to
`list(a, b, c, d)`, also as the one input
`(equal? (append (list 'a 'b) (list 'c 'd)) (list 'a 'b 'c 'd))`. -/
theorem append_of_lists_witness :
    OperandsEval (recurse_eval 1) (globalEnv freshGlobals)
      [quoted (atom "a"), quoted (atom "b")] freshGlobals [atom "a", atom "b"] freshGlobals ∧
    OperandsEval (recurse_eval 1) (globalEnv freshGlobals)
      [quoted (atom "c"), quoted (atom "d")] freshGlobals [atom "c", atom "d"] freshGlobals ∧
    OperandsEval (recurse_eval 1) (globalEnv freshGlobals)
      ([quoted (atom "a"), quoted (atom "b")] ++ [quoted (atom "c"), quoted (atom "d")])
      freshGlobals ([atom "a", atom "b"] ++ [atom "c", atom "d"]) freshGlobals ∧
    [atom "a", atom "b"] ≠ [] ∧ [atom "c", atom "d"] ≠ [] ∧
    (∃ la lb lc ab : SList,
      recurse_eval 2 (sexp (atom "list" :: [quoted (atom "a"), quoted (atom "b")]))
        (globalEnv freshGlobals) freshGlobals = .ok (some la, freshGlobals) ∧
      recurse_eval 2 (sexp (atom "list" :: [quoted (atom "c"), quoted (atom "d")]))
        (globalEnv freshGlobals) freshGlobals = .ok (some lb, freshGlobals) ∧
      recurse_eval 2 (sexp (atom "list" ::
          ([quoted (atom "a"), quoted (atom "b")] ++ [quoted (atom "c"), quoted (atom "d")])))
        (globalEnv freshGlobals) freshGlobals = .ok (some lc, freshGlobals) ∧
      append la lb = .ok ab ∧ isEqual ab lc = .ok ⟨.TRUE⟩) ∧
    eval 4 ⟨sexp [atom "equal?",
        sexp [atom "append", sexp [atom "list", quoted (atom "a"), quoted (atom "b")],
          sexp [atom "list", quoted (atom "c"), quoted (atom "d")]],
        sexp [atom "list", quoted (atom "a"), quoted (atom "b"), quoted (atom "c"),
          quoted (atom "d")]]⟩ freshGlobals
      = .ok (some ⟨.TRUE⟩, freshGlobals) :=
  have h1 : OperandsEval (recurse_eval 1) (globalEnv freshGlobals)
      [quoted (atom "a"), quoted (atom "b")] freshGlobals [atom "a", atom "b"] freshGlobals :=
    ⟨_, rfl, _, rfl, rfl⟩
  have h2 : OperandsEval (recurse_eval 1) (globalEnv freshGlobals)
      [quoted (atom "c"), quoted (atom "d")] freshGlobals [atom "c", atom "d"] freshGlobals :=
    ⟨_, rfl, _, rfl, rfl⟩
  have h3 : OperandsEval (recurse_eval 1) (globalEnv freshGlobals)
      ([quoted (atom "a"), quoted (atom "b")] ++ [quoted (atom "c"), quoted (atom "d")])
      freshGlobals ([atom "a", atom "b"] ++ [atom "c", atom "d"]) freshGlobals :=
    ⟨_, rfl, _, rfl, _, rfl, _, rfl, rfl⟩
  ⟨h1, h2, h3, by decide, by decide,
   append_of_lists 1 (globalEnv freshGlobals) _ _ _ _ _ _ _ _ _ h1 h2 h3 (by decide)
     (by decide),
   rfl⟩

/-- C20, the code at the failing input: take the chain of the two pairs `(t 1)` and `(a 2)`,
where `t` is the `TRUE` singleton, so that the leftmost leaf of the first
node carries no label. The reference lookup of `a` finds the second node, but
`assoc` compares the key with the missing label of that leaf and faults; so
does the input `(assoc 'a (list (list (< 1 2) '1) (list 'a '2)))` in a new
session, with fuel 5 and with any more. -/
theorem assoc_faults_on_unlabelled_leaf :
    firstMatch "a" (chain [chain [.TRUE, atom "1"], chain [atom "a", atom "2"]])
      = chain [atom "a", atom "2"] ∧
    assoc (atom "a") ⟨chain [chain [.TRUE, atom "1"], chain [atom "a", atom "2"]]⟩
      = .error .nullDeref ∧
    ∀ fuel : Nat,
      eval (fuel + 5) ⟨sexp [atom "assoc", quoted (atom "a"),
          sexp [atom "list", sexp [atom "list", sexp [atom "<", atom "1", atom "2"],
              quoted (atom "1")],
            sexp [atom "list", quoted (atom "a"), quoted (atom "2")]]]⟩ freshGlobals
        = .error .nullDeref :=
  ⟨rfl, rfl, fun _ => rfl⟩

/-- Away from the failing input of C20, the result of `assoc` is the one the
specification states. For every key atom `k` and every chain `L` that is not
`NULL` and in which every node visited by the scan has a leftmost leaf that
carries a label, `assoc` returns the content of the first chain node of `L`
(scanning along `mNext`, stopping at the first node without content) whose
leftmost leaf is labelled `k`, and a new bare atom `#f` when there is no such
node. -/
theorem assoc_first_match (k : String) (L : Cell) (hL : L.isNull = false)
    (hscan : scanLabelled k L = true) :
    assoc (atom k) ⟨L⟩
      = .ok ⟨if (firstMatch k L).isNull then symCell "#f" else firstMatch k L⟩ := by
  have hf := findAssoc_firstMatch k L hL hscan
  simp only [atom] at hf
  simp only [assoc, hL, Bool.false_eq_true, if_false, atom, mSub_mk, isNull_null, if_true, hf,
    ok_bind, pure_eq_ok, wrapStructure]
  cases (firstMatch k L).isNull <;> simp

/-- An instance of the lookup: in `((a 1) (b 2))` the key `b` finds the
pair `(b 2)` and the key `c` finds nothing. -/
theorem assoc_first_match_witness :
    (chain [chain [atom "a", atom "1"], chain [atom "b", atom "2"]]).isNull = false ∧
    scanLabelled "b" (chain [chain [atom "a", atom "1"], chain [atom "b", atom "2"]]) = true ∧
    assoc (atom "b") ⟨chain [chain [atom "a", atom "1"], chain [atom "b", atom "2"]]⟩
      = .ok ⟨chain [atom "b", atom "2"]⟩ ∧
    assoc (atom "c") ⟨chain [chain [atom "a", atom "1"], chain [atom "b", atom "2"]]⟩
      = .ok ⟨symCell "#f"⟩ :=
  ⟨rfl, rfl,
   (assoc_first_match "b" (chain [chain [atom "a", atom "1"], chain [atom "b", atom "2"]])
      rfl rfl).trans rfl,
   (assoc_first_match "c" (chain [chain [atom "a", atom "1"], chain [atom "b", atom "2"]])
      rfl rfl).trans rfl⟩

/-- C22: `null?`. For every cell `c` that is not `NULL`: `isNull` returns the
`FALSE` singleton when `c` is the `TRUE` singleton or is labelled `#t`;
otherwise it returns the `TRUE` singleton when `c` is the `FALSE` singleton
or is labelled `#f`; otherwise `isEmptyStructure` returns 1 or 0 on `c`, and
`isNull` returns the `TRUE` singleton when it is 1 and the `FALSE` singleton
when it is 0. -/
theorem isNull_cases (c : Cell) (hc : c.isNull = false) :
    (c = .TRUE ∨ labelOf c = some "#t" → isNull ⟨c⟩ = .ok ⟨.FALSE⟩) ∧
    (¬(c = .TRUE ∨ labelOf c = some "#t") → (c = .FALSE ∨ labelOf c = some "#f") →
      isNull ⟨c⟩ = .ok ⟨.TRUE⟩) ∧
    (¬(c = .TRUE ∨ labelOf c = some "#t") → ¬(c = .FALSE ∨ labelOf c = some "#f") →
      (isEmptyStructure c = .ok 1 ∧ isNull ⟨c⟩ = .ok ⟨.TRUE⟩) ∨
      (isEmptyStructure c = .ok 0 ∧ isNull ⟨c⟩ = .ok ⟨.FALSE⟩)) := by
  have hsym := mSymbol_eq_labelOf c hc
  have hlab : ∀ lit : String, symIs (labelOf c) lit = true ↔ labelOf c = some lit := by
    intro lit
    cases labelOf c <;> simp [symIs]
  have hemp := isEmptyStructure_allReserved c hc
  refine ⟨?_, ?_, ?_⟩
  · intro h
    have : (decide (c = .TRUE) || symIs (labelOf c) "#t") = true := by
      rcases h with h | h
      · simp [h]
      · simp [(hlab "#t").mpr h]
    simp only [isNull, hsym, ok_bind, this, if_true, pure_eq_ok, wrapStructure]
  · intro h1 h2
    have e1 : (decide (c = .TRUE) || symIs (labelOf c) "#t") = false := by
      simp only [not_or] at h1
      simp only [Bool.or_eq_false_iff, decide_eq_false_iff_not]
      exact ⟨h1.1, by rw [Bool.eq_false_iff]; exact fun e => h1.2 ((hlab "#t").mp e)⟩
    have e2 : (decide (c = .FALSE) || symIs (labelOf c) "#f") = true := by
      rcases h2 with h | h
      · simp [h]
      · simp [(hlab "#f").mpr h]
    simp only [isNull, hsym, ok_bind, e1, e2, if_true, pure_eq_ok, wrapStructure,
      Bool.false_eq_true, if_false]
  · intro h1 h2
    have e1 : (decide (c = .TRUE) || symIs (labelOf c) "#t") = false := by
      simp only [not_or] at h1
      simp only [Bool.or_eq_false_iff, decide_eq_false_iff_not]
      exact ⟨h1.1, by rw [Bool.eq_false_iff]; exact fun e => h1.2 ((hlab "#t").mp e)⟩
    have e2 : (decide (c = .FALSE) || symIs (labelOf c) "#f") = false := by
      simp only [not_or] at h2
      simp only [Bool.or_eq_false_iff, decide_eq_false_iff_not]
      exact ⟨h2.1, by rw [Bool.eq_false_iff]; exact fun e => h2.2 ((hlab "#f").mp e)⟩
    cases ha : allReserved c
    · right
      simp only [ha, Bool.false_eq_true, if_false] at hemp
      refine ⟨hemp, ?_⟩
      simp only [isNull, hsym, ok_bind, e1, e2, hemp, Bool.false_eq_true, if_false, pure_eq_ok,
        wrapStructure]
      rfl
    · left
      simp only [ha, if_true] at hemp
      refine ⟨hemp, ?_⟩
      simp only [isNull, hsym, ok_bind, e1, e2, hemp, Bool.false_eq_true, if_false, pure_eq_ok,
        wrapStructure]
      rfl

/-- The witness of C22: the atom `#t`, the atom `#f`, the chain `(a)` and the
chain `(())`. -/
theorem isNull_cases_witness :
    (atom "#t").isNull = false ∧
    isNull ⟨atom "#t"⟩ = .ok ⟨.FALSE⟩ ∧ isNull ⟨atom "#f"⟩ = .ok ⟨.TRUE⟩ ∧
    isNull ⟨chain [atom "a"]⟩ = .ok ⟨.FALSE⟩ ∧ isNull ⟨chain [atom "()"]⟩ = .ok ⟨.TRUE⟩ ∧
    isNull ⟨.TRUE⟩ = .ok ⟨.FALSE⟩ ∧ isNull ⟨.FALSE⟩ = .ok ⟨.TRUE⟩ :=
  ⟨rfl, (isNull_cases (atom "#t") rfl).1 (Or.inr rfl),
   (isNull_cases (atom "#f") rfl).2.1 (by decide) (Or.inr rfl), rfl, rfl, rfl, rfl⟩

/-- C27: `isEmptyStructure` equals its reference definition. For every cell `c`
that is not `NULL`, `isEmptyStructure` returns 1 if and only if every label
found on `c` or on a node reachable from `c` through content and continuation
links is one of `quote`, `()`, `#f`, `#t`, and returns 0 if and only if that
is not so. -/
theorem isEmptyStructure_reference (c : Cell) (hc : c.isNull = false) :
    (isEmptyStructure c = .ok 1 ↔
      ∀ d l, Reach c d → labelOf d = some l → l ∈ reservedLabels) ∧
    (isEmptyStructure c = .ok 0 ↔
      ¬ ∀ d l, Reach c d → labelOf d = some l → l ∈ reservedLabels) := by
  rw [isEmptyStructure_allReserved c hc, ← allReserved_iff]
  cases allReserved c <;> simp

/-- The witness of C27: the chain `(() (#f quote))` is empty and the chain
`(() (#f a))` is not. -/
theorem isEmptyStructure_reference_witness :
    (chain [atom "()", chain [atom "#f", atom "quote"]]).isNull = false ∧
    isEmptyStructure (chain [atom "()", chain [atom "#f", atom "quote"]]) = .ok 1 ∧
    (∀ d l, Reach (chain [atom "()", chain [atom "#f", atom "quote"]]) d →
      labelOf d = some l → l ∈ reservedLabels) ∧
    isEmptyStructure (chain [atom "()", chain [atom "#f", atom "a"]]) = .ok 0 ∧
    ¬ (∀ d l, Reach (chain [atom "()", chain [atom "#f", atom "a"]]) d →
      labelOf d = some l → l ∈ reservedLabels) :=
  ⟨rfl, rfl,
   (isEmptyStructure_reference (chain [atom "()", chain [atom "#f", atom "quote"]]) rfl).1.mp
     rfl,
   rfl,
   (isEmptyStructure_reference (chain [atom "()", chain [atom "#f", atom "a"]]) rfl).2.mp rfl⟩

/-- C29: the shape of environments. From the initial association list, `k`
successive calls of `define` whose values are not atoms labelled `#f` (the
keys may be any cells, atoms in particular) return the chain `envShape` of
the bindings: exactly `k` nodes, each holding the pair node of a binding as
content, the most recent first, followed after `k` continuation links by a
bare atom `#f`. Each single call on an environment of that shape returns a
new head node whose continuation is the node of the input environment and
whose content is the new pair, so no pair is removed or altered. -/
theorem define_keeps_shape (bs : List (Cell × Cell))
    (hv : ∀ kv ∈ bs, cellSymIs kv.2 "#f" = false) :
    defineAll bs iniAssocList = .ok ⟨envShape bs.reverse⟩ ∧
    dropNodes bs.length (envShape bs.reverse) = symCell "#f" ∧
    (∀ (older : List (Cell × Cell)) (key value : Cell), cellSymIs value "#f" = false →
      define ⟨key⟩ ⟨value⟩ ⟨envShape older⟩
        = .ok ⟨.mk none (envShape older) (bindingPair key value)⟩) := by
  refine ⟨?_, ?_, ?_⟩
  · have := defineAll_envShape bs [] hv
    simpa [envShape, iniAssocList, wrapStructure] using this
  · have := dropNodes_envShape bs.reverse
    simpa using this
  · intro older key value hval
    exact define_accepting ⟨key⟩ ⟨value⟩ ⟨envShape older⟩ hval (envShape_accepts older)

/-- The witness of C29: `x` bound to `1`, then `y` bound to the chain `(a)`. -/
theorem define_keeps_shape_witness :
    (∀ kv ∈ [(atom "x", atom "1"), (atom "y", chain [atom "a"])],
      cellSymIs kv.2 "#f" = false) ∧
    defineAll [(atom "x", atom "1"), (atom "y", chain [atom "a"])] iniAssocList
      = .ok ⟨.mk none (.mk none (symCell "#f") (bindingPair (atom "x") (atom "1")))
          (bindingPair (atom "y") (chain [atom "a"]))⟩ :=
  have h : ∀ kv ∈ [(atom "x", atom "1"), (atom "y", chain [atom "a"])],
      cellSymIs kv.2 "#f" = false := by decide
  ⟨h, (define_keeps_shape [(atom "x", atom "1"), (atom "y", chain [atom "a"])] h).1⟩

/-- C21, the code at the failing input: in a new session `(define x (< 1 2))`
binds `x` to the `TRUE` singleton and `(define x 7)` then binds that
singleton, a key without label, to `7`. In the resulting store no pair has a
leftmost leaf labelled `y` (the reference lookup finds nothing), yet
evaluating the bare atom `y` faults, with any fuel: `findAssoc` hands the
missing label to `strcmp`, the one comparison of a label that no test for
`NULL` guards. -/
theorem unbound_symbol_faults :
    ∃ g1 g2 : Globals,
      eval 3 ⟨sexp [atom "define", atom "x", sexp [atom "<", atom "1", atom "2"]]⟩ freshGlobals
        = .ok (none, g1) ∧
      eval 2 ⟨sexp [atom "define", atom "x", atom "7"]⟩ g1 = .ok (none, g2) ∧
      firstMatch "y" g2.mAssocVars = .null ∧
      ∀ fuel : Nat, eval (fuel + 1) ⟨atom "y"⟩ g2 = .error .nullDeref :=
  ⟨_, _, rfl, rfl, rfl, fun _ => rfl⟩

/-- Away from the failing input of C21, an unbound symbol evaluates to itself.
For every bare atom `a` and every environment that is not `NULL`, in which
the leftmost leaf of every pair carries a label and none of these labels
equals the label of `a` (the reference lookup finds nothing), `recurse_eval`
returns a handle that wraps `a` itself and leaves the globals. -/
theorem unbound_symbol_self (fuel : Nat) (s : String) (environment : Env) (g : Globals)
    (henv : environment.mStructure.isNull = false)
    (hscan : scanLabelled s environment.mStructure = true)
    (hnone : firstMatch s environment.mStructure = .null) :
    recurse_eval (fuel + 1) (atom s) environment g = .ok (some ⟨atom s⟩, g) := by
  have hf := findAssoc_firstMatch s environment.mStructure henv hscan
  rw [hnone] at hf
  rw [recurse_eval_atom]
  simp only [atom] at hf
  simp [evalSymbol, assoc, Env.list, henv, atom, hf, wrapStructure, symCell, symIs]

/-- An instance of the unbound symbol: `y` in a store that binds `x` to `5`. -/
theorem unbound_symbol_self_witness :
    (Cell.mk none (symCell "#f") (bindingPair (atom "x") (atom "5"))).isNull = false ∧
    scanLabelled "y" (.mk none (symCell "#f") (bindingPair (atom "x") (atom "5"))) = true ∧
    firstMatch "y" (.mk none (symCell "#f") (bindingPair (atom "x") (atom "5"))) = .null ∧
    recurse_eval 1 (atom "y")
        ⟨.mk none (symCell "#f") (bindingPair (atom "x") (atom "5")), some 1⟩ freshGlobals
      = .ok (some ⟨atom "y"⟩, freshGlobals) :=
  ⟨rfl, rfl, rfl,
   unbound_symbol_self 0 "y" ⟨.mk none (symCell "#f") (bindingPair (atom "x") (atom "5")), some 1⟩
     freshGlobals rfl rfl rfl⟩

/-- C26, the code at the failing input: in a new session the input
`(define x ((define q 1)))` is evaluated in the global variable store, but
the store afterwards is the one the inner `define` published, with `q` bound
to `1`; it is not the environment `define` returns for `x`, and `x` is left
unbound: the inner `define` has replaced the wrapper that the address test of
the outer one compares with. -/
theorem nested_define_not_published :
    ∃ g1 : Globals,
      eval 4 ⟨sexp [atom "define", atom "x",
          sexp [sexp [atom "define", atom "q", atom "1"]]]⟩ freshGlobals = .ok (none, g1) ∧
      g1.mAssocVars = .mk none (symCell "#f") (bindingPair (atom "q") (atom "1")) ∧
      define ⟨atom "x"⟩ ⟨sexp [sexp [atom "define", atom "q", atom "1"]]⟩
          (globalEnv freshGlobals).list
        = .ok ⟨.mk none (symCell "#f")
            (bindingPair (atom "x") (sexp [sexp [atom "define", atom "q", atom "1"]]))⟩ ∧
      g1.mAssocVars ≠ .mk none (symCell "#f")
          (bindingPair (atom "x") (sexp [sexp [atom "define", atom "q", atom "1"]])) ∧
      eval 1 ⟨atom "x"⟩ g1 = .ok (some ⟨atom "x"⟩, g1) ∧
      eval 1 ⟨atom "q"⟩ g1 = .ok (some ⟨atom "1"⟩, g1) :=
  ⟨_, rfl, rfl, rfl, by decide, rfl, rfl⟩

/-- The variable form of `define` in terms of its address test. When the key
and the value of `(define k v)` evaluate to handles, the key to a cell
without content, the node returns no handle. If the environment passed
is the wrapper `mAssocVars` points to once key and value are evaluated, the
store afterwards is the environment `define` returns for key, value and that
environment; if it is not (a local environment of a call, or a store that
was replaced while key and value were evaluated), the globals are those the
evaluation of key and value left. -/
theorem define_publishes (fuel : Nat) (k v kc vc : Cell) (environment : Env)
    (g g1 g2 : Globals) (enviro : SList)
    (hk : recurse_eval fuel k environment g = .ok (some ⟨kc⟩, g1))
    (hv : recurse_eval fuel v environment g1 = .ok (some ⟨vc⟩, g2))
    (hlist : (isList ⟨kc⟩).mStructure = .FALSE)
    (hdef : define ⟨kc⟩ ⟨vc⟩ environment.list = .ok enviro) :
    (environment.store = some g2.varsGen →
      recurse_eval (fuel + 1) (sexp [atom "define", k, v]) environment g
        = .ok (none, { g2 with mAssocVars := enviro.mStructure, varsGen := g2.varsGen + 1 })) ∧
    (environment.store ≠ some g2.varsGen →
      recurse_eval (fuel + 1) (sexp [atom "define", k, v]) environment g = .ok (none, g2)) := by
  have hstep : recurse_eval (fuel + 1) (sexp [atom "define", k, v]) environment g
      = if environment.store = some g2.varsGen then
          .ok (none, { g2 with mAssocVars := enviro.mStructure, varsGen := g2.varsGen + 1 })
        else .ok (none, g2) := by
    rw [evalDefine_node]
    simp only [evalDefine, sexp, chain, operand1, operand2, mNext_mk, mSub_mk, ok_bind, hk, hv,
      deref, hlist, if_true, hdef, pure_eq_ok]
  constructor
  · intro h; rw [hstep, if_pos h]
  · intro h; rw [hstep, if_neg h]

/-- An instance of the address test: `(define x 5)` in the global store of a new
session, and in a local environment. -/
theorem define_publishes_witness :
    recurse_eval 1 (atom "x") (globalEnv freshGlobals) freshGlobals
      = .ok (some ⟨atom "x"⟩, freshGlobals) ∧
    recurse_eval 1 (atom "5") (globalEnv freshGlobals) freshGlobals
      = .ok (some ⟨atom "5"⟩, freshGlobals) ∧
    (isList ⟨atom "x"⟩).mStructure = .FALSE ∧
    define ⟨atom "x"⟩ ⟨atom "5"⟩ (globalEnv freshGlobals).list
      = .ok ⟨.mk none (symCell "#f") (bindingPair (atom "x") (atom "5"))⟩ ∧
    recurse_eval 2 (sexp [atom "define", atom "x", atom "5"]) (globalEnv freshGlobals)
        freshGlobals
      = .ok (none, { freshGlobals with
          mAssocVars := .mk none (symCell "#f") (bindingPair (atom "x") (atom "5")),
          varsGen := 1 }) ∧
    recurse_eval 2 (sexp [atom "define", atom "x", atom "5"]) ⟨symCell "#f", none⟩ freshGlobals
      = .ok (none, freshGlobals) :=
  ⟨rfl, rfl, rfl, rfl,
   (define_publishes 1 (atom "x") (atom "5") (atom "x") (atom "5") (globalEnv freshGlobals)
      freshGlobals freshGlobals freshGlobals _ rfl rfl rfl rfl).1 rfl,
   (define_publishes 1 (atom "x") (atom "5") (atom "x") (atom "5") ⟨symCell "#f", none⟩
      freshGlobals freshGlobals freshGlobals _ rfl rfl rfl rfl).2 (by decide)⟩

/-- C30: a function definition evaluates its body at definition time. When the
key of `(define k b)` evaluates to a handle on a cell with content (a list),
the node evaluates the body `b` once, in the same environment and in the
globals the key left, and then stores the definition in the globals the body
left: the side effects of the body happen, and a body that does not return
keeps the definition from being stored. -/
theorem define_function_evaluates_body (fuel : Nat) (k b kc : Cell) (environment : Env)
    (g g1 : Globals)
    (hk : recurse_eval fuel k environment g = .ok (some ⟨kc⟩, g1))
    (hlist : (isList ⟨kc⟩).mStructure = .TRUE) :
    recurse_eval (fuel + 1) (sexp [atom "define", k, b]) environment g
      = (recurse_eval fuel b environment g1 >>= fun r =>
          defineFunction ⟨kc⟩ (wrapStructure b) r.2) := by
  rw [evalDefine_node]
  simp only [evalDefine, sexp, chain, operand1, operand2, mNext_mk, mSub_mk, ok_bind, hk, deref,
    hlist, pure_eq_ok]
  cases recurse_eval fuel b environment g1 with
  | error e => rfl
  | ok r => simp

/-- The witness of C30: in a new session, after `(define (f x) (define z 1))`
the variable store binds `z` to `1` and `z` evaluates to `1`. -/
theorem define_function_evaluates_body_witness :
    recurse_eval 2 (sexp [atom "f", atom "x"]) (globalEnv freshGlobals) freshGlobals
      = .ok (some ⟨sexp [atom "f", atom "x"]⟩, freshGlobals) ∧
    (isList ⟨sexp [atom "f", atom "x"]⟩).mStructure = .TRUE ∧
    ∃ g1 : Globals,
      eval 3 ⟨sexp [atom "define", sexp [atom "f", atom "x"],
          sexp [atom "define", atom "z", atom "1"]]⟩ freshGlobals = .ok (none, g1) ∧
      g1.mAssocVars = .mk none (symCell "#f") (bindingPair (atom "z") (atom "1")) ∧
      eval 1 ⟨atom "z"⟩ g1 = .ok (some ⟨atom "1"⟩, g1) :=
  ⟨rfl, rfl, _,
   (define_function_evaluates_body 2 (sexp [atom "f", atom "x"])
      (sexp [atom "define", atom "z", atom "1"]) (sexp [atom "f", atom "x"])
      (globalEnv freshGlobals) freshGlobals freshGlobals rfl rfl).trans rfl,
   rfl, rfl⟩

/-- C28: unmatched structures evaluate to themselves. For every chain of atoms
`(h a1 ... an)` in which no label is a keyword of the dispatch, and none has
a match in the function store or in the environment, `recurse_eval` returns
a handle that wraps the chain itself and leaves the globals; fuel equal to
the number of atoms is enough. -/
theorem unmatched_structure_self (h : String) (rest : List String) (fuel : Nat)
    (environment : Env) (g : Globals)
    (hfns : g.mAssocFns.isNull = false) (henv : environment.mStructure.isNull = false)
    (hun : ∀ x ∈ h :: rest, x ∉ keywords ∧ findAssoc (atom x) g.mAssocFns = .ok .null ∧
      findAssoc (atom x) environment.mStructure = .ok .null) :
    recurse_eval (fuel + (h :: rest).length) (sexp ((h :: rest).map atom)) environment g
      = .ok (some ⟨sexp ((h :: rest).map atom)⟩, g) :=
  recurse_eval_unmatched_chain rest h fuel environment g hfns henv hun

/-- The witness of C28: `(foo 1 2)` in a new session. -/
theorem unmatched_structure_self_witness :
    freshGlobals.mAssocFns.isNull = false ∧
    (globalEnv freshGlobals).mStructure.isNull = false ∧
    (∀ x ∈ ["foo", "1", "2"], x ∉ keywords ∧
      findAssoc (atom x) freshGlobals.mAssocFns = .ok .null ∧
      findAssoc (atom x) (globalEnv freshGlobals).mStructure = .ok .null) ∧
    recurse_eval 3 (sexp [atom "foo", atom "1", atom "2"]) (globalEnv freshGlobals)
        freshGlobals
      = .ok (some ⟨sexp [atom "foo", atom "1", atom "2"]⟩, freshGlobals) :=
  have hun : ∀ x ∈ ["foo", "1", "2"], x ∉ keywords ∧
      findAssoc (atom x) freshGlobals.mAssocFns = .ok .null ∧
      findAssoc (atom x) (globalEnv freshGlobals).mStructure = .ok .null := by
    intro x hx
    simp only [List.mem_cons, List.mem_singleton, List.not_mem_nil, or_false] at hx
    rcases hx with rfl | rfl | rfl <;> exact ⟨by decide, rfl, rfl⟩
  ⟨rfl, rfl, hun,
   unmatched_structure_self "foo" ["1", "2"] 0 (globalEnv freshGlobals) freshGlobals rfl rfl
     hun⟩

/-- C23: `number?`. For every node whose first atom (the node itself if it has
no content, else its content) carries the label `s`, `isNumber` returns the
`TRUE` singleton if every character of `s` is a decimal digit or is a `-` at
index 0, and the `FALSE` singleton if not. -/
theorem isNumber_scans_label (c : Cell) (s : String)
    (hs : (firstAtom c).mSymbol = .ok (some s)) :
    ((∀ (i : Nat) (h : i < s.data.length),
        (s.data.get ⟨i, h⟩).isDigit = true ∨ (i = 0 ∧ s.data.get ⟨i, h⟩ = '-')) →
      isNumber ⟨c⟩ = .ok ⟨.TRUE⟩) ∧
    (¬ (∀ (i : Nat) (h : i < s.data.length),
        (s.data.get ⟨i, h⟩).isDigit = true ∨ (i = 0 ∧ s.data.get ⟨i, h⟩ = '-')) →
      isNumber ⟨c⟩ = .ok ⟨.FALSE⟩) := by
  rw [isNumber_first_atom c s hs]
  have hiff := scanNumber_true_iff s.data 0
  simp only [Nat.zero_add] at hiff
  constructor
  · intro h; rw [hiff.2 h]
  · intro h
    rcases scanNumber_cases s.data 0 with ht | hf
    · exact absurd (hiff.1 ht) h
    · rw [hf]

/-- The witness of C23: the atom `-12` is a number, the list `(1-2)` is not. -/
theorem isNumber_scans_label_witness :
    (firstAtom (atom "-12")).mSymbol = .ok (some "-12") ∧
    isNumber ⟨atom "-12"⟩ = .ok ⟨.TRUE⟩ ∧
    (firstAtom (sexp [atom "1-2"])).mSymbol = .ok (some "1-2") ∧
    isNumber ⟨sexp [atom "1-2"]⟩ = .ok ⟨.FALSE⟩ :=
  ⟨rfl, (isNumber_scans_label (atom "-12") "-12" rfl).1 (by decide),
   rfl, (isNumber_scans_label (sexp [atom "1-2"]) "1-2" rfl).2 (by decide)⟩

/-- C25: the parser desugars the quote shorthand. For every well-formed
expression `e` that is an atom token or a parenthesised expression, with
`e.tree` the tree `S_Expression` builds from the tokens of `e`: from the
single quote followed by the tokens of `e`, and from `(`, `quote`, the
tokens of `e`, `)`, `S_Expression` builds the same tree, the chain of the
atom `quote` and `e.tree`, and in both cases the tokens after these are
still to be delivered. -/
theorem quote_shorthand_desugars (e : SExpr) (follow : List String) (fuel : Nat)
    (hw : e.wellFormed = true) (hs : e.isShort = false) (hf : e.need + 2 ≤ fuel) :
    S_Expression fuel (e.tokens ++ follow) = some (⟨e.tree⟩, ⟨e.lastToken, follow⟩) ∧
    S_Expression fuel ("'" :: (e.tokens ++ follow))
      = some (⟨sexp [atom "quote", e.tree]⟩, ⟨e.lastToken, follow⟩) ∧
    S_Expression fuel ("(" :: "quote" :: (e.tokens ++ ")" :: follow))
      = some (⟨sexp [atom "quote", e.tree]⟩, ⟨")", follow⟩) := by
  have hp := e.need_pos
  have h0 := parse_expr e hw fuel (by omega) "" follow
  have h1 := parse_expr (.short e) (by simp [SExpr.wellFormed, hw, hs]) fuel
    (by simp only [SExpr.need]; omega) "" follow
  have h2 := parse_expr (.paren (.tok "quote") (.cons e .nil))
    (by simp [SExpr.wellFormed, SItems.wellFormed, hw]) fuel
    (by simp only [SExpr.need, SItems.need]; omega) "" follow
  simp only [SExpr.tokens, SItems.tokens, List.cons_append, List.nil_append, List.append_nil,
    List.append_assoc, SExpr.tree, SItems.tree, SExpr.lastToken] at h1 h2
  rw [Option.bind_eq_some] at h0 h1 h2
  obtain ⟨s0, a0, b0⟩ := h0
  obtain ⟨s1, a1, b1⟩ := h1
  obtain ⟨s2, a2, b2⟩ := h2
  refine ⟨?_, ?_, ?_⟩
  · simp only [S_Expression, a0, b0]
  · simp only [S_Expression, a1, b1]; rfl
  · simp only [S_Expression, a2, b2]; rfl

/-- The witness of C25: the shorthand before `(a b)`, with a token `z` after
it. -/
theorem quote_shorthand_desugars_witness :
    S_Expression 5 ["(", "a", "b", ")", "z"]
      = some (⟨sexp [atom "a", atom "b"]⟩, ⟨")", ["z"]⟩) ∧
    S_Expression 5 ["'", "(", "a", "b", ")", "z"]
      = some (⟨sexp [atom "quote", sexp [atom "a", atom "b"]]⟩, ⟨")", ["z"]⟩) ∧
    S_Expression 5 ["(", "quote", "(", "a", "b", ")", ")", "z"]
      = some (⟨sexp [atom "quote", sexp [atom "a", atom "b"]]⟩, ⟨")", ["z"]⟩) :=
  quote_shorthand_desugars (.paren (.tok "a") (.cons (.tok "b") .nil)) ["z"] 5 rfl rfl
    (by decide)

/-- C31: `equal?` cannot tell the two boolean singletons apart. Both sentinels
have no label, no content and no continuation; `isEqual` of the `TRUE`
singleton and the `FALSE` singleton, in either order, returns the `TRUE`
singleton, and in a new session `(equal? (< 1 2) (> 1 2))`, whose operands
evaluate to the `TRUE` and to the `FALSE` singleton, evaluates to `TRUE`. -/
theorem isEqual_confuses_singletons :
    (Cell.TRUE.mSymbol = .ok none ∧ Cell.TRUE.mSub = .ok .null ∧ Cell.TRUE.mNext = .ok .null) ∧
    (Cell.FALSE.mSymbol = .ok none ∧ Cell.FALSE.mSub = .ok .null ∧
      Cell.FALSE.mNext = .ok .null) ∧
    isEqual ⟨.TRUE⟩ ⟨.FALSE⟩ = .ok ⟨.TRUE⟩ ∧
    isEqual ⟨.FALSE⟩ ⟨.TRUE⟩ = .ok ⟨.TRUE⟩ ∧
    ∀ fuel : Nat,
      eval (fuel + 2) ⟨sexp [atom "<", atom "1", atom "2"]⟩ freshGlobals
        = .ok (some ⟨.TRUE⟩, freshGlobals) ∧
      eval (fuel + 2) ⟨sexp [atom ">", atom "1", atom "2"]⟩ freshGlobals
        = .ok (some ⟨.FALSE⟩, freshGlobals) ∧
      eval (fuel + 3) ⟨sexp [atom "equal?", sexp [atom "<", atom "1", atom "2"],
          sexp [atom ">", atom "1", atom "2"]]⟩ freshGlobals
        = .ok (some ⟨.TRUE⟩, freshGlobals) :=
  ⟨⟨rfl, rfl, rfl⟩, ⟨rfl, rfl, rfl⟩, rfl, rfl, fun _ => ⟨rfl, rfl, rfl⟩⟩

/-- C32: numeral atoms are resolved through the variable environment like
symbols. In a new session `(define 5 6)` returns no handle and binds the
atom `5`; afterwards the bare atom `5` evaluates to the atom `6`, and
`(+ 5 0)` evaluates to the atom `6`. -/
theorem numeral_atoms_are_looked_up :
    ∃ g1 : Globals,
      (∀ fuel : Nat,
        eval (fuel + 2) ⟨sexp [atom "define", atom "5", atom "6"]⟩ freshGlobals
          = .ok (none, g1)) ∧
      g1.mAssocVars = .mk none (symCell "#f") (bindingPair (atom "5") (atom "6")) ∧
      (∀ fuel : Nat, eval (fuel + 1) ⟨atom "5"⟩ g1 = .ok (some ⟨atom "6"⟩, g1)) ∧
      (∀ fuel : Nat,
        eval (fuel + 2) ⟨sexp [atom "+", atom "5", atom "0"]⟩ g1
          = .ok (some ⟨atom "6"⟩, g1)) :=
  ⟨_, fun _ => rfl, rfl, fun _ => rfl, fun _ => rfl⟩

/-- C33: binding the literal `#f` loses the value. For every atom `s` and every
environment that is not `NULL`, the pair `define` builds for `s` and a bare
atom `#f` has no continuation: its content is an empty node around `s`, and
there is no cell for the value. `define` returns an environment, with that
pair as the content of a new first node when `cons` can prepend to the
environment, and in the environment returned the lookup of `s` by
`assocForVar`, from the atom and from a cell that holds it, and the
evaluation of the bare atom `s` return a handle whose structure is `NULL`. -/
theorem define_false_loses_value (s : String) (environment : SList)
    (he : environment.mStructure.isNull = false) :
    (cons ⟨atom "#f"⟩ (wrapStructure (symCell "#f")) >>= fun droppedLevel =>
        cons ⟨atom s⟩ droppedLevel)
      = .ok ⟨.mk none .null (.mk none .null (atom s))⟩ ∧
    ∃ env2 : SList, define ⟨atom s⟩ ⟨atom "#f"⟩ environment = .ok env2 ∧
      (acceptsBinding environment.mStructure = true →
        env2 = ⟨.mk none environment.mStructure (.mk none .null (.mk none .null (atom s)))⟩) ∧
      assocForVar (atom s) env2 = .ok ⟨.null⟩ ∧
      (∀ (sym : Option String) (next : Cell),
        assocForVar (.mk sym next (atom s)) env2 = .ok ⟨.null⟩) ∧
      (∀ (fuel : Nat) (st : Option Nat) (g : Globals),
        recurse_eval (fuel + 1) (atom s) ⟨env2.mStructure, st⟩ g = .ok (some ⟨.null⟩, g)) := by
  have hpair : (cons ⟨atom "#f"⟩ (wrapStructure (symCell "#f")) >>= fun droppedLevel =>
      cons ⟨atom s⟩ droppedLevel) = .ok ⟨.mk none .null (.mk none .null (atom s))⟩ := rfl
  refine ⟨hpair, ?_⟩
  by_cases ha : acceptsBinding environment.mStructure = true
  · have hd := define_result ⟨atom s⟩ ⟨atom "#f"⟩ environment ha
    have hs : storedPair (atom s) (atom "#f") = .mk none .null (.mk none .null (atom s)) := rfl
    simp only [hs] at hd
    have hf := findAssoc_lost s environment.mStructure
    simp only [atom] at hf
    refine ⟨_, hd, fun _ => rfl, ?_, ?_, ?_⟩
    · simp [assocForVar, assoc, atom, hf, wrapStructure, symIs, cadr, cdr, car, iniCell]
    · intro sym next
      simp [assocForVar, assoc, atom, hf, wrapStructure, symIs, cadr, cdr, car, iniCell]
    · intro fuel st g
      rw [recurse_eval_atom]
      simp [evalSymbol, assoc, Env.list, atom, hf, wrapStructure, symIs, cdr, car, iniCell]
  · obtain ⟨c⟩ := environment
    cases c with
    | null => simp at he
    | TRUE => simp [acceptsBinding] at ha
    | FALSE => simp [acceptsBinding] at ha
    | mk sym0 n0 sub0 =>
      simp only [acceptsBinding, Bool.not_eq_true, Bool.not_eq_false', Bool.not_not] at ha
      have hd : define ⟨atom s⟩ ⟨atom "#f"⟩ ⟨.mk sym0 n0 sub0⟩
          = .ok ⟨.mk none .null (.mk none .null (.mk none .null (.mk none .null (atom s))))⟩ := by
        have h1 : cons ⟨atom "#f"⟩ (wrapStructure (symCell "#f"))
            = .ok ⟨.mk none (symCell "#f") (atom "#f")⟩ := rfl
        have h2 : cons ⟨atom s⟩ ⟨.mk none (symCell "#f") (atom "#f")⟩
            = .ok ⟨.mk none .null (.mk none .null (atom s))⟩ := rfl
        have h3 : cons ⟨.mk none .null (.mk none .null (atom s))⟩ ⟨.mk sym0 n0 sub0⟩
            = .ok ⟨.mk none .null (.mk none .null (.mk none .null (.mk none .null (atom s))))⟩ := by
          simp [cons, ha, wrapStructure]
        simp [define, h1, h2, h3]
      have hf : findAssoc (.mk (some s) .null .null)
          (.mk none .null (.mk none .null (.mk none .null (.mk none .null
            (.mk (some s) .null .null)))))
          = .ok (.mk none .null (.mk none .null (.mk none .null
            (.mk (some s) .null .null)))) := by
        simp [findAssoc, lowest, strEq]
      refine ⟨_, hd, fun h => ?_, ?_, ?_, ?_⟩
      · simp [acceptsBinding, ha] at h
      · simp [assocForVar, assoc, atom, hf, wrapStructure, symIs, cadr, cdr, car, iniCell]
      · intro sym next
        simp [assocForVar, assoc, atom, hf, wrapStructure, symIs, cadr, cdr, car, iniCell]
      · intro fuel st g
        rw [recurse_eval_atom]
        simp [evalSymbol, assoc, Env.list, atom, hf, wrapStructure, symIs, cdr, car, iniCell]

/-- The witness of C33: `(define x #f)` in a new session; afterwards `x`
evaluates to a handle without structure. -/
theorem define_false_loses_value_witness :
    iniAssocList.mStructure.isNull = false ∧
    (∃ g1 : Globals,
      eval 2 ⟨sexp [atom "define", atom "x", atom "#f"]⟩ freshGlobals = .ok (none, g1) ∧
      g1.mAssocVars
        = .mk none (symCell "#f") (.mk none .null (.mk none .null (atom "x"))) ∧
      eval 1 ⟨atom "x"⟩ g1 = .ok (some ⟨.null⟩, g1)) ∧
    ∃ env2 : SList, define ⟨atom "x"⟩ ⟨atom "#f"⟩ iniAssocList = .ok env2 ∧
      assocForVar (atom "x") env2 = .ok ⟨.null⟩ :=
  ⟨rfl, ⟨_, rfl, rfl, rfl⟩,
   (define_false_loses_value "x" iniAssocList rfl).2.imp fun _ h => ⟨h.1, h.2.2.1⟩⟩

/-- C34: `append` does not treat the empty list as an identity. For every
structure `b`, `append` of a single node without content and continuation,
whatever its label (the atom `()`, an empty node, or one of the two
singletons), and of `b` returns a
node without label and content whose continuation is `b`, and `isEqual`
of that result and `b` returns the `FALSE` singleton. In a new session
`'()` evaluates to the atom `()` and `(equal? (append '() '(a)) '(a))` to
the `FALSE` singleton. -/
theorem append_empty_not_identity (sym : Option String) (b : Cell) :
    append ⟨.mk sym .null .null⟩ ⟨b⟩ = .ok ⟨.mk none b .null⟩ ∧
    append ⟨.TRUE⟩ ⟨b⟩ = .ok ⟨.mk none b .null⟩ ∧
    append ⟨.FALSE⟩ ⟨b⟩ = .ok ⟨.mk none b .null⟩ ∧
    isEqual ⟨.mk none b .null⟩ ⟨b⟩ = .ok ⟨.FALSE⟩ ∧
    ∀ fuel : Nat,
      eval (fuel + 1) ⟨quoted (atom "()")⟩ freshGlobals
        = .ok (some ⟨atom "()"⟩, freshGlobals) ∧
      eval (fuel + 3) ⟨sexp [atom "equal?",
          sexp [atom "append", quoted (atom "()"), quoted (sexp [atom "a"])],
          quoted (sexp [atom "a"])]⟩ freshGlobals
        = .ok (some ⟨.FALSE⟩, freshGlobals) := by
  refine ⟨rfl, rfl, rfl, ?_, fun _ => ⟨rfl, rfl⟩⟩
  cases hb : b.isNull
  · simp [isEqual, hb, compareEqual_shifted b hb, wrapStructure]
  · simp [isEqual, hb, wrapStructure]

end SchemeEval
